import Mathlib

/-!
# memdbgvis: snapshot capture and serialization

A shallow embedding of the JVM agent of `memdbgvis` (`jvmagent/src/agent.cpp`,
`jvmagent/src/visualizerproccomm.cpp`) and of the deserializer of its visualizer
(`visualizer/src/debugvisualizer.cpp`), together with the properties of the
type-descriptor decoder, the value formatter, the capture handler, the
serializer and the heap-detail map.

Conventions of the embedding.

* A C++ `std::string` is a list of `Char`; every `Char` stands for one byte
  (`char`) of the C++ string.
* `size_t` values are natural numbers; the one place where the source relies on
  unsigned wrap-around (differences of `find` results) goes through `sizeSub`.
* A computation that can throw a C++ exception or run into undefined behaviour
  (an out-of-bounds read) returns `Except Fault _`.
* A JVMTI call that reports a status is a value of `Except Str _`: `.error e`
  carries the name that `GetErrorName` gives for the status, `.ok v` is
  `JVMTI_ERROR_NONE` together with the out-parameters.
-/

set_option autoImplicit false

namespace Memdbgvis

/-! ## Strings and faults -/

/-- A `std::string`, one `Char` per byte. -/
abbrev Str := List Char

/-- Ways in which the C++ code can fail to complete normally. -/
inductive Fault
  /-- A `std::out_of_range` exception (`unordered_map::at`, `string::substr`). -/
  | outOfRange
  /-- Undefined behaviour: a read outside of an array or string. -/
  | undefinedBehaviour
  /-- The loop bound of the embedding was exhausted (never happens for the
  bounds the embedding supplies). -/
  | outOfFuel
  deriving DecidableEq, Repr

deriving instance DecidableEq for Except

/-- The value `std::string::npos` of a 64-bit `size_t`. -/
def npos : Nat := 2 ^ 64 - 1

/-- Subtraction of two `size_t` values: a negative difference wraps around
modulo `2 ^ 64`. -/
def sizeSub (a b : Nat) : Nat :=
  if b ≤ a then a - b else a + 2 ^ 64 - b

/-- The C++ call `s.find(c)`: the index of the first occurrence of `c`, or
`none` when the call returns `std::string::npos`. -/
def find (s : Str) (c : Char) : Option Nat :=
  if s.indexOf c < s.length then some (s.indexOf c) else none

/-- The `size_t` value of a `find` result. -/
def posValue : Option Nat → Nat
  | some i => i
  | none => npos

/-- Whether `s` begins with `pat`. -/
def startsWith : Str → Str → Bool
  | _, [] => true
  | [], _ :: _ => false
  | c :: cs, p :: ps => c = p && startsWith cs ps

/-- The test `s.find(pat) != std::string::npos` for a string pattern. -/
def containsStr : Str → Str → Bool
  | [], pat => startsWith [] pat
  | c :: cs, pat => startsWith (c :: cs) pat || containsStr cs pat

/-- The C++ call `s.substr(pos, n)`: throws when `pos` exceeds the size,
otherwise at most `n` characters from `pos` on. -/
def substr (s : Str) (pos n : Nat) : Except Fault Str :=
  if s.length < pos then .error .outOfRange else .ok ((s.drop pos).take n)

/-- The C++ call `s.substr(pos)`: throws when `pos` exceeds the size, otherwise
all characters from `pos` on. -/
def substrFrom (s : Str) (pos : Nat) : Except Fault Str :=
  if s.length < pos then .error .outOfRange else .ok (s.drop pos)

/-- The C++ call `std::ranges::replace(s, old, new)`. -/
def replace (s : Str) (old new : Char) : Str :=
  s.map fun ch => if ch = old then new else ch

/-! ## TypeDescriptorDecoder (`agent.h`, `agent.cpp` 620-703) -/

/-- The table `Agent::mappings`; `none` when the key is absent. -/
def mappings : Char → Option Str
  | 'Z' => some "boolean".toList
  | 'B' => some "byte".toList
  | 'C' => some "char".toList
  | 'S' => some "short".toList
  | 'I' => some "int".toList
  | 'J' => some "long".toList
  | 'F' => some "float".toList
  | 'D' => some "double".toList
  | 'V' => some "void".toList
  | _ => none

/-- The loop `for (const char& ch : unformatted) if (ch == '[') formatted += "[]";`. -/
def appendBrackets (unformatted formatted : Str) : Str :=
  unformatted.foldl (fun acc ch => if ch = '[' then acc ++ "[]".toList else acc) formatted

/-- The function `Agent::dataTypeFormatter`. -/
def dataTypeFormatter (unformatted0 : Str) : Except Fault Str :=
  let unformatted := replace unformatted0 '/' '.'
  if (find unformatted 'L').isSome then
    -- substring between 'L' and ';'
    match substr unformatted (posValue (find unformatted 'L') + 1)
        (sizeSub (sizeSub (posValue (find unformatted ';')) (posValue (find unformatted 'L'))) 1) with
    | .error f => .error f
    | .ok name => .ok (appendBrackets unformatted name)
  else
    -- `mappings.at(unformatted.back())`
    match unformatted.getLast? with
    | none => .error .undefinedBehaviour
    | some c =>
      match mappings c with
      | none => .error .outOfRange
      | some label => .ok (appendBrackets unformatted label)

/-- The inner loop `while (params[i] == '[') temp += params[i++];`, on the part of
`params` from index `i` on; returns `temp` and the part that is left. -/
def bracketRun : Str → Str → Str × Str
  | [], temp => (temp, [])
  | c :: rest, temp => if c = '[' then bracketRun rest (temp ++ [c]) else (temp, c :: rest)

/-- The inner loop `while (params[i] != ';') temp += params[i++];`, on the part of
`params` from index `i` on. When no `';'` is left the loop reads the terminating
NUL at `params[length]` and then `params[length + 1]`, outside of the string. -/
def objectRun : Str → Str → Except Fault (Str × Str)
  | [], _ => .error .undefinedBehaviour
  | c :: rest, temp => if c = ';' then .ok (temp, c :: rest) else objectRun rest (temp ++ [c])

/-- The parameter tokenizer loop of `Agent::decodeJVMTypeSignature`
(`for (size_t i = 0; i < params.length(); i++)`); the second argument is the part
of `params` from index `i` on, the third the vector `tokens`. Every iteration
consumes at least one character, so `params.length + 1` iterations suffice. -/
def tokenizeLoop : Nat → Str → List Str → Except Fault (List Str)
  | 0, _, _ => .error .outOfFuel
  | _ + 1, [], tokens => .ok tokens
  | fuel + 1, c :: rest, tokens =>
    if c = 'L' ∨ c = '[' then
      match bracketRun (c :: rest) [] with
      | (temp, []) =>
        -- `params[i]` with `i = length` is the terminating NUL, not 'L';
        -- after `continue` and `i++` the loop condition fails
        .ok (tokens ++ [temp ++ ['\x00']])
      | (temp, d :: rest2) =>
        if d = 'L' then
          match objectRun (d :: rest2) temp with
          | .error f => .error f
          | .ok (temp2, rest3) => tokenizeLoop fuel rest3.tail (tokens ++ [temp2 ++ [';']])
        else tokenizeLoop fuel rest2 (tokens ++ [temp ++ [d]])
    else tokenizeLoop fuel rest (tokens ++ [[c]])

/-- The tokens extracted from the parameter block `params`. -/
def tokenize (params : Str) : Except Fault (List Str) :=
  tokenizeLoop (params.length + 1) params []

/-- The loop `for (token : tokens) decoded += dataTypeFormatter(token) + ", ";`. -/
def appendTokens : List Str → Str → Except Fault Str
  | [], decoded => .ok decoded
  | token :: tokens, decoded =>
    match dataTypeFormatter token with
    | .error f => .error f
    | .ok label => appendTokens tokens (decoded ++ label ++ ", ".toList)

/-- The function `Agent::decodeJVMTypeSignature`. -/
def decodeJVMTypeSignature (name signature : Str) (isMethod : Bool) : Except Fault Str :=
  if !isMethod then
    match dataTypeFormatter signature with
    | .error f => .error f
    | .ok label => .ok (label ++ ['\x07'] ++ name)
  else
    -- return type and method name
    match substrFrom signature (posValue (find signature ')')) with
    | .error f => .error f
    | .ok ret =>
      match dataTypeFormatter ret with
      | .error f => .error f
      | .ok label =>
        let decoded := label ++ [' '] ++ name ++ ['(']
        -- parameters of the method
        match substr signature 1 (sizeSub (posValue (find signature ')')) 1) with
        | .error f => .error f
        | .ok params =>
          match tokenize params with
          | .error f => .error f
          | .ok tokens =>
            match appendTokens tokens decoded with
            | .error f => .error f
            | .ok decoded2 =>
              -- remove trailing whitespace and comma
              let decoded3 :=
                if containsStr decoded2 ", ".toList then decoded2.dropLast.dropLast else decoded2
              .ok (decoded3 ++ [')'])

/-! ## SnapshotSerializer (`visualizerproccomm.h`, `visualizerproccomm.cpp` 65-127) -/

/-- The fields of `jvmtiThreadInfo` that the agent reads. -/
structure ThreadInfo where
  name : Str
  priority : Int
  deriving DecidableEq, Repr

/-- The struct `VisualizerPayload`. -/
structure VisualizerPayload where
  threadInfo : ThreadInfo
  metrics : Str
  methodNames : List Str
  localVars : List Str
  staticFields : List Str
  heapByteData : List Str
  deriving DecidableEq, Repr

/-- The constant `JVMTI_THREAD_MIN_PRIORITY` of `jvmti.h`. -/
def JVMTI_THREAD_MIN_PRIORITY : Int := 1

/-- The constant `JVMTI_THREAD_NORM_PRIORITY` of `jvmti.h`. -/
def JVMTI_THREAD_NORM_PRIORITY : Int := 5

/-- The constant `JVMTI_THREAD_MAX_PRIORITY` of `jvmti.h`. -/
def JVMTI_THREAD_MAX_PRIORITY : Int := 10

/-- The whitespace characters of the C locale (`std::isspace`). -/
def isSpace (c : Char) : Bool :=
  c = ' ' || c = '\t' || c = '\n' || c = '\x0b' || c = '\x0c' || c = '\r'

/-- The extraction `input_filestream >> line_num` on a file with the given
content: leading whitespace is skipped, then characters are taken up to the
next whitespace; the string stays empty when nothing can be read. -/
def readToken (content : Str) : Str :=
  (content.dropWhile isSpace).takeWhile fun c => !isSpace c

/-- The macro `NEW_SECTION`, on the text written so far. -/
def NEW_SECTION (output_filestream : Str) : Str :=
  output_filestream ++ "SECTION_END_BEGIN_NEW\n".toList

/-- The loop `for (const std::string& x : xs) output_filestream << x << '\n';`. -/
def writeLines (xs : List Str) (output_filestream : Str) : Str :=
  xs.foldl (fun out x => out ++ x ++ ['\n']) output_filestream

/-- The function `VisualizerProcComm::serializeDataStruct`: the content of the
data file after the call, from the payload and the content before the call. -/
def serializeDataStruct (data : VisualizerPayload) (prior : Str) : Str :=
  let line_num := readToken prior
  -- overwrite previous contents when opening new file stream
  let out : Str := []
  let out := out ++ line_num ++ ['\n']
  let out := out ++ "NAME: ".toList ++ data.threadInfo.name ++ ['\n']
  let out :=
    if data.threadInfo.priority = JVMTI_THREAD_MIN_PRIORITY then
      out ++ "PRIORITY: MINIMUM\n".toList
    else if data.threadInfo.priority = JVMTI_THREAD_NORM_PRIORITY then
      out ++ "PRIORITY: NORMAL\n".toList
    else if data.threadInfo.priority = JVMTI_THREAD_MAX_PRIORITY then
      out ++ "PRIORITY: MAXIMUM\n".toList
    else
      out ++ "PRIORITY: UNKNOWN\n".toList
  -- serialize runtime metrics
  let out := out ++ data.metrics ++ ['\n']
  -- serialize call stack view
  let out := NEW_SECTION out
  let out := writeLines data.methodNames out
  -- serialize local variable table
  let out := NEW_SECTION out
  let out := writeLines data.localVars out
  -- serialize class field table
  let out := NEW_SECTION out
  let out := writeLines data.staticFields out
  -- serialize heap data
  let out := NEW_SECTION out
  writeLines data.heapByteData out

/-! ## ValueFormatter (`agent.cpp` 179-353 and 437-609) -/

/-- Contents of a Java array as JNI delivers them (`Get<Type>ArrayElements`,
`GetObjectArrayElement`). A `float` or `double` element is given by the text that
`stream << element` prints, an object element by the characters of its
`toString()` result, `none` for a null element. -/
inductive JArray
  | ints (elements : List Int)
  | bytes (elements : List Int)
  | shorts (elements : List Int)
  | longs (elements : List Int)
  | floats (elements : List Str)
  | doubles (elements : List Str)
  | chars (elements : List Nat)
  | booleans (elements : List Nat)
  | objects (elements : List (Option Str))
  deriving DecidableEq, Repr

/-- A non-null Java object as the agent observes it: the characters of its
`toString()` result, the contents when it is an array, and what the Java method
`objectToBytes` returns for it (`none` for a null byte array). -/
structure JObject where
  toStringChars : Str
  array : Option JArray
  objectToBytes : Option (List Int)
  deriving DecidableEq, Repr

/-- Decimal text of an integer, as `stream << value` and `std::to_string(value)`
print it. -/
def decimal : Int → Str
  | .ofNat n => Nat.toDigits 10 n
  | .negSucc n => '-' :: Nat.toDigits 10 (n + 1)

/-- Text of `stream << std::hex << value` for a 32-bit `int`: the lower-case
hexadecimal digits of the value taken as unsigned. -/
def hexInt (value : Int) : Str :=
  Nat.toDigits 16 (value % 2 ^ 32).toNat

/-- One `std::regex_replace(str, std::regex(c), repl)` for a single-character
pattern. -/
def regexReplaceChar (str : Str) (c : Char) (repl : Str) : Str :=
  (str.map fun ch => if ch = c then repl else [ch]).flatten

/-- The two replacements that escape line feed and carriage return. -/
def escapeLineBreaks (str : Str) : Str :=
  regexReplaceChar (regexReplaceChar str '\n' "\\n".toList) '\r' "\\r".toList

/-- The loop `for (jint j = 0; j < length - 1; j++) stream << elements[j] << ", ";`
with `count` iterations left, at index `j`. -/
def elementLoop {α : Type} (render : α → Str) (elements : List α) :
    Nat → Nat → Str → Except Fault Str
  | 0, _, stream => .ok stream
  | count + 1, j, stream =>
    match elements.get? j with
    | none => .error .undefinedBehaviour
    | some e => elementLoop render elements count (j + 1) (stream ++ render e ++ ", ".toList)

/-- The listing of a primitive array: the loop over all elements but the last,
then `stream << elements[length - 1] << " }"`. The index `length - 1` is `-1`
for an empty array. -/
def listElements {α : Type} (render : α → Str) (elements : List α) (stream : Str) :
    Except Fault Str :=
  let length : Int := elements.length
  match elementLoop render elements (length - 1).toNat 0 stream with
  | .error f => .error f
  | .ok stream2 =>
    if length - 1 < 0 then .error .undefinedBehaviour
    else
      match elements.get? (length - 1).toNat with
      | none => .error .undefinedBehaviour
      | some e => .ok (stream2 ++ render e ++ " \x7d".toList)

/-- Text of one `char[]` element: the escapes for line feed and carriage return,
otherwise `static_cast<char>(element)` (the low byte) between single quotes. -/
def renderChar (element : Nat) : Str :=
  if element = 10 then "'\\n'".toList
  else if element = 13 then "'\\r'".toList
  else ['\'', Char.ofNat (element % 256), '\'']

/-- Text of one `boolean[]` element. -/
def renderBoolean (element : Nat) : Str :=
  if element ≠ 0 then "true".toList else "false".toList

/-- The loop over an object array (`for (jint j = 0; j < length; j++)`), with
`count` iterations left, at index `j`. -/
def objectLoop (elements : List (Option Str)) : Nat → Nat → Str → Except Fault Str
  | 0, _, stream => .ok stream
  | count + 1, j, stream =>
    match elements.get? j with
    | none => .error .undefinedBehaviour
    | some element =>
      let element_cstr : Str :=
        match element with
        | none => "null".toList
        | some chars => chars
      let estr := escapeLineBreaks element_cstr
      if (j : Int) = (elements.length : Int) - 1 then
        objectLoop elements count (j + 1) (stream ++ estr ++ " \x7d".toList)
      else
        objectLoop elements count (j + 1) (stream ++ estr ++ ", ".toList)

/-- The element listing of an array value (`agent.cpp` 191-331, repeated at
447-587): dispatch on the last character of the descriptor, then the check for
an empty array. Reading an array through the accessor of another element type is
undefined. -/
def arrayListing (signature : Str) (array : Option JArray) : Except Fault Str :=
  let stream : Str := "\x7b ".toList
  let filled : Except Fault Str :=
    if signature.getLast? = some 'I' then
      match array with
      | some (.ints elements) => listElements decimal elements stream
      | _ => .error .undefinedBehaviour
    else if signature.getLast? = some 'B' then
      match array with
      | some (.bytes elements) => listElements decimal elements stream
      | _ => .error .undefinedBehaviour
    else if signature.getLast? = some 'S' then
      match array with
      | some (.shorts elements) => listElements decimal elements stream
      | _ => .error .undefinedBehaviour
    else if signature.getLast? = some 'J' then
      match array with
      | some (.longs elements) => listElements decimal elements stream
      | _ => .error .undefinedBehaviour
    else if signature.getLast? = some 'F' then
      match array with
      | some (.floats elements) => listElements id elements stream
      | _ => .error .undefinedBehaviour
    else if signature.getLast? = some 'D' then
      match array with
      | some (.doubles elements) => listElements id elements stream
      | _ => .error .undefinedBehaviour
    else if signature.getLast? = some 'C' then
      match array with
      | some (.chars elements) => listElements renderChar elements stream
      | _ => .error .undefinedBehaviour
    else if signature.getLast? = some 'Z' then
      match array with
      | some (.booleans elements) => listElements renderBoolean elements stream
      | _ => .error .undefinedBehaviour
    else if containsStr signature "[L".toList then
      match array with
      | some (.objects elements) => objectLoop elements elements.length 0 stream
      | _ => .error .undefinedBehaviour
    else .ok stream
  match filled with
  | .error f => .error f
  | .ok stream2 =>
    -- empty array
    if stream2.length ≤ 2 then .ok (stream2 ++ ['\x7d']) else .ok stream2

/-- The hex dump loop `for (j ...) stream << std::hex << int{ bytes[j] } << ' ';`
over the `jbyte` values of the byte array. -/
def hexDump (bytes : List Int) : Str :=
  bytes.foldl (fun stream b => stream ++ hexInt b ++ [' ']) []

/-! ## SnapshotCapturer (`agent.cpp` 37-618) -/

/-- The result of a JVMTI call: the name of the error status, or the
out-parameters under `JVMTI_ERROR_NONE`. -/
abbrev Jvmti (α : Type) := Except Str α

/-- What the JVMTI calls for one stack frame return. -/
structure FrameInfo where
  /-- `GetMethodName`: name and descriptor of the method. -/
  getMethodName : Jvmti (Str × Str)
  /-- `GetMethodModifiers`. -/
  getMethodModifiers : Jvmti Nat
  deriving DecidableEq, Repr

/-- One entry of the local-variable table of frame 0, with what each typed
accessor returns for its slot. A `double` or `float` value is given by the text
that `std::to_string` prints for it; a null reference is `none`. -/
structure LocalVariableEntry where
  name : Str
  signature : Str
  getLocalInt : Jvmti Int
  getLocalDouble : Jvmti Str
  getLocalFloat : Jvmti Str
  getLocalLong : Jvmti Int
  getLocalObject : Jvmti (Option JObject)
  deriving DecidableEq, Repr

/-- One field of the declaring class of frame 0, with what the JNI accessor
chosen by its descriptor returns: an integral value
(`GetStatic{Int,Byte,Char,Short,Boolean}Field`), the `std::to_string` text of a
`double` or `float`, a `long`, or a reference (`none` when the `toString` call
gives no string, as for a null reference). -/
structure FieldInfo where
  getFieldModifiers : Jvmti Nat
  /-- `GetFieldName`: name and descriptor of the field. -/
  getFieldName : Jvmti (Str × Str)
  staticIntegral : Int
  staticFloating : Str
  staticLong : Int
  staticObject : Option JObject
  deriving DecidableEq, Repr

/-- Everything the handler obtains from the JVM for one `ExceptionCatch` event. -/
structure Env where
  /-- `GetClassSignature` of the class of the caught exception. -/
  getClassSignature : Jvmti Str
  getFrameCount : Jvmti Nat
  /-- `GetStackTrace(thread, 1, count, ...)`: the frames from depth 1 on. -/
  getStackTrace : Jvmti (List FrameInfo)
  getThreadInfo : Jvmti ThreadInfo
  /-- The text of the static Java method `getRuntimeMetrics`. -/
  runtimeMetrics : Str
  /-- `GetLocalVariableTable` for `frames[0].method`. -/
  getLocalVariableTable : Jvmti (List LocalVariableEntry)
  /-- `GetMethodDeclaringClass` for `frames[0].method`. -/
  getMethodDeclaringClass : Jvmti Unit
  getClassFields : Jvmti (List FieldInfo)
  deriving DecidableEq, Repr

/-- The class signature that triggers a capture. -/
def sentinelSignature : Str := "Lcom/vjzcorp/jvmtools/memdbgvis;".toList

/-- The constant `JVMTI_HEAP_REFERENCE_STATIC_FIELD` of `jvmti.h`. -/
def JVMTI_HEAP_REFERENCE_STATIC_FIELD : Nat := 8

/-- The function `Agent::catchJVMTIError` for a status other than
`JVMTI_ERROR_NONE` (for which it returns `false` without any effect): the error
dialogs shown so far, with the new one unless `silent`. The function then
returns `true`. -/
def catchJVMTIError (dialogs : List Str) (errname errmsg : Str) (silent : Bool) : List Str :=
  if silent then dialogs else dialogs ++ [errname ++ ": ".toList ++ errmsg]

/-- The state of a capture in progress: the dialogs shown and the payload. -/
structure Capture where
  dialogs : List Str
  payload : VisualizerPayload
  deriving DecidableEq, Repr

/-- Text `decodeJVMTypeSignature(name, signature) + '\a' + value` of a local
variable or static field line. -/
def entryLine (name signature value : Str) : Except Fault Str :=
  match decodeJVMTypeSignature name signature false with
  | .error f => .error f
  | .ok decoded => .ok (decoded ++ ['\x07'] ++ value)

/-- The statement `payload.localVars.push_back(...)`. -/
def Capture.pushLocal (c : Capture) (line : Str) : Capture :=
  { c with payload := { c.payload with localVars := c.payload.localVars ++ [line] } }

/-- The statement `payload.staticFields.push_back(...)`. -/
def Capture.pushStatic (c : Capture) (line : Str) : Capture :=
  { c with payload := { c.payload with staticFields := c.payload.staticFields ++ [line] } }

/-- The statement `payload.heapByteData.push_back(...)`. -/
def Capture.pushHeap (c : Capture) (line : Str) : Capture :=
  { c with payload := { c.payload with heapByteData := c.payload.heapByteData ++ [line] } }

/-- The body of the loop over the stack frames (`agent.cpp` 98-120). -/
def frameStep (c : Capture) (frame : FrameInfo) : Except Fault Capture :=
  match frame.getMethodName with
  | .error e =>
    .ok { c with dialogs := catchJVMTIError c.dialogs e "Cannot get current method name.".toList false }
  | .ok (method_name, method_signature) =>
    match frame.getMethodModifiers with
    | .error e =>
      .ok { c with dialogs :=
        catchJVMTIError c.dialogs e "Cannot get current method modifiers.".toList false }
    | .ok modifiers =>
      -- if method is static
      let decoded_signature : Str :=
        if modifiers &&& JVMTI_HEAP_REFERENCE_STATIC_FIELD ≠ 0 then "static ".toList else []
      match decodeJVMTypeSignature method_name method_signature true with
      | .error f => .error f
      | .ok decoded =>
        .ok { c with payload :=
          { c.payload with methodNames := c.payload.methodNames ++ [decoded_signature ++ decoded] } }

/-- A `for` loop whose body can fail. -/
def forEach {α : Type} (step : Capture → α → Except Fault Capture) :
    List α → Capture → Except Fault Capture
  | [], c => .ok c
  | x :: xs, c =>
    match step c x with
    | .error f => .error f
    | .ok c2 => forEach step xs c2

/-- The heap detail of a non-null array reference (`agent.cpp` 189-334):
the line `str + '\a' + stream.str()` is pushed. -/
def arrayDetail (c : Capture) (signature str : Str) (obj : JObject) : Except Fault Capture :=
  match arrayListing signature obj.array with
  | .error f => .error f
  | .ok listing => .ok (c.pushHeap (str ++ ['\x07'] ++ listing))

/-- The heap detail of a non-null object reference that is not an array
(`agent.cpp` 337-352, repeated at 593-608). The call
`env->GetByteArrayElements(array, nullptr)` at line 342 comes before the test
`rawByteArray == nullptr` at line 345: when `objectToBytes` gives null the JNI
function is called with a null array, which JNI leaves undefined. With a byte
array, nothing is added when the display string has no `@`, else the hex dump. -/
def objectDetail (c : Capture) (str : Str) (obj : JObject) : Except Fault Capture :=
  match obj.objectToBytes with
  | none => .error .undefinedBehaviour
  | some bytes =>
    -- if object is already in a string format, no need to generate hex dump
    if find str '@' = none then .ok c
    else .ok (c.pushHeap (str ++ ['\x07'] ++ hexDump bytes))

/-- The body of the loop over the local variables (`agent.cpp` 129-355). -/
def localStep (c : Capture) (v : LocalVariableEntry) : Except Fault Capture :=
  let first := v.signature.head?
  if first = some 'B' ∨ first = some 'S' ∨ first = some 'I' ∨ first = some 'C'
      ∨ first = some 'Z' then
    match v.getLocalInt with
    | .error _ => .ok c
    | .ok value =>
      match entryLine v.name v.signature (decimal value) with
      | .error f => .error f
      | .ok line => .ok (c.pushLocal line)
  else if first = some 'D' then
    match v.getLocalDouble with
    | .error _ => .ok c
    | .ok double_value =>
      match entryLine v.name v.signature double_value with
      | .error f => .error f
      | .ok line => .ok (c.pushLocal line)
  else if first = some 'F' then
    match v.getLocalFloat with
    | .error _ => .ok c
    | .ok float_value =>
      match entryLine v.name v.signature float_value with
      | .error f => .error f
      | .ok line => .ok (c.pushLocal line)
  else if first = some 'J' then
    match v.getLocalLong with
    | .error _ => .ok c
    | .ok long_value =>
      match entryLine v.name v.signature (decimal long_value) with
      | .error f => .error f
      | .ok line => .ok (c.pushLocal line)
  else if first = some '[' ∨ first = some 'L' then
    match v.getLocalObject with
    | .error _ => .ok c
    | .ok none =>
      -- null reference
      match entryLine v.name v.signature "null".toList with
      | .error f => .error f
      | .ok line => .ok (c.pushLocal line)
    | .ok (some obj) =>
      -- make it string serializable
      let str := escapeLineBreaks obj.toStringChars
      match entryLine v.name v.signature str with
      | .error f => .error f
      | .ok line =>
        let c2 := c.pushLocal line
        if first = some '[' then arrayDetail c2 v.signature str obj
        else if first = some 'L' then objectDetail c2 str obj
        else .ok c2
  else .ok c

/-- The text `"static " + decodeJVMTypeSignature(name, signature) + '\a' + value`. -/
def staticLine (name signature value : Str) : Except Fault Str :=
  match entryLine name signature value with
  | .error f => .error f
  | .ok line => .ok ("static ".toList ++ line)

/-- The body of the loop over the class fields (`agent.cpp` 369-612) for the
field with index `i`. The test that guards the hex dump of an object reference
reads `local_var_table[i]`, the entry of the local-variable table with the index
of the field. -/
def fieldStep (local_var_table : List LocalVariableEntry) (c : Capture)
    (entry : Nat × FieldInfo) : Except Fault Capture :=
  let i := entry.1
  let field := entry.2
  match field.getFieldModifiers with
  | .error e =>
    .ok { c with dialogs :=
      catchJVMTIError c.dialogs e "Cannot get current field modifiers.".toList false }
  | .ok modifiers =>
    match field.getFieldName with
    | .error e =>
      .ok { c with dialogs :=
        catchJVMTIError c.dialogs e "Cannot get current field name.".toList false }
    | .ok (name, signature) =>
      -- static fields
      if modifiers &&& JVMTI_HEAP_REFERENCE_STATIC_FIELD ≠ 0 then
        let first := signature.head?
        if first = some 'I' ∨ first = some 'B' ∨ first = some 'C' ∨ first = some 'S'
            ∨ first = some 'Z' then
          match staticLine name signature (decimal field.staticIntegral) with
          | .error f => .error f
          | .ok line => .ok (c.pushStatic line)
        else if first = some 'D' ∨ first = some 'F' then
          match staticLine name signature field.staticFloating with
          | .error f => .error f
          | .ok line => .ok (c.pushStatic line)
        else if first = some 'J' then
          match staticLine name signature (decimal field.staticLong) with
          | .error f => .error f
          | .ok line => .ok (c.pushStatic line)
        else if first = some '[' ∨ first = some 'L' then
          match field.staticObject with
          | none =>
            -- null reference
            match staticLine name signature "null".toList with
            | .error f => .error f
            | .ok line => .ok (c.pushStatic line)
          | some obj =>
            let str := escapeLineBreaks obj.toStringChars
            match staticLine name signature str with
            | .error f => .error f
            | .ok line =>
              let c2 := c.pushStatic line
              if first = some '[' then arrayDetail c2 signature str obj
              else
                match local_var_table.get? i with
                | none => .error .undefinedBehaviour
                | some v =>
                  if v.signature.head? = some 'L' then objectDetail c2 str obj
                  else .ok c2
        else .ok c
      else .ok c

/-- How a run of the handler ends. -/
inductive HandlerRun
  /-- The handler returned before `serialize_launch`: no payload is serialized,
  the data file is not written and the visualizer is not launched. -/
  | returned (dialogs : List Str)
  /-- The handler reached `serialize_launch` and called
  `visualizer.serializeDataStruct(payload)` and `visualizer.launch()`. -/
  | serialized (dialogs : List Str) (payload : VisualizerPayload)
  /-- The handler did not complete: an exception or undefined behaviour. -/
  | fault (f : Fault)
  deriving DecidableEq, Repr

/-- The end of the handler at the label `serialize_launch`, or a fault. -/
def finish : Except Fault Capture → HandlerRun
  | .error f => .fault f
  | .ok c => .serialized c.dialogs c.payload

/-- The part of the handler from the static fields on (`agent.cpp` 357-618). -/
def captureFields (env : Env) (local_var_table : List LocalVariableEntry) (c : Capture) :
    HandlerRun :=
  match env.getMethodDeclaringClass with
  | .error e =>
    -- goto serialize_launch
    .serialized (catchJVMTIError c.dialogs e "Cannot get current class.".toList false) c.payload
  | .ok _ =>
    -- get all fields in the current class
    match env.getClassFields with
    | .error e =>
      .serialized (catchJVMTIError c.dialogs e "Cannot get class fields.".toList false) c.payload
    | .ok fields => finish (forEach (fieldStep local_var_table) fields.enum c)

/-- The part of the handler from the local variables on (`agent.cpp` 122-618). -/
def captureLocals (env : Env) (c : Capture) : HandlerRun :=
  match env.getLocalVariableTable with
  | .error e =>
    -- goto serialize_launch
    .serialized
      (catchJVMTIError c.dialogs e
        "Cannot get local variable table for current stack frame.".toList false)
      c.payload
  | .ok local_var_table =>
    match forEach localStep local_var_table c with
    | .error f => .fault f
    | .ok c2 => captureFields env local_var_table c2

/-- The function `Agent::callbackEventHandler`. -/
def callbackEventHandler (env : Env) : HandlerRun :=
  -- get class signature of exception
  match env.getClassSignature with
  | .error e => .returned (catchJVMTIError [] e "Cannot get JVM class signature.".toList false)
  | .ok exception_signature =>
    -- visualizer invoked only if called from memdbgvis exception class
    if exception_signature ≠ sentinelSignature then .returned []
    else
      -- get stack depth
      match env.getFrameCount with
      | .error e => .returned (catchJVMTIError [] e "Cannot get stack frame count.".toList false)
      | .ok count =>
        -- initialize array of stack frames
        match env.getStackTrace with
        | .error e => .returned (catchJVMTIError [] e "Cannot get stack frames.".toList false)
        | .ok frames =>
          -- get thread info and load it into payload
          match env.getThreadInfo with
          | .error e =>
            .returned (catchJVMTIError [] e "Cannot get current thread name.".toList false)
          | .ok threadInfo =>
            -- get miscellaneous JVM metrics
            let payload : VisualizerPayload :=
              { threadInfo := threadInfo, metrics := env.runtimeMetrics, methodNames := [],
                localVars := [], staticFields := [], heapByteData := [] }
            -- populate call stack view with method names
            match forEach frameStep frames ⟨[], payload⟩ with
            | .error f => .fault f
            | .ok c =>
              -- `frames[0]` of an array of `count` frames
              if count = 0 then .fault .undefinedBehaviour
              else captureLocals env c

/-! ## The visualizer (`debugvisualizer.h`, `debugvisualizer.cpp` 19-73) -/

/-- A `QMap<QString, QString>`: its entries, with pairwise distinct keys. A
`QString` is a list of `Char` like a `std::string`. -/
abbrev QMap := List (Str × Str)

/-- The assignment `map[key] = value`: the value of an entry with this key is
replaced, else a new entry is made. -/
def QMap.assign : QMap → Str → Str → QMap
  | [], key, value => [(key, value)]
  | (k, v) :: rest, key, value =>
    if k = key then (k, value) :: rest else (k, v) :: QMap.assign rest key value

/-- The struct `VisualizerPayload` of the visualizer (`debugvisualizer.h` 9-19).
The field `lineNum` holds the text of the line that `toInt()` converts; the
conversion itself is not part of the embedding. -/
structure DebugVisualizer.VisualizerPayload where
  lineNum : Str
  threadName : Str
  threadPriority : Str
  metrics : Str
  methodNames : List Str
  localVars : List Str
  staticFields : List Str
  heapByteMap : QMap
  deriving DecidableEq, Repr

/-- The call `QString::split(sep)`, which keeps empty parts. -/
def split : Str → Char → List Str
  | [], _ => [[]]
  | ch :: rest, sep =>
    if ch = sep then [] :: split rest sep
    else
      match split rest sep with
      | [] => [[ch]]
      | first :: more => (ch :: first) :: more

/-- A line without the carriage return that stands right before its line feed. -/
def dropCarriageReturn (line : Str) : Str :=
  if line.getLast? = some '\r' then line.dropLast else line

/-- The lines that successive calls of `QTextStream::readLine()` return until
`atEnd()` holds: a line ends at a line feed, which is dropped together with a
carriage return right before it; what follows the last line feed is a last
line if it is not empty. The second argument is the line read so far. -/
def readLines : Str → Str → List Str
  | [], line => if line = [] then [] else [line]
  | ch :: rest, line =>
    if ch = '\n' then dropCarriageReturn line :: readLines rest []
    else readLines rest (line ++ [ch])

/-- The loop `for (short i = 0; i < 7; i++) metrics += readLine() + '\n';` with
`count` iterations left; `readLine()` returns an empty string at the end of the
file. -/
def readMetrics : Nat → List Str → Str → Str × List Str
  | 0, lines, metrics => (metrics, lines)
  | count + 1, lines, metrics =>
    readMetrics count lines.tail (metrics ++ lines.headD [] ++ ['\n'])

/-- The `switch (data_section_idx)` of the loop body for a line that is not the
delimiter. In the default case the line is split at the separator;
`components[1]` does not exist when the line has no separator. -/
def DebugVisualizer.storeLine (data_section_idx : Nat) (cur_line : Str)
    (data : DebugVisualizer.VisualizerPayload) :
    Except Fault DebugVisualizer.VisualizerPayload :=
  if data_section_idx = 1 then .ok { data with methodNames := data.methodNames ++ [cur_line] }
  else if data_section_idx = 2 then .ok { data with localVars := data.localVars ++ [cur_line] }
  else if data_section_idx = 3 then
    .ok { data with staticFields := data.staticFields ++ [cur_line] }
  else
    match split cur_line '\x07' with
    | key :: value :: _ => .ok { data with heapByteMap := QMap.assign data.heapByteMap key value }
    | _ => .error .undefinedBehaviour

/-- The loop `while (!input_textstream.atEnd())` over the lines that are left;
`data_section_idx` is an `unsigned` counter. -/
def DebugVisualizer.sectionLoop :
    List Str → Nat → DebugVisualizer.VisualizerPayload →
      Except Fault DebugVisualizer.VisualizerPayload
  | [], _, data => .ok data
  | cur_line :: rest, data_section_idx, data =>
    -- advance to the next section
    if cur_line = "SECTION_END_BEGIN_NEW".toList then
      DebugVisualizer.sectionLoop rest ((data_section_idx + 1) % 2 ^ 32) data
    else
      match DebugVisualizer.storeLine data_section_idx cur_line data with
      | .error f => .error f
      | .ok data2 => DebugVisualizer.sectionLoop rest data_section_idx data2

/-- The member `m_agentData` before `deserializePayloadData` runs. -/
def DebugVisualizer.emptyPayload : DebugVisualizer.VisualizerPayload :=
  { lineNum := [], threadName := [], threadPriority := [], metrics := [], methodNames := [],
    localVars := [], staticFields := [], heapByteMap := [] }

/-- The function `DebugVisualizer::deserializePayloadData` on the content of the
data file; `none` is a file that cannot be opened. -/
def DebugVisualizer.deserializePayloadData (file : Option Str) :
    Except Fault DebugVisualizer.VisualizerPayload :=
  match file with
  | none => .ok DebugVisualizer.emptyPayload
  | some text =>
    let lines := readLines text []
    let lineNum := lines.headD []
    let lines := lines.tail
    let threadName := lines.headD []
    let lines := lines.tail
    let threadPriority := lines.headD []
    let lines := lines.tail
    -- seven lines of JVM metrics
    let (metrics, lines) := readMetrics 7 lines []
    DebugVisualizer.sectionLoop lines 0
      { DebugVisualizer.emptyPayload with
        lineNum := lineNum, threadName := threadName, threadPriority := threadPriority,
        metrics := metrics }

/-! ## The byte groups of the heap inspection (`debugvisualizer.cpp` 170-213) -/

/-- The inner loop of `onInspectButtonClicked` over a grouping of even length:
`if (i % 2 == 0 && i > 0) formatted_str += ' '; formatted_str += byte_grouping[i];`
for the characters from index `i` on. -/
def DebugVisualizer.pairLoop : Str → Nat → Str → Str
  | [], _, formatted_str => formatted_str
  | ch :: rest, i, formatted_str =>
    DebugVisualizer.pairLoop rest (i + 1)
      ((if i % 2 = 0 ∧ i > 0 then formatted_str ++ [' '] else formatted_str) ++ [ch])

/-- The body of the loop `for (const QString& byte_grouping : bytes)`: a
grouping of odd length gets a leading `0`, one of even length is cut into pairs;
a space follows. -/
def DebugVisualizer.groupStep (formatted_str byte_grouping : Str) : Str :=
  if byte_grouping.length % 2 = 1 then formatted_str ++ '0' :: byte_grouping ++ [' ']
  else DebugVisualizer.pairLoop byte_grouping 0 formatted_str ++ [' ']

/-- The loop that strips extra whitespace: of a run of spaces only the first is
kept. The arguments are the characters left, the flag `isSpace` and the text
`formatted` built so far. -/
def DebugVisualizer.collapseSpaces : Str → Bool → Str → Str
  | [], _, formatted => formatted
  | ch :: rest, isSpace, formatted =>
    if ch = ' ' then
      if !isSpace then DebugVisualizer.collapseSpaces rest true (formatted ++ [ch])
      else DebugVisualizer.collapseSpaces rest isSpace formatted
    else DebugVisualizer.collapseSpaces rest false (formatted ++ [ch])

/-- The characters for which `QChar::isSpace` holds: the controls from tab to
carriage return, the space, `U+0085`, `U+00A0` and the Unicode separators. -/
def isQSpace (c : Char) : Bool :=
  (9 ≤ c.toNat && c.toNat ≤ 13) || c = ' ' || c.toNat = 0x85 || c.toNat = 0xA0
    || c.toNat = 0x1680 || (0x2000 ≤ c.toNat && c.toNat ≤ 0x200A) || c.toNat = 0x2028
    || c.toNat = 0x2029 || c.toNat = 0x202F || c.toNat = 0x205F || c.toNat = 0x3000

/-- The call `QString::trimmed()`: the text without the whitespace at its start
and at its end. -/
def trimmed (s : Str) : Str :=
  ((s.dropWhile isQSpace).reverse.dropWhile isQSpace).reverse

/-- The list `bytes` of `onInspectButtonClicked` after the regrouping (line
213), for the heap detail `value` of a hex dump. -/
def DebugVisualizer.regroupedBytes (value : Str) : List Str :=
  let bytes := split value ' '
  -- group the bytes into 2 hex digits
  let formatted_str := bytes.foldl DebugVisualizer.groupStep []
  -- strip extra whitespaces
  let formatted := DebugVisualizer.collapseSpaces formatted_str false []
  -- list of formatted bytes in groupings of 2 hex digits
  split (trimmed formatted) ' '

/-! ## Well-formed descriptors, as the specification describes them -/

/-- The base of a type descriptor: one of the nine primitive codes or an object
descriptor with its fully qualified name. -/
inductive Base
  | boolean | byte | char | short | int | long | float | double | void
  | object (name : Str)
  deriving DecidableEq, Repr

/-- The descriptor text of a base: one primitive code, or `L` name `;`. -/
def Base.code : Base → Str
  | .boolean => ['Z']
  | .byte => ['B']
  | .char => ['C']
  | .short => ['S']
  | .int => ['I']
  | .long => ['J']
  | .float => ['F']
  | .double => ['D']
  | .void => ['V']
  | .object name => 'L' :: name ++ [';']

/-- The readable label of a base; for an object the name with every `/`
replaced by `.`. -/
def Base.label : Base → Str
  | .boolean => "boolean".toList
  | .byte => "byte".toList
  | .char => "char".toList
  | .short => "short".toList
  | .int => "int".toList
  | .long => "long".toList
  | .float => "float".toList
  | .double => "double".toList
  | .void => "void".toList
  | .object name => name.map fun ch => if ch = '/' then '.' else ch

/-- An object name is well formed when it holds neither `;` nor `[`. -/
def Base.WellFormed : Base → Prop
  | .object name => ';' ∉ name ∧ '[' ∉ name
  | _ => True

instance (b : Base) : Decidable b.WellFormed := by
  cases b <;> unfold Base.WellFormed <;> infer_instance

/-- A type descriptor: `dims` copies of `[` followed by a base. -/
structure TypeDescriptor where
  dims : Nat
  base : Base
  deriving DecidableEq, Repr

/-- The descriptor text. -/
def TypeDescriptor.text (d : TypeDescriptor) : Str :=
  List.replicate d.dims '[' ++ d.base.code

/-- The label the specification assigns: the base label followed by `dims`
copies of `[]`. -/
def TypeDescriptor.label (d : TypeDescriptor) : Str :=
  d.base.label ++ (List.replicate d.dims "[]".toList).flatten

/-- Well-formedness of a type descriptor. -/
def TypeDescriptor.WellFormed (d : TypeDescriptor) : Prop := d.base.WellFormed

instance (d : TypeDescriptor) : Decidable d.WellFormed := by
  unfold TypeDescriptor.WellFormed; infer_instance

/-- The first line of a text: the characters before the first line feed. -/
def firstLine (text : Str) : Str :=
  text.takeWhile fun c => c ≠ '\n'

/-- The priority name of the file protocol: MINIMUM, NORMAL or MAXIMUM for the
three JVMTI constants, UNKNOWN for every other value. -/
def priorityName (priority : Int) : Str :=
  if priority = JVMTI_THREAD_MIN_PRIORITY then "MINIMUM".toList
  else if priority = JVMTI_THREAD_NORM_PRIORITY then "NORMAL".toList
  else if priority = JVMTI_THREAD_MAX_PRIORITY then "MAXIMUM".toList
  else "UNKNOWN".toList

/-- Each element of a list on its own line, every line closed by a line feed. -/
def linesText (xs : List Str) : Str :=
  (xs.map fun x => x ++ ['\n']).flatten

/-- The delimiter line of the file protocol. -/
def delimiterLine : Str := "SECTION_END_BEGIN_NEW\n".toList

/-- The text of the data file as the file protocol prescribes it, for a given
line-number token. -/
def protocolText (token : Str) (data : VisualizerPayload) : Str :=
  token ++ ['\n']
    ++ "NAME: ".toList ++ data.threadInfo.name ++ ['\n']
    ++ "PRIORITY: ".toList ++ priorityName data.threadInfo.priority ++ ['\n']
    ++ data.metrics ++ ['\n']
    ++ delimiterLine ++ linesText data.methodNames
    ++ delimiterLine ++ linesText data.localVars
    ++ delimiterLine ++ linesText data.staticFields
    ++ delimiterLine ++ linesText data.heapByteData

/-- A payload with one frame line, used to evaluate the serializer. -/
def samplePayload : VisualizerPayload :=
  { threadInfo := ⟨"main".toList, 5⟩, metrics := "metrics".toList,
    methodNames := ["void main(java.lang.String[])".toList], localVars := [],
    staticFields := [], heapByteData := [] }

/-- Whether a JVMTI call reported a failure. -/
def failed {α : Type} : Jvmti α → Bool
  | .error _ => true
  | .ok _ => false

/-- Whether the handler returned before `serialize_launch`. -/
def HandlerRun.isReturned : HandlerRun → Bool
  | .returned _ => true
  | _ => false

/-- The payload that the handler passed to `serializeDataStruct`, if it did. -/
def HandlerRun.written : HandlerRun → Option VisualizerPayload
  | .serialized _ payload => some payload
  | _ => none

/-- The payload as the handler creates it, before any frame is visited. -/
def initialPayload (env : Env) (threadInfo : ThreadInfo) : VisualizerPayload :=
  { threadInfo := threadInfo, metrics := env.runtimeMetrics, methodNames := [],
    localVars := [], staticFields := [], heapByteData := [] }

/-- The part of a payload that the loop over the local variables leaves alone. -/
def VisualizerPayload.outsideLocals (p : VisualizerPayload) :
    ThreadInfo × Str × List Str × List Str :=
  (p.threadInfo, p.metrics, p.methodNames, p.staticFields)

/-- The part of a payload that the loop over the stack frames leaves alone. -/
def VisualizerPayload.outsideFrames (p : VisualizerPayload) :
    ThreadInfo × Str × List Str × List Str × List Str :=
  (p.threadInfo, p.metrics, p.localVars, p.staticFields, p.heapByteData)

/-- A local variable `int x` with value 7. -/
def sampleLocalInt : LocalVariableEntry :=
  { name := "x".toList, signature := "I".toList, getLocalInt := .ok 7,
    getLocalDouble := .error "JVMTI_ERROR_TYPE_MISMATCH".toList,
    getLocalFloat := .error "JVMTI_ERROR_TYPE_MISMATCH".toList,
    getLocalLong := .error "JVMTI_ERROR_TYPE_MISMATCH".toList,
    getLocalObject := .error "JVMTI_ERROR_TYPE_MISMATCH".toList }

/-- An event for the sentinel exception, caught in `static void main(String[])`
with one local variable; the declaring class has no fields. -/
def sampleEnv : Env :=
  { getClassSignature := .ok sentinelSignature,
    getFrameCount := .ok 2,
    getStackTrace := .ok [⟨.ok ("main".toList, "([Ljava/lang/String;)V".toList), .ok 9⟩],
    getThreadInfo := .ok ⟨"main".toList, 5⟩,
    runtimeMetrics := "metrics".toList,
    getLocalVariableTable := .ok [sampleLocalInt],
    getMethodDeclaringClass := .ok (),
    getClassFields := .ok [] }

/-- The element listing that the specification describes for a non-empty
array: an opening brace and a space, the element texts joined by `", "`, a space
and a closing brace. -/
def bracedListing (texts : List Str) : Str :=
  "\x7b ".toList ++ ", ".toList.intercalate texts ++ " \x7d".toList

/-- The text that the specification gives a `char[]` element: the character
between single quotes, with line feed and carriage return written as the
escapes backslash-n and backslash-r. -/
def quotedChar (element : Nat) : Str :=
  if element = 10 then ['\'', '\\', 'n', '\'']
  else if element = 13 then ['\'', '\\', 'r', '\'']
  else ['\'', Char.ofNat element, '\'']

/-- An object whose display string is `Point@1b` and whose byte layout is the
single byte `0xff`, the `jbyte` value `-1`. -/
def sampleObject : JObject :=
  { toStringChars := "Point@1b".toList, array := none, objectToBytes := some [-1] }

/-- The sample event with a failing lookup of the declaring class. -/
def sampleEnvNoClass : Env :=
  { sampleEnv with getMethodDeclaringClass := .error "JVMTI_ERROR_INVALID_METHODID".toList }

/-- The capture state of the sample event after the loop over the frames. -/
def sampleAfterFrames : Capture :=
  { dialogs := [],
    payload :=
      { threadInfo := ⟨"main".toList, 5⟩, metrics := "metrics".toList,
        methodNames := ["static void main(java.lang.String[])".toList],
        localVars := [], staticFields := [], heapByteData := [] } }

/-- The capture state of the sample event after the loop over the locals. -/
def sampleAfterLocals : Capture :=
  { dialogs := [],
    payload :=
      { threadInfo := ⟨"main".toList, 5⟩, metrics := "metrics".toList,
        methodNames := ["static void main(java.lang.String[])".toList],
        localVars := ["int\x07x\x077".toList], staticFields := [], heapByteData := [] } }

/-- A local variable `Object p` that holds the sample object. -/
def sampleLocalObject : LocalVariableEntry :=
  { name := "p".toList, signature := "Ljava/lang/Object;".toList,
    getLocalInt := .error "JVMTI_ERROR_TYPE_MISMATCH".toList,
    getLocalDouble := .error "JVMTI_ERROR_TYPE_MISMATCH".toList,
    getLocalFloat := .error "JVMTI_ERROR_TYPE_MISMATCH".toList,
    getLocalLong := .error "JVMTI_ERROR_TYPE_MISMATCH".toList,
    getLocalObject := .ok (some sampleObject) }

/-- An object whose display string is `Point@2c` and whose byte layout is the
two bytes `0x01` and `0x7f`. -/
def sampleOrigin : JObject :=
  { toStringChars := "Point@2c".toList, array := none, objectToBytes := some [1, 127] }

/-- A static field `Object origin` that holds `sampleOrigin`. -/
def sampleStaticObject : FieldInfo :=
  { getFieldModifiers := .ok 8,
    getFieldName := .ok ("origin".toList, "Ljava/lang/Object;".toList),
    staticIntegral := 0, staticFloating := [], staticLong := 0,
    staticObject := some sampleOrigin }

/-- A static field `int count` with value 3. -/
def sampleStaticInt : FieldInfo :=
  { getFieldModifiers := .ok 8,
    getFieldName := .ok ("count".toList, "I".toList),
    staticIntegral := 3, staticFloating := [], staticLong := 0,
    staticObject := none }

/-- The sample event for a class with the static field `Object origin`; the
only local variable of frame 0 is `int x`. -/
def sampleEnvStaticObject : Env :=
  { sampleEnv with getClassFields := .ok [sampleStaticObject] }

/-- The sample event with a failing lookup of the local-variable table, for a
class with the static field `int count`. -/
def sampleEnvNoTable : Env :=
  { sampleEnv with
    getLocalVariableTable := .error "JVMTI_ERROR_ABSENT_INFORMATION".toList,
    getClassFields := .ok [sampleStaticInt] }

/-- The nine primitive codes of the descriptor grammar. -/
def primitiveCodes : List Char := ['Z', 'B', 'C', 'S', 'I', 'J', 'F', 'D', 'V']

/-- The line of the frame section for one frame, given the declaration text
`decodeMethod name descriptor` of its method: no line when the method-name
lookup or the modifier lookup fails, else the declaration, prefixed with
`static ` exactly when bit `0x0008` of the modifiers is set. -/
def frameLine (decodeMethod : Str → Str → Str) (frame : FrameInfo) : Option Str :=
  match frame.getMethodName, frame.getMethodModifiers with
  | .ok (name, descriptor), .ok modifiers =>
    if modifiers.testBit 3 then some ("static ".toList ++ decodeMethod name descriptor)
    else some (decodeMethod name descriptor)
  | _, _ => none

/-- A display string with every line feed replaced by the two characters
backslash-n and every carriage return by backslash-r. -/
def escapedText (display : Str) : Str :=
  (display.map fun ch =>
    if ch = '\n' then ['\\', 'n'] else if ch = '\r' then ['\\', 'r'] else [ch]).flatten

/-- The value text of a reference: the literal `null` for a null reference,
else the escaped display string of the object. -/
def referenceValue : Option JObject → Str
  | none => "null".toList
  | some obj => escapedText obj.toStringChars

/-- A `String` object whose text holds a line feed and a carriage return; its
byte layout is the serialized form of the string. -/
def sampleString : JObject :=
  { toStringChars := "a\nb\rc".toList, array := none,
    objectToBytes := some [-84, -19, 0, 5, 116, 0, 5, 97, 10, 98, 13, 99] }

/-- A local variable `String s` that holds `sampleString`. -/
def sampleLocalString : LocalVariableEntry :=
  { sampleLocalObject with
    name := "s".toList, signature := "Ljava/lang/String;".toList,
    getLocalObject := .ok (some sampleString) }

/-- A frame whose modifier lookup fails. -/
def sampleFrameNoModifiers : FrameInfo :=
  { getMethodName := .ok ("run".toList, "()V".toList),
    getMethodModifiers := .error "JVMTI_ERROR_INVALID_METHODID".toList }

/-- The frame of `static void main(String[])`. -/
def sampleFrameMain : FrameInfo :=
  { getMethodName := .ok ("main".toList, "([Ljava/lang/String;)V".toList),
    getMethodModifiers := .ok 9 }

/-- The values of the entries of a map under one key. -/
def QMap.entries : QMap → Str → List Str
  | [], _ => []
  | (k, v) :: rest, key => if k = key then v :: QMap.entries rest key else QMap.entries rest key

/-- The key of a heap-detail line: the text before the first separator. -/
def heapKey (line : Str) : Str :=
  line.takeWhile fun ch => ch ≠ '\x07'

/-- The detail of a heap-detail line: the text between the first and the
second separator (up to the end of the line when there is no second one). -/
def heapDetail (line : Str) : Str :=
  ((line.dropWhile fun ch => ch ≠ '\x07').drop 1).takeWhile fun ch => ch ≠ '\x07'

/-- The detail of the last line of a heap section that has the given key:
the one found among the later lines, else the one of the first line if that
line has the key. -/
def lastDetail : List Str → Str → Option Str
  | [], _ => none
  | line :: rest, key =>
    match lastDetail rest key with
    | some detail => some detail
    | none => if heapKey line = key then some (heapDetail line) else none

/-- The map after the assignments for the lines of a heap section, in order. -/
def heapFold (map : QMap) (lines : List Str) : QMap :=
  lines.foldl (fun m line => QMap.assign m (heapKey line) (heapDetail line)) map

/-- The loop body of `sectionLoop` applied to lines of one section in order. -/
def DebugVisualizer.storeLines (data_section_idx : Nat) :
    List Str → DebugVisualizer.VisualizerPayload →
      Except Fault DebugVisualizer.VisualizerPayload
  | [], data => .ok data
  | line :: rest, data =>
    match DebugVisualizer.storeLine data_section_idx line data with
    | .error f => .error f
    | .ok data2 => DebugVisualizer.storeLines data_section_idx rest data2

/-- A data file with two heap-detail lines under the key `k`. -/
def sampleFile : Str :=
  ("42\nNAME: main\nPRIORITY: NORMAL\nm1\nm2\nm3\nm4\nm5\nm6\nm7\n"
    ++ "SECTION_END_BEGIN_NEW\nvoid main()\n"
    ++ "SECTION_END_BEGIN_NEW\nint\x07x\x077\n"
    ++ "SECTION_END_BEGIN_NEW\n"
    ++ "SECTION_END_BEGIN_NEW\nk\x07first\nj\x07other\nk\x07last\n").toList

/-- The lines of the data file that the serializer writes for a payload whose
metrics text consists of the given lines. -/
def protocolLines (token : Str) (data : VisualizerPayload) (metricLines : List Str) : List Str :=
  [token, "NAME: ".toList ++ data.threadInfo.name,
      "PRIORITY: ".toList ++ priorityName data.threadInfo.priority]
    ++ metricLines
    ++ "SECTION_END_BEGIN_NEW".toList :: data.methodNames
    ++ "SECTION_END_BEGIN_NEW".toList :: data.localVars
    ++ "SECTION_END_BEGIN_NEW".toList :: data.staticFields
    ++ "SECTION_END_BEGIN_NEW".toList :: data.heapByteData

/-- A payload with seven metrics lines, one line in each section and two heap
lines under the same key. -/
def sampleRoundTrip : VisualizerPayload :=
  { threadInfo := ⟨"main".toList, 5⟩, metrics := "m1\nm2\nm3\nm4\nm5\nm6\nm7".toList,
    methodNames := ["void main()".toList], localVars := ["int\x07x\x077".toList],
    staticFields := ["static int\x07count\x073".toList],
    heapByteData := ["k\x07first".toList, "k\x07last".toList] }

/-- The payload `sampleRoundTrip` for a thread whose name holds a line feed. -/
def sampleNameWithLineFeed : VisualizerPayload :=
  { sampleRoundTrip with threadInfo := ⟨"worker\n1".toList, 5⟩ }

/-- Whether the parameter tokenizer loop, run as in `tokenizeLoop`, reads
`params[i]` at an index `i` that is not below `params.length()`: this happens
when the loop over `[` or the loop over an object name arrives at the end of
`params`. -/
def tokenizeOverRead : Nat → Str → Bool
  | 0, _ => false
  | _ + 1, [] => false
  | fuel + 1, c :: rest =>
    if c = 'L' ∨ c = '[' then
      match bracketRun (c :: rest) [] with
      | (_, []) => true
      | (temp, d :: rest2) =>
        if d = 'L' then
          match objectRun (d :: rest2) temp with
          | .error _ => true
          | .ok (_, rest3) => tokenizeOverRead fuel rest3.tail
        else tokenizeOverRead fuel rest2
    else tokenizeOverRead fuel rest

/-- The value of a byte as two lower-case hexadecimal digits. -/
def twoDigits (value : Nat) : Str :=
  [Nat.digitChar (value / 16), Nat.digitChar (value % 16)]

/-- An object whose display string is `Lock@3d` and for which `objectToBytes`
returns null. -/
def sampleNoBytes : JObject :=
  { toStringChars := "Lock@3d".toList, array := none, objectToBytes := none }

/-- A local variable `Object q` that holds `sampleNoBytes`. -/
def sampleLocalNoBytes : LocalVariableEntry :=
  { sampleLocalObject with name := "q".toList, getLocalObject := .ok (some sampleNoBytes) }

/-- The sample event with the local variable `Object q` in frame 0. -/
def sampleEnvNoBytes : Env :=
  { sampleEnv with getLocalVariableTable := .ok [sampleLocalNoBytes] }

/-- The sample event with seven metrics lines and, as the only local variable
of frame 0, `char[] cs` holding an array with the given code units, whose
display string is `[C@4e`. -/
def sampleEnvChars (elements : List Nat) : Env :=
  { sampleEnv with
    runtimeMetrics := "m1\nm2\nm3\nm4\nm5\nm6\nm7".toList,
    getLocalVariableTable := .ok
      [{ sampleLocalObject with
          name := "cs".toList, signature := "[C".toList,
          getLocalObject := .ok (some
            { toStringChars := "[C@4e".toList, array := some (.chars elements),
              objectToBytes := none }) }] }

/-- The payload that the handler collects for `sampleEnvChars`, given the
element listing of the array. -/
def sampleCharsPayload (listing : Str) : VisualizerPayload :=
  { threadInfo := ⟨"main".toList, 5⟩, metrics := "m1\nm2\nm3\nm4\nm5\nm6\nm7".toList,
    methodNames := ["static void main(java.lang.String[])".toList],
    localVars := ["char[]\x07cs\x07[C@4e".toList], staticFields := [],
    heapByteData := ["[C@4e".toList ++ ['\x07'] ++ listing] }

/-! ## Properties of the decoder -/

theorem replace_append (s t : Str) (a b : Char) :
    replace (s ++ t) a b = replace s a b ++ replace t a b := by
  simp [replace]

theorem replace_replicate_bracket (n : Nat) :
    replace (List.replicate n '[') '/' '.' = List.replicate n '[' := by
  simp [replace]

theorem appendBrackets_eq (s acc : Str) :
    appendBrackets s acc = acc ++ (List.replicate (s.count '[') "[]".toList).flatten := by
  unfold appendBrackets
  induction s generalizing acc with
  | nil => simp
  | cons c cs ih =>
    by_cases h : c = '['
    · subst h
      simp only [List.foldl_cons, if_true, ih, List.count_cons_self, List.replicate_succ,
        List.flatten_cons, List.append_assoc]
    · have h2 : (c == '[') = false := by simpa using h
      simp only [List.foldl_cons, if_neg h, ih, List.count_cons, h2]
      simp

theorem find_of_not_mem (s : Str) (c : Char) (h : c ∉ s) : find s c = none := by
  unfold find
  have : List.indexOf c s = s.length := List.indexOf_eq_length.mpr h
  simp [this]

theorem find_append_of_not_mem (s t : Str) (c : Char) (h : c ∉ s) (ht : c ∈ t) :
    find (s ++ t) c = some (s.length + List.indexOf c t) := by
  unfold find
  rw [List.indexOf_append_of_not_mem h]
  have : List.indexOf c t < t.length := List.indexOf_lt_length.mpr ht
  simp [this]

theorem not_mem_replace_of_not_mem (s : Str) (c : Char) (hc : c ≠ '.') (h : c ∉ s) :
    c ∉ replace s '/' '.' := by
  intro hm
  unfold replace at hm
  rcases List.mem_map.mp hm with ⟨x, hx, hxc⟩
  by_cases h1 : x = '/'
  · simp [h1] at hxc; exact hc hxc.symm
  · simp [h1] at hxc; exact h (hxc ▸ hx)

theorem replace_eq_self (s : Str) (h : '/' ∉ s) : replace s '/' '.' = s := by
  unfold replace
  conv_rhs => rw [← List.map_id s]
  apply List.map_congr_left
  intro ch hch
  have : ch ≠ '/' := fun e => h (e ▸ hch)
  simp [this]

/-- Decoding of a primitive descriptor that follows a prefix without `L`, `[`
and `/` (the prefix is empty, or the `)` that starts a return descriptor). -/
theorem dataTypeFormatter_primitive (pre : Str) (n : Nat) (c : Char) (label : Str)
    (hpre : 'L' ∉ pre ∧ '[' ∉ pre ∧ '/' ∉ pre)
    (hc : mappings c = some label) (hL : c ≠ 'L') (hs : c ≠ '/') (hb : c ≠ '[') :
    dataTypeFormatter (pre ++ List.replicate n '[' ++ [c])
      = .ok (label ++ (List.replicate n "[]".toList).flatten) := by
  have hrep : replace (pre ++ List.replicate n '[' ++ [c]) '/' '.'
      = pre ++ List.replicate n '[' ++ [c] := by
    apply replace_eq_self
    simp only [List.mem_append, List.mem_replicate, List.mem_singleton, not_or]
    exact ⟨⟨hpre.2.2, fun h => absurd h.2 (by decide)⟩, fun h => hs h.symm⟩
  have hnot : 'L' ∉ pre ++ List.replicate n '[' ++ [c] := by
    simp only [List.mem_append, List.mem_replicate, List.mem_singleton, not_or]
    exact ⟨⟨hpre.1, fun h => absurd h.2 (by decide)⟩, fun h => hL h.symm⟩
  have hcount : (pre ++ List.replicate n '[' ++ [c]).count '[' = n := by
    have h1 : (c == '[') = false := by simpa using hb
    have h2 : pre.count '[' = 0 := List.count_eq_zero.mpr hpre.2.1
    simp [List.count_cons, h1, h2]
  unfold dataTypeFormatter
  simp only [hrep, find_of_not_mem _ _ hnot, Option.isSome_none, Bool.false_eq_true, if_false,
    List.getLast?_concat, hc, appendBrackets_eq, hcount]

/-- Decoding of an object descriptor that follows a prefix without `L`, `;`,
`[` and `/`. -/
theorem dataTypeFormatter_object (pre : Str) (n : Nat) (name : Str)
    (hpre : 'L' ∉ pre ∧ ';' ∉ pre ∧ '[' ∉ pre ∧ '/' ∉ pre)
    (h1 : ';' ∉ name) (h2 : '[' ∉ name) :
    dataTypeFormatter (pre ++ List.replicate n '[' ++ 'L' :: name ++ [';'])
      = .ok ((name.map fun ch => if ch = '/' then '.' else ch)
          ++ (List.replicate n "[]".toList).flatten) := by
  set name2 := replace name '/' '.' with hname2
  have hrep : replace (pre ++ List.replicate n '[' ++ 'L' :: name ++ [';']) '/' '.'
      = (pre ++ List.replicate n '[') ++ ('L' :: (name2 ++ [';'])) := by
    have e : pre ++ List.replicate n '[' ++ 'L' :: name ++ [';']
        = pre ++ (List.replicate n '[' ++ (['L'] ++ (name ++ [';']))) := by simp
    rw [e, replace_append, replace_append, replace_append, replace_append,
      replace_eq_self pre hpre.2.2.2, replace_replicate_bracket]
    simp [replace, hname2]
  have hs2 : ';' ∉ name2 := not_mem_replace_of_not_mem name ';' (by decide) h1
  have hb2 : '[' ∉ name2 := not_mem_replace_of_not_mem name '[' (by decide) h2
  have hLpre : 'L' ∉ pre ++ List.replicate n '[' := by
    simp only [List.mem_append, List.mem_replicate, not_or]
    exact ⟨hpre.1, fun h => absurd h.2 (by decide)⟩
  have hSpre : ';' ∉ (pre ++ List.replicate n '[') ++ ['L'] := by
    simp only [List.mem_append, List.mem_replicate, List.mem_singleton, not_or]
    exact ⟨⟨hpre.2.1, fun h => absurd h.2 (by decide)⟩, by decide⟩
  have hfL : find ((pre ++ List.replicate n '[') ++ ('L' :: (name2 ++ [';']))) 'L'
      = some (pre.length + n) := by
    rw [find_append_of_not_mem _ _ _ hLpre (by simp)]
    simp
  have hfS : find ((pre ++ List.replicate n '[') ++ ('L' :: (name2 ++ [';']))) ';'
      = some (pre.length + n + 1 + name2.length) := by
    have e : (pre ++ List.replicate n '[') ++ ('L' :: (name2 ++ [';']))
        = ((pre ++ List.replicate n '[') ++ ['L']) ++ (name2 ++ [';']) := by simp
    rw [e, find_append_of_not_mem _ _ _ hSpre (by simp),
      List.indexOf_append_of_not_mem hs2]
    simp [Nat.add_assoc]
  have hsub : sizeSub (sizeSub (pre.length + n + 1 + name2.length) (pre.length + n)) 1
      = name2.length := by
    have e1 : sizeSub (pre.length + n + 1 + name2.length) (pre.length + n)
        = 1 + name2.length := by
      unfold sizeSub
      rw [if_pos (by omega)]
      omega
    rw [e1]
    unfold sizeSub
    rw [if_pos (by omega)]
    omega
  have hdrop : List.take name2.length
      (List.drop (pre.length + n + 1) ((pre ++ List.replicate n '[') ++ ('L' :: (name2 ++ [';']))))
      = name2 := by
    have e : (pre ++ List.replicate n '[') ++ ('L' :: (name2 ++ [';']))
        = ((pre ++ List.replicate n '[') ++ ['L']) ++ (name2 ++ [';']) := by simp
    have hl : ((pre ++ List.replicate n '[') ++ ['L']).length = pre.length + n + 1 := by
      simp [Nat.add_assoc]
    rw [e, ← hl, List.drop_left, List.take_left]
  have hcount : ((pre ++ List.replicate n '[') ++ ('L' :: (name2 ++ [';']))).count '[' = n := by
    have h3 : pre.count '[' = 0 := List.count_eq_zero.mpr hpre.2.2.1
    have h4 : name2.count '[' = 0 := List.count_eq_zero.mpr hb2
    simp [List.count_cons, h3, h4]
  have hlen : ¬ ((pre ++ List.replicate n '[') ++ ('L' :: (name2 ++ [';']))).length
      < pre.length + n + 1 := by
    simp; omega
  unfold dataTypeFormatter
  simp only [hrep, hfL, hfS, Option.isSome_some, if_true, posValue, hsub, substr, hlen, if_false,
    hdrop, appendBrackets_eq, hcount]
  rfl

/-- Decoding of a well-formed descriptor after a prefix without `L`, `;`, `[`
and `/`: the prefix does not change the label. -/
theorem dataTypeFormatter_prefixed (pre : Str) (d : TypeDescriptor)
    (hpre : 'L' ∉ pre ∧ ';' ∉ pre ∧ '[' ∉ pre ∧ '/' ∉ pre) (h : d.WellFormed) :
    dataTypeFormatter (pre ++ d.text) = .ok d.label := by
  obtain ⟨n, base⟩ := d
  have hp := fun (c : Char) (label : Str) (hc : mappings c = some label) (hL : c ≠ 'L')
      (hs : c ≠ '/') (hb : c ≠ '[') =>
    dataTypeFormatter_primitive pre n c label ⟨hpre.1, hpre.2.2.1, hpre.2.2.2⟩ hc hL hs hb
  have e : ∀ c : Char, pre ++ (List.replicate n '[' ++ [c]) = pre ++ List.replicate n '[' ++ [c] := by
    intro c; simp
  cases base with
  | object name =>
    have := dataTypeFormatter_object pre n name hpre h.1 h.2
    simpa [TypeDescriptor.text, TypeDescriptor.label, Base.code, Base.label] using this
  | boolean => exact (e 'Z') ▸ hp 'Z' _ rfl (by decide) (by decide) (by decide)
  | byte => exact (e 'B') ▸ hp 'B' _ rfl (by decide) (by decide) (by decide)
  | char => exact (e 'C') ▸ hp 'C' _ rfl (by decide) (by decide) (by decide)
  | short => exact (e 'S') ▸ hp 'S' _ rfl (by decide) (by decide) (by decide)
  | int => exact (e 'I') ▸ hp 'I' _ rfl (by decide) (by decide) (by decide)
  | long => exact (e 'J') ▸ hp 'J' _ rfl (by decide) (by decide) (by decide)
  | float => exact (e 'F') ▸ hp 'F' _ rfl (by decide) (by decide) (by decide)
  | double => exact (e 'D') ▸ hp 'D' _ rfl (by decide) (by decide) (by decide)
  | void => exact (e 'V') ▸ hp 'V' _ rfl (by decide) (by decide) (by decide)

theorem dataTypeFormatter_wellFormed_aux (d : TypeDescriptor) (h : d.WellFormed) :
    dataTypeFormatter d.text = .ok d.label := by
  have := dataTypeFormatter_prefixed [] d (by simp) h
  simpa using this

/-- C1: for every well-formed type descriptor (`dims` copies of `[`, then a
primitive code or `L` name `;` with a name free of `;` and `[`),
`dataTypeFormatter` returns the base label followed by exactly `dims` copies of
`[]`; the label of an object is its name with every `/` replaced by `.`. -/
theorem dataTypeFormatter_wellFormed (d : TypeDescriptor) (h : d.WellFormed) :
    dataTypeFormatter d.text = .ok d.label := by
  have := dataTypeFormatter_prefixed [] d (by simp) h
  simpa using this

/-- C1 at `[[I` and at `Ljava/lang/Object;`. -/
theorem dataTypeFormatter_wellFormed_witness :
    dataTypeFormatter "[[I".toList = .ok "int[][]".toList
      ∧ dataTypeFormatter "Ljava/lang/Object;".toList = .ok "java.lang.Object".toList :=
  ⟨dataTypeFormatter_wellFormed ⟨2, .int⟩ (by decide),
   dataTypeFormatter_wellFormed ⟨0, .object "java/lang/Object".toList⟩ (by decide)⟩

/-! ### The parameter tokenizer and method declarations -/

theorem bracketRun_replicate (n : Nat) (d : Char) (rest temp : Str) (hd : d ≠ '[') :
    bracketRun (List.replicate n '[' ++ d :: rest) temp
      = (temp ++ List.replicate n '[', d :: rest) := by
  induction n generalizing temp with
  | zero => simp [bracketRun, hd]
  | succ k ih =>
    rw [List.replicate_succ, List.cons_append, bracketRun, if_pos rfl, ih]
    simp

theorem objectRun_body (body rest temp : Str) (h : ';' ∉ body) :
    objectRun (body ++ ';' :: rest) temp = .ok (temp ++ body, ';' :: rest) := by
  induction body generalizing temp with
  | nil => simp [objectRun]
  | cons c cs ih =>
    have hc : c ≠ ';' := fun e => h (by simp [e])
    have hcs : ';' ∉ cs := fun e => h (by simp [e])
    rw [List.cons_append, objectRun, if_neg hc, ih _ hcs]
    simp

/-- One iteration of the tokenizer loop consumes exactly one well-formed
parameter descriptor and appends it to `tokens`. -/
theorem tokenizeLoop_step (fuel : Nat) (p : TypeDescriptor) (rest : Str) (tokens : List Str)
    (h : p.WellFormed) :
    tokenizeLoop (fuel + 1) (p.text ++ rest) tokens
      = tokenizeLoop fuel rest (tokens ++ [p.text]) := by
  obtain ⟨n, base⟩ := p
  have hprim : ∀ c : Char, c ≠ 'L' → c ≠ '[' →
      tokenizeLoop (fuel + 1) (List.replicate n '[' ++ [c] ++ rest) tokens
        = tokenizeLoop fuel rest (tokens ++ [List.replicate n '[' ++ [c]]) := by
    intro c hL hb
    cases n with
    | zero => simp [tokenizeLoop, hL, hb]
    | succ k =>
      have e : List.replicate (k + 1) '[' ++ [c] ++ rest
          = '[' :: (List.replicate k '[' ++ c :: rest) := by simp [List.replicate_succ]
      have hrun : bracketRun ('[' :: (List.replicate k '[' ++ c :: rest)) []
          = (List.replicate (k + 1) '[', c :: rest) := by
        have := bracketRun_replicate (k + 1) c rest [] hb
        simpa [List.replicate_succ] using this
      rw [e, tokenizeLoop]
      simp only [hrun, hL, if_false, Char.reduceEq, or_true, if_true]
  cases base with
  | object name =>
    have hs : ';' ∉ name := h.1
    show tokenizeLoop (fuel + 1) (List.replicate n '[' ++ ('L' :: name ++ [';']) ++ rest) tokens
      = tokenizeLoop fuel rest (tokens ++ [List.replicate n '[' ++ ('L' :: name ++ [';'])])
    have hobj : ∀ temp : Str, objectRun ('L' :: (name ++ ';' :: rest)) temp
        = .ok (temp ++ 'L' :: name, ';' :: rest) := by
      intro temp
      have := objectRun_body ('L' :: name) rest temp (by simp [hs])
      simpa using this
    cases n with
    | zero =>
      have e : List.replicate 0 '[' ++ ('L' :: name ++ [';']) ++ rest
          = 'L' :: (name ++ ';' :: rest) := by simp
      rw [e, tokenizeLoop]
      simp [bracketRun, hobj]
    | succ k =>
      have e : List.replicate (k + 1) '[' ++ ('L' :: name ++ [';']) ++ rest
          = '[' :: (List.replicate k '[' ++ 'L' :: (name ++ ';' :: rest)) := by
        simp [List.replicate_succ]
      have hrun : bracketRun ('[' :: (List.replicate k '[' ++ 'L' :: (name ++ ';' :: rest))) []
          = (List.replicate (k + 1) '[', 'L' :: (name ++ ';' :: rest)) := by
        have := bracketRun_replicate (k + 1) 'L' (name ++ ';' :: rest) [] (by decide)
        simpa [List.replicate_succ] using this
      rw [e, tokenizeLoop]
      simp only [hrun, hobj, if_true, Char.reduceEq, or_true, List.tail_cons]
      simp [List.replicate_succ]
  | boolean => exact hprim 'Z' (by decide) (by decide)
  | byte => exact hprim 'B' (by decide) (by decide)
  | char => exact hprim 'C' (by decide) (by decide)
  | short => exact hprim 'S' (by decide) (by decide)
  | int => exact hprim 'I' (by decide) (by decide)
  | long => exact hprim 'J' (by decide) (by decide)
  | float => exact hprim 'F' (by decide) (by decide)
  | double => exact hprim 'D' (by decide) (by decide)
  | void => exact hprim 'V' (by decide) (by decide)

/-- The tokenizer loop splits a concatenation of well-formed descriptors into
these descriptors, given one unit of fuel per descriptor and one to stop. -/
theorem tokenizeLoop_descriptors (ps : List TypeDescriptor) (extra : Nat) (tokens : List Str)
    (h : ∀ p ∈ ps, p.WellFormed) :
    tokenizeLoop (ps.length + 1 + extra) (ps.map TypeDescriptor.text).flatten tokens
      = .ok (tokens ++ ps.map TypeDescriptor.text) := by
  induction ps generalizing tokens with
  | nil =>
    have e : ([] : List TypeDescriptor).length + 1 + extra = extra + 1 := by simp; omega
    rw [e]
    simp [tokenizeLoop]
  | cons p ps ih =>
    have e : (p :: ps).length + 1 + extra = (ps.length + 1 + extra) + 1 := by simp; omega
    rw [e, List.map_cons, List.flatten_cons, tokenizeLoop_step _ _ _ _ (h p (by simp)),
      ih _ (fun q hq => h q (by simp [hq]))]
    simp

theorem TypeDescriptor.text_length_pos (p : TypeDescriptor) : 1 ≤ p.text.length := by
  obtain ⟨n, base⟩ := p
  cases base <;> simp [TypeDescriptor.text, Base.code]
  omega

theorem length_le_flatten_text (ps : List TypeDescriptor) :
    ps.length ≤ (ps.map TypeDescriptor.text).flatten.length := by
  induction ps with
  | nil => simp
  | cons p ps ih =>
    have := TypeDescriptor.text_length_pos p
    simp only [List.map_cons, List.flatten_cons, List.length_append, List.length_cons]
    omega

theorem tokenize_descriptors (ps : List TypeDescriptor) (h : ∀ p ∈ ps, p.WellFormed) :
    tokenize (ps.map TypeDescriptor.text).flatten = .ok (ps.map TypeDescriptor.text) := by
  unfold tokenize
  obtain ⟨extra, he⟩ := Nat.exists_eq_add_of_le (length_le_flatten_text ps)
  have e : (ps.map TypeDescriptor.text).flatten.length + 1 = ps.length + 1 + extra := by omega
  rw [e, tokenizeLoop_descriptors ps extra [] h]
  simp

theorem appendTokens_descriptors (ps : List TypeDescriptor) (decoded : Str)
    (h : ∀ p ∈ ps, p.WellFormed) :
    appendTokens (ps.map TypeDescriptor.text) decoded
      = .ok (decoded ++ (ps.map fun p => p.label ++ ", ".toList).flatten) := by
  induction ps generalizing decoded with
  | nil => simp [appendTokens]
  | cons p ps ih =>
    rw [List.map_cons, appendTokens, dataTypeFormatter_wellFormed_aux p (h p (by simp))]
    simp only
    rw [ih _ (fun q hq => h q (by simp [hq]))]
    simp

theorem startsWith_append_self (pat rest : Str) : startsWith (pat ++ rest) pat = true := by
  induction pat with
  | nil => cases rest <;> simp [startsWith]
  | cons c cs ih => simp [startsWith, ih]

theorem containsStr_append_pat (a pat : Str) : containsStr (a ++ pat) pat = true := by
  induction a with
  | nil =>
    cases pat with
    | nil => simp [containsStr, startsWith]
    | cons c cs =>
      have := startsWith_append_self (c :: cs) []
      simp only [List.append_nil] at this
      simp [containsStr, this]
  | cons c cs ih => simp [containsStr, ih]

theorem flatten_map_append_sep (sep : Str) (ls : List Str) (h : ls ≠ []) :
    (ls.map fun l => l ++ sep).flatten = sep.intercalate ls ++ sep := by
  induction ls with
  | nil => exact absurd rfl h
  | cons l ls ih =>
    cases ls with
    | nil => simp [List.intercalate]
    | cons l2 ls2 =>
      have := ih (by simp)
      simp only [List.map_cons, List.flatten_cons] at this ⊢
      rw [this]
      simp [List.intercalate, List.intersperse]

theorem dropLast_dropLast_append_pair (x : Str) (a b : Char) :
    (x ++ [a, b]).dropLast.dropLast = x := by
  have e : x ++ [a, b] = (x ++ [a]) ++ [b] := by simp
  rw [e, List.dropLast_concat, List.dropLast_concat]

/-- Decoding of a method whose parameter block is a concatenation of well-formed
descriptors without `)`, with the result left as a joined list of labels. -/
theorem decodeMethod_descriptors (name : Str) (ps : List TypeDescriptor) (r : TypeDescriptor)
    (hps : ∀ p ∈ ps, p.WellFormed ∧ ')' ∉ p.text) (hr : r.WellFormed) :
    decodeJVMTypeSignature name
        ('(' :: (ps.map TypeDescriptor.text).flatten ++ ')' :: r.text) true
      = .ok ((if containsStr (r.label ++ [' '] ++ name ++ ['(']
                  ++ (ps.map fun p => p.label ++ ", ".toList).flatten) ", ".toList
              then (r.label ++ [' '] ++ name ++ ['(']
                  ++ (ps.map fun p => p.label ++ ", ".toList).flatten).dropLast.dropLast
              else r.label ++ [' '] ++ name ++ ['(']
                  ++ (ps.map fun p => p.label ++ ", ".toList).flatten) ++ [')']) := by
  set params := (ps.map TypeDescriptor.text).flatten with hparams
  have hwf : ∀ p ∈ ps, p.WellFormed := fun p hp => (hps p hp).1
  have hclose : ')' ∉ params := by
    rw [hparams]
    intro hm
    rcases List.mem_flatten.mp hm with ⟨t, ht, hc⟩
    rcases List.mem_map.mp ht with ⟨q, hq, rfl⟩
    exact (hps q hq).2 hc
  have hsig : '(' :: params ++ ')' :: r.text = ('(' :: params) ++ (')' :: r.text) := by simp
  have hfind : find ('(' :: params ++ ')' :: r.text) ')' = some (params.length + 1) := by
    rw [hsig, find_append_of_not_mem _ _ _ (by simp [hclose]) (by simp)]
    simp
  have hret : substrFrom ('(' :: params ++ ')' :: r.text) (params.length + 1)
      = .ok (')' :: r.text) := by
    unfold substrFrom
    have hl : ('(' :: params).length = params.length + 1 := by simp
    rw [if_neg (by simp), hsig, ← hl, List.drop_left]
  have hlabel : dataTypeFormatter (')' :: r.text) = .ok r.label := by
    have := dataTypeFormatter_prefixed [')'] r (by decide) hr
    simpa using this
  have hsub : sizeSub (params.length + 1) 1 = params.length := by
    unfold sizeSub
    rw [if_pos (by omega)]
    omega
  have hpar : substr ('(' :: params ++ ')' :: r.text) 1 params.length = .ok params := by
    unfold substr
    rw [if_neg (by simp)]
    simp
  unfold decodeJVMTypeSignature
  simp only [Bool.not_true, Bool.false_eq_true, if_false, hfind, posValue, hret, hlabel, hsub,
    hpar, hparams, tokenize_descriptors ps hwf, appendTokens_descriptors ps _ hwf]

/-- C2, as amended: for every method name, every non-empty list of well-formed
parameter descriptors none of which contains `)`, and every well-formed return
descriptor, the decoded declaration is the return label, a space, the name, and
the parameter labels joined by `", "` between parentheses. -/
theorem decodeJVMTypeSignature_method (name : Str) (ps : List TypeDescriptor)
    (r : TypeDescriptor) (hk : ps ≠ [])
    (hps : ∀ p ∈ ps, p.WellFormed ∧ ')' ∉ p.text) (hr : r.WellFormed) :
    decodeJVMTypeSignature name
        ('(' :: (ps.map TypeDescriptor.text).flatten ++ ')' :: r.text) true
      = .ok (r.label ++ [' '] ++ name ++ ['(']
          ++ ", ".toList.intercalate (ps.map TypeDescriptor.label) ++ [')']) := by
  rw [decodeMethod_descriptors name ps r hps hr]
  have hne : ps.map TypeDescriptor.label ≠ [] := by simpa using hk
  have hflat : (ps.map fun p => p.label ++ ", ".toList).flatten
      = ", ".toList.intercalate (ps.map TypeDescriptor.label) ++ ", ".toList := by
    rw [← flatten_map_append_sep ", ".toList _ hne, List.map_map]
    rfl
  rw [hflat, ← List.append_assoc, if_pos (containsStr_append_pat _ _)]
  have hpair : ", ".toList = [',', ' '] := rfl
  rw [hpair, dropLast_dropLast_append_pair]

/-- C2 at `foo` with descriptor `(I[Ljava/lang/String;)V`. -/
theorem decodeJVMTypeSignature_method_witness :
    decodeJVMTypeSignature "foo".toList "(I[Ljava/lang/String;)V".toList true
      = .ok "void foo(int, java.lang.String[])".toList :=
  decodeJVMTypeSignature_method "foo".toList
    [⟨0, .int⟩, ⟨1, .object "java/lang/String".toList⟩] ⟨0, .void⟩
    (by decide) (by decide) (by decide)

/-- C2 fails as stated: the parameter `La);` is a well-formed non-void
descriptor, yet for `(La);)V` the first `)` ends the parameter block inside the
object name, the tokenizer reads past the end of the block, and no declaration
is returned. -/
theorem decodeJVMTypeSignature_method_counterexample :
    (TypeDescriptor.mk 0 (.object "a)".toList)).WellFormed
      ∧ (TypeDescriptor.mk 0 (.object "a)".toList)).base ≠ .void
      ∧ (TypeDescriptor.mk 0 .void).WellFormed
      ∧ '(' :: ([TypeDescriptor.mk 0 (.object "a)".toList)].map TypeDescriptor.text).flatten
            ++ ')' :: (TypeDescriptor.mk 0 .void).text = "(La);)V".toList
      ∧ decodeJVMTypeSignature "foo".toList "(La);)V".toList true
          = .error .undefinedBehaviour
      ∧ decodeJVMTypeSignature "foo".toList "(La);)V".toList true
          ≠ .ok "void foo(a))".toList := by
  decide

/-! ## Properties of the serializer -/

theorem writeLines_eq (xs : List Str) (out : Str) :
    writeLines xs out = out ++ linesText xs := by
  unfold writeLines linesText
  induction xs generalizing out with
  | nil => simp
  | cons x xs ih =>
    rw [List.foldl_cons, ih]
    simp

theorem serializeDataStruct_eq (data : VisualizerPayload) (prior : Str) :
    serializeDataStruct data prior = protocolText (readToken prior) data := by
  unfold serializeDataStruct protocolText priorityName NEW_SECTION delimiterLine
  simp only [writeLines_eq]
  split_ifs <;> simp

theorem isSpace_newline : isSpace '\n' = true := by decide

theorem firstLine_append_newline (line rest : Str) (h : '\n' ∉ line) :
    firstLine (line ++ '\n' :: rest) = line := by
  unfold firstLine
  rw [List.takeWhile_append_of_pos]
  · simp
  · intro a ha
    have : a ≠ '\n' := fun e => h (e ▸ ha)
    simpa using this

theorem not_newline_mem_readToken (content : Str) : '\n' ∉ readToken content := by
  intro h
  unfold readToken at h
  have := List.mem_takeWhile_imp h
  simp [isSpace_newline] at this

/-- The first line of the written file is the token that `>>` extracts. -/
theorem firstLine_serializeDataStruct (data : VisualizerPayload) (prior : Str) :
    firstLine (serializeDataStruct data prior) = readToken prior := by
  rw [serializeDataStruct_eq]
  unfold protocolText
  simp only [List.append_assoc, List.singleton_append]
  exact firstLine_append_newline _ _ (not_newline_mem_readToken prior)

theorem readToken_firstLine (prior : Str)
    (h1 : firstLine prior ≠ []) (h2 : ∀ c ∈ firstLine prior, isSpace c = false) :
    readToken prior = firstLine prior := by
  unfold readToken firstLine at *
  induction prior with
  | nil => simp at h1
  | cons c cs ih =>
    by_cases hc : c = '\n'
    · simp [List.takeWhile_cons, hc] at h1
    · have hmem : c ∈ List.takeWhile (fun c => decide (c ≠ '\n')) (c :: cs) := by
        simp [List.takeWhile_cons, hc]
      have hsp : isSpace c = false := h2 c hmem
      rw [List.dropWhile_cons_of_neg (by simp [hsp])]
      have hrest : ∀ (l : Str), (∀ x ∈ List.takeWhile (fun c => decide (c ≠ '\n')) l,
          isSpace x = false) →
          List.takeWhile (fun c => !isSpace c) l
            = List.takeWhile (fun c => decide (c ≠ '\n')) l := by
        intro l
        induction l with
        | nil => intro _; rfl
        | cons d ds ihd =>
          intro hl
          by_cases hd : d = '\n'
          · subst hd
            simp [List.takeWhile_cons, isSpace_newline]
          · have hdm : d ∈ List.takeWhile (fun c => decide (c ≠ '\n')) (d :: ds) := by
              simp [List.takeWhile_cons, hd]
            have hds : isSpace d = false := hl d hdm
            have hnext : ∀ x ∈ List.takeWhile (fun c => decide (c ≠ '\n')) ds,
                isSpace x = false := by
              intro x hx
              apply hl
              simp only [List.takeWhile_cons, hd, ne_eq, not_false_eq_true, decide_True,
                if_true, List.mem_cons]
              exact Or.inr hx
            simp [List.takeWhile_cons, hd, hds, ihd hnext]
      exact hrest (c :: cs) h2

/-- C4, as amended: the first line of the written file is the first
whitespace-delimited token of the prior content (what `>>` extracts); whenever
the first line of the prior content is non-empty and holds no whitespace, the
written first line equals it verbatim. -/
theorem serializeDataStruct_firstLine (data : VisualizerPayload) (prior : Str)
    (h1 : firstLine prior ≠ []) (h2 : ∀ c ∈ firstLine prior, isSpace c = false) :
    firstLine (serializeDataStruct data prior) = readToken prior
      ∧ firstLine (serializeDataStruct data prior) = firstLine prior := by
  rw [firstLine_serializeDataStruct]
  exact ⟨rfl, readToken_firstLine prior h1 h2⟩

/-- C4 at the prior content `42`, line feed, `stale`. -/
theorem serializeDataStruct_firstLine_witness :
    firstLine (serializeDataStruct samplePayload "42\nstale\n".toList) = "42".toList
      ∧ firstLine (serializeDataStruct samplePayload "42\nstale\n".toList)
          = firstLine "42\nstale\n".toList :=
  serializeDataStruct_firstLine samplePayload "42\nstale\n".toList (by decide) (by decide)

/-- C4 fails as stated: when the first line of the prior content is `12 34`, the
first line written is `12`. -/
theorem serializeDataStruct_firstLine_counterexample :
    firstLine "12 34\n".toList = "12 34".toList
      ∧ firstLine (serializeDataStruct samplePayload "12 34\n".toList) = "12".toList
      ∧ firstLine (serializeDataStruct samplePayload "12 34\n".toList)
          ≠ firstLine "12 34\n".toList := by
  decide

/-- C5: the text written by `serializeDataStruct` is the preserved line-number
token, the `NAME: ` line, the `PRIORITY: ` line with MINIMUM, NORMAL, MAXIMUM or
UNKNOWN, the metrics text, and then for methodNames, localVars, staticFields and
heapByteData in this order the delimiter line followed by each element on its
own line. -/
theorem serializeDataStruct_protocol (data : VisualizerPayload) (prior : Str) :
    serializeDataStruct data prior = protocolText (readToken prior) data :=
  serializeDataStruct_eq data prior

/-! ## Properties of the capture handler -/

theorem finish_isReturned (r : Except Fault Capture) : (finish r).isReturned = false := by
  cases r <;> rfl

theorem captureFields_isReturned (env : Env) (table : List LocalVariableEntry) (c : Capture) :
    (captureFields env table c).isReturned = false := by
  unfold captureFields
  split
  · rfl
  · split
    · rfl
    · exact finish_isReturned _

theorem captureLocals_isReturned (env : Env) (c : Capture) :
    (captureLocals env c).isReturned = false := by
  unfold captureLocals
  split
  · rfl
  · split
    · rfl
    · exact captureFields_isReturned _ _ _

theorem callbackEventHandler_frames (env : Env) (count : Nat) (frames : List FrameInfo)
    (threadInfo : ThreadInfo)
    (h : env.getClassSignature = .ok sentinelSignature)
    (hc : env.getFrameCount = .ok count) (hs : env.getStackTrace = .ok frames)
    (ht : env.getThreadInfo = .ok threadInfo) :
    callbackEventHandler env
      = match forEach frameStep frames ⟨[], initialPayload env threadInfo⟩ with
        | .error f => .fault f
        | .ok c => if count = 0 then .fault .undefinedBehaviour else captureLocals env c := by
  unfold callbackEventHandler
  rw [h]
  simp only [ne_eq, not_true_eq_false, if_false, hc, hs, ht]
  rfl

/-- C3, as amended: once a capture is triggered, a failure of `GetFrameCount`,
of `GetStackTrace` or of `GetThreadInfo` makes the handler show the error in one
dialog and return: nothing is serialized. When the three calls succeed the
handler never returns before `serialize_launch`: a failure of the lookup of the
local-variable table, of the declaring class or of the class fields ends in the
serialization of the payload collected so far, with the error shown; a run in
which every lookup succeeds serializes the complete payload; and the handler
fails to complete only when one of the three loops does, or when the frame
count is zero, never because of a lookup failure. -/
theorem callbackEventHandler_returned_iff (env : Env)
    (h : env.getClassSignature = .ok sentinelSignature) :
    (∀ e, env.getFrameCount = .error e →
        callbackEventHandler env
          = .returned [e ++ ": ".toList ++ "Cannot get stack frame count.".toList])
      ∧ (∀ count e, env.getFrameCount = .ok count → env.getStackTrace = .error e →
        callbackEventHandler env
          = .returned [e ++ ": ".toList ++ "Cannot get stack frames.".toList])
      ∧ (∀ count frames e, env.getFrameCount = .ok count → env.getStackTrace = .ok frames →
        env.getThreadInfo = .error e →
        callbackEventHandler env
          = .returned [e ++ ": ".toList ++ "Cannot get current thread name.".toList])
      ∧ (∀ count frames threadInfo, env.getFrameCount = .ok count →
        env.getStackTrace = .ok frames → env.getThreadInfo = .ok threadInfo →
        (∀ dialogs, callbackEventHandler env ≠ .returned dialogs)
        ∧ (∀ c, forEach frameStep frames ⟨[], initialPayload env threadInfo⟩ = .ok c →
            count ≠ 0 →
            (∀ e, env.getLocalVariableTable = .error e →
              callbackEventHandler env
                = .serialized
                    (c.dialogs ++ [e ++ ": ".toList
                      ++ "Cannot get local variable table for current stack frame.".toList])
                    c.payload)
            ∧ ∀ table c2, env.getLocalVariableTable = .ok table →
                forEach localStep table c = .ok c2 →
                (∀ e, env.getMethodDeclaringClass = .error e →
                  callbackEventHandler env
                    = .serialized
                        (c2.dialogs ++ [e ++ ": ".toList ++ "Cannot get current class.".toList])
                        c2.payload)
                ∧ (∀ e, env.getMethodDeclaringClass = .ok () → env.getClassFields = .error e →
                  callbackEventHandler env
                    = .serialized
                        (c2.dialogs ++ [e ++ ": ".toList ++ "Cannot get class fields.".toList])
                        c2.payload)
                ∧ ∀ fields c3, env.getMethodDeclaringClass = .ok () →
                    env.getClassFields = .ok fields →
                    forEach (fieldStep table) fields.enum c2 = .ok c3 →
                    callbackEventHandler env = .serialized c3.dialogs c3.payload)
        ∧ ∀ f, callbackEventHandler env = .fault f →
            forEach frameStep frames ⟨[], initialPayload env threadInfo⟩ = .error f
            ∨ ∃ c, forEach frameStep frames ⟨[], initialPayload env threadInfo⟩ = .ok c
                ∧ ((count = 0 ∧ f = .undefinedBehaviour)
                  ∨ ∃ table, env.getLocalVariableTable = .ok table
                      ∧ (forEach localStep table c = .error f
                        ∨ ∃ c2 fields, forEach localStep table c = .ok c2
                            ∧ env.getMethodDeclaringClass = .ok ()
                            ∧ env.getClassFields = .ok fields
                            ∧ forEach (fieldStep table) fields.enum c2 = .error f))) := by
  refine ⟨?_, ?_, ?_, ?_⟩
  · intro e he
    unfold callbackEventHandler
    rw [h]
    simp only [ne_eq, not_true_eq_false, if_false, he]
    rfl
  · intro count e hc hs
    unfold callbackEventHandler
    rw [h]
    simp only [ne_eq, not_true_eq_false, if_false, hc, hs]
    rfl
  · intro count frames e hc hs ht
    unfold callbackEventHandler
    rw [h]
    simp only [ne_eq, not_true_eq_false, if_false, hc, hs, ht]
    rfl
  · intro count frames threadInfo hc hs ht
    have hrun := callbackEventHandler_frames env count frames threadInfo h hc hs ht
    refine ⟨?_, ?_, ?_⟩
    · intro dialogs hd
      have hret : (callbackEventHandler env).isReturned = true := by rw [hd]; rfl
      rw [hrun] at hret
      cases hf : forEach frameStep frames ⟨[], initialPayload env threadInfo⟩ with
      | error f => rw [hf] at hret; cases hret
      | ok c =>
        rw [hf] at hret
        by_cases h0 : count = 0
        · simp only [h0, if_true] at hret
          cases hret
        · simp only [h0, if_false] at hret
          rw [captureLocals_isReturned] at hret
          cases hret
    · intro c hc1 hpos
      rw [hrun, hc1]
      simp only [hpos, if_false]
      refine ⟨?_, ?_⟩
      · intro e he
        unfold captureLocals
        rw [he]
        rfl
      · intro table c2 htable hc2
        unfold captureLocals
        rw [htable]
        simp only [hc2]
        refine ⟨?_, ?_, ?_⟩
        · intro e he
          unfold captureFields
          rw [he]
          rfl
        · intro e hd he
          unfold captureFields
          rw [hd]
          simp only [he]
          rfl
        · intro fields c3 hd hfields hc3
          unfold captureFields
          rw [hd]
          simp only [hfields, hc3]
          rfl
    · intro f hfault
      rw [hrun] at hfault
      cases hf : forEach frameStep frames ⟨[], initialPayload env threadInfo⟩ with
      | error f2 =>
        rw [hf] at hfault
        cases hfault
        exact Or.inl rfl
      | ok c =>
        rw [hf] at hfault
        refine Or.inr ⟨c, rfl, ?_⟩
        by_cases h0 : count = 0
        · simp only [h0, if_true] at hfault
          cases hfault
          exact Or.inl ⟨h0, rfl⟩
        · simp only [h0, if_false] at hfault
          unfold captureLocals at hfault
          cases htable : env.getLocalVariableTable with
          | error e => rw [htable] at hfault; cases hfault
          | ok table =>
            rw [htable] at hfault
            refine Or.inr ⟨table, rfl, ?_⟩
            cases hl : forEach localStep table c with
            | error f2 =>
              simp only [hl] at hfault
              cases hfault
              exact Or.inl rfl
            | ok c2 =>
              simp only [hl] at hfault
              unfold captureFields at hfault
              cases hd : env.getMethodDeclaringClass with
              | error e => rw [hd] at hfault; cases hfault
              | ok u =>
                rw [hd] at hfault
                cases hfields : env.getClassFields with
                | error e => simp only [hfields] at hfault; cases hfault
                | ok fields =>
                  simp only [hfields] at hfault
                  cases hfs : forEach (fieldStep table) fields.enum c2 with
                  | error f2 =>
                    rw [hfs] at hfault
                    cases hfault
                    exact Or.inr ⟨c2, fields, rfl, rfl, rfl, hfs⟩
                  | ok c3 => rw [hfs] at hfault; cases hfault

/-- C3 at three events: with a failing lookup of the declaring class the
handler serializes the frame line and the local-variable line collected so far
and shows the error; the sample event, where every lookup succeeds, is
serialized in full; with a failing `GetStackTrace` the handler shows the error
and returns. -/
theorem callbackEventHandler_returned_iff_witness :
    callbackEventHandler sampleEnvNoClass
        = .serialized
            (sampleAfterLocals.dialogs
              ++ ["JVMTI_ERROR_INVALID_METHODID".toList ++ ": ".toList
                    ++ "Cannot get current class.".toList])
            sampleAfterLocals.payload
      ∧ callbackEventHandler sampleEnv
          = .serialized sampleAfterLocals.dialogs sampleAfterLocals.payload
      ∧ (∀ dialogs, callbackEventHandler sampleEnv ≠ .returned dialogs)
      ∧ callbackEventHandler
            { sampleEnv with getStackTrace := .error "JVMTI_ERROR_THREAD_NOT_ALIVE".toList }
          = .returned ["JVMTI_ERROR_THREAD_NOT_ALIVE".toList ++ ": ".toList
              ++ "Cannot get stack frames.".toList] :=
  ⟨((((callbackEventHandler_returned_iff sampleEnvNoClass (by decide)).2.2.2 2 _ _
        (by decide) rfl rfl).2.1 sampleAfterFrames (by decide) (by decide)).2 [sampleLocalInt]
        sampleAfterLocals (by decide) (by decide)).1 _ rfl,
    ((((callbackEventHandler_returned_iff sampleEnv (by decide)).2.2.2 2 _ _
        (by decide) rfl rfl).2.1 sampleAfterFrames (by decide) (by decide)).2 [sampleLocalInt]
        sampleAfterLocals (by decide) (by decide)).2.2 [] sampleAfterLocals (by decide)
        (by decide) (by decide),
    ((callbackEventHandler_returned_iff sampleEnv (by decide)).2.2.2 2 _ _
        (by decide) rfl rfl).1,
    (callbackEventHandler_returned_iff
        { sampleEnv with getStackTrace := .error "JVMTI_ERROR_THREAD_NOT_ALIVE".toList }
        (by decide)).2.1 2 _ (by decide) rfl⟩

/-- C3 fails as stated: for the sentinel exception, a failure of `GetFrameCount`,
of `GetStackTrace` or of `GetThreadInfo` makes the handler show the error and
return; `serializeDataStruct` is not reached. -/
theorem callbackEventHandler_returned_counterexample :
    callbackEventHandler
        { sampleEnv with getFrameCount := .error "JVMTI_ERROR_THREAD_NOT_ALIVE".toList }
      = .returned ["JVMTI_ERROR_THREAD_NOT_ALIVE: Cannot get stack frame count.".toList]
    ∧ callbackEventHandler
        { sampleEnv with getStackTrace := .error "JVMTI_ERROR_THREAD_NOT_ALIVE".toList }
      = .returned ["JVMTI_ERROR_THREAD_NOT_ALIVE: Cannot get stack frames.".toList]
    ∧ callbackEventHandler
        { sampleEnv with getThreadInfo := .error "JVMTI_ERROR_THREAD_NOT_ALIVE".toList }
      = .returned ["JVMTI_ERROR_THREAD_NOT_ALIVE: Cannot get current thread name.".toList] := by
  decide

theorem forEach_invariant {α β : Type} (step : Capture → α → Except Fault Capture)
    (proj : Capture → β)
    (hstep : ∀ c x c2, step c x = .ok c2 → proj c2 = proj c)
    (xs : List α) (c c2 : Capture) (h : forEach step xs c = .ok c2) :
    proj c2 = proj c := by
  induction xs generalizing c with
  | nil =>
    simp only [forEach, Except.ok.injEq] at h
    rw [h]
  | cons x xs ih =>
    unfold forEach at h
    cases hx : step c x with
    | error f => rw [hx] at h; cases h
    | ok c3 =>
      rw [hx] at h
      rw [ih c3 h, hstep c x c3 hx]

theorem frameStep_outsideFrames (c : Capture) (frame : FrameInfo) (c2 : Capture)
    (h : frameStep c frame = .ok c2) :
    c2.payload.outsideFrames = c.payload.outsideFrames := by
  unfold frameStep at h
  repeat' split at h
  all_goals first | (cases h; done) | (cases h; rfl)

theorem arrayDetail_outsideLocals (c : Capture) (signature str : Str) (obj : JObject)
    (c2 : Capture) (h : arrayDetail c signature str obj = .ok c2) :
    c2.payload.outsideLocals = c.payload.outsideLocals := by
  unfold arrayDetail at h
  split at h
  · cases h
  · cases h; rfl

theorem objectDetail_outsideLocals (c : Capture) (str : Str) (obj : JObject) (c2 : Capture)
    (h : objectDetail c str obj = .ok c2) :
    c2.payload.outsideLocals = c.payload.outsideLocals := by
  unfold objectDetail at h
  split at h
  · cases h
  · split at h <;> (cases h; rfl)

theorem localStep_outsideLocals (c : Capture) (v : LocalVariableEntry) (c2 : Capture)
    (h : localStep c v = .ok c2) :
    c2.payload.outsideLocals = c.payload.outsideLocals := by
  unfold localStep at h
  simp only at h
  repeat' split at h
  all_goals first
    | (cases h; done)
    | (cases h; rfl)
    | (rw [arrayDetail_outsideLocals _ _ _ _ _ h]; rfl)
    | (rw [objectDetail_outsideLocals _ _ _ _ h]; rfl)

/-- C6: if the declaring-class lookup or the class-field enumeration for frame 0
fails after the frame lines and the local-variable lines were collected, the
handler still serializes; the file holds the four delimiter lines, its frame
section and its local-variable section hold exactly the lines collected before
the failure, and the static-field section is empty: the fourth delimiter follows
the third directly. -/
theorem callbackEventHandler_fieldLookupFailure (env : Env) (prior : Str) (count : Nat)
    (frames : List FrameInfo) (threadInfo : ThreadInfo) (c1 c2 : Capture)
    (table : List LocalVariableEntry) (e : Str)
    (hsig : env.getClassSignature = .ok sentinelSignature)
    (hcount : env.getFrameCount = .ok count) (hpos : count ≠ 0)
    (hframes : env.getStackTrace = .ok frames)
    (hthread : env.getThreadInfo = .ok threadInfo)
    (hc1 : forEach frameStep frames ⟨[], initialPayload env threadInfo⟩ = .ok c1)
    (htable : env.getLocalVariableTable = .ok table)
    (hc2 : forEach localStep table c1 = .ok c2)
    (hfail : env.getMethodDeclaringClass = .error e
      ∨ (env.getMethodDeclaringClass = .ok () ∧ env.getClassFields = .error e)) :
    (callbackEventHandler env).written = some c2.payload
      ∧ c2.payload.methodNames = c1.payload.methodNames
      ∧ c2.payload.staticFields = []
      ∧ serializeDataStruct c2.payload prior
          = readToken prior ++ ['\n']
            ++ "NAME: ".toList ++ threadInfo.name ++ ['\n']
            ++ "PRIORITY: ".toList ++ priorityName threadInfo.priority ++ ['\n']
            ++ env.runtimeMetrics ++ ['\n']
            ++ delimiterLine ++ linesText c1.payload.methodNames
            ++ delimiterLine ++ linesText c2.payload.localVars
            ++ delimiterLine
            ++ delimiterLine ++ linesText c2.payload.heapByteData := by
  have h1 := forEach_invariant frameStep (fun c => c.payload.outsideFrames)
    frameStep_outsideFrames frames _ c1 hc1
  have h2 := forEach_invariant localStep (fun c => c.payload.outsideLocals)
    localStep_outsideLocals table c1 c2 hc2
  simp only [VisualizerPayload.outsideFrames, initialPayload, Prod.mk.injEq] at h1
  simp only [VisualizerPayload.outsideLocals, Prod.mk.injEq] at h2
  obtain ⟨h1t, h1m, -, h1s, -⟩ := h1
  obtain ⟨h2t, h2m, h2n, h2s⟩ := h2
  have hrun : (callbackEventHandler env).written = some c2.payload := by
    unfold callbackEventHandler
    rw [hsig]
    simp only [ne_eq, not_true_eq_false, if_false, hcount, hframes, hthread]
    have hc1b : forEach frameStep frames
        ⟨[], { threadInfo := threadInfo, metrics := env.runtimeMetrics, methodNames := [],
               localVars := [], staticFields := [], heapByteData := [] }⟩ = .ok c1 := hc1
    rw [hc1b]
    simp only [hpos, if_false]
    unfold captureLocals
    rw [htable]
    simp only [hc2]
    unfold captureFields
    rcases hfail with hf | ⟨hf1, hf2⟩
    · rw [hf]; rfl
    · rw [hf1]; simp only [hf2]; rfl
  refine ⟨hrun, h2n, by rw [h2s, h1s], ?_⟩
  rw [serializeDataStruct_eq]
  unfold protocolText
  rw [h2t, h2m, h2n, h2s, h1t, h1m, h1s]
  simp [linesText]

/-- C6 at the sample event with a failing lookup of the declaring class. -/
theorem callbackEventHandler_fieldLookupFailure_witness :
    (callbackEventHandler sampleEnvNoClass).written = some sampleAfterLocals.payload
      ∧ sampleAfterLocals.payload.methodNames = sampleAfterFrames.payload.methodNames
      ∧ sampleAfterLocals.payload.staticFields = []
      ∧ serializeDataStruct sampleAfterLocals.payload "42\n".toList
          = ("42\nNAME: main\nPRIORITY: NORMAL\nmetrics\n"
              ++ "SECTION_END_BEGIN_NEW\nstatic void main(java.lang.String[])\n"
              ++ "SECTION_END_BEGIN_NEW\nint\x07x\x077\n"
              ++ "SECTION_END_BEGIN_NEW\n"
              ++ "SECTION_END_BEGIN_NEW\n").toList :=
  callbackEventHandler_fieldLookupFailure sampleEnvNoClass "42\n".toList 2
    [⟨.ok ("main".toList, "([Ljava/lang/String;)V".toList), .ok 9⟩] ⟨"main".toList, 5⟩
    sampleAfterFrames sampleAfterLocals [sampleLocalInt] "JVMTI_ERROR_INVALID_METHODID".toList
    (by decide) (by decide) (by decide) (by decide) (by decide) (by decide) (by decide)
    (by decide) (by decide)

/-! ## Properties of the value formatter -/

theorem elementLoop_append {α : Type} (render : α → Str) (pre mid post : List α) (stream : Str) :
    elementLoop render (pre ++ mid ++ post) mid.length pre.length stream
      = .ok (stream ++ (mid.map fun e => render e ++ ", ".toList).flatten) := by
  induction mid generalizing pre stream with
  | nil => simp [elementLoop]
  | cons m ms ih =>
    have hget : (pre ++ m :: ms ++ post).get? pre.length = some m := by
      have e0 : pre ++ m :: ms ++ post = pre ++ (m :: (ms ++ post)) := by simp
      rw [e0, List.get?_eq_getElem?, List.getElem?_append_right (Nat.le_refl _)]
      simp
    have e : pre ++ m :: ms ++ post = (pre ++ [m]) ++ ms ++ post := by simp
    have hl : pre.length + 1 = (pre ++ [m]).length := by simp
    rw [List.length_cons, elementLoop, hget]
    simp only
    rw [e, hl, ih]
    simp

theorem intercalate_concat (sep : Str) (init : List Str) (last : Str) :
    sep.intercalate (init ++ [last]) = (init.map fun x => x ++ sep).flatten ++ last := by
  induction init with
  | nil => simp [List.intercalate]
  | cons x xs ih =>
    cases xs with
    | nil => simp [List.intercalate, List.intersperse]
    | cons y ys =>
      have h2 : sep.intercalate (x :: (y :: ys ++ [last]))
          = x ++ sep ++ sep.intercalate (y :: ys ++ [last]) := by
        simp [List.intercalate, List.intersperse]
      rw [List.cons_append, h2, ih]
      simp

theorem listElements_concat {α : Type} (render : α → Str) (init : List α) (last : α)
    (stream : Str) :
    listElements render (init ++ [last]) stream
      = .ok (stream ++ ", ".toList.intercalate ((init ++ [last]).map render) ++ " \x7d".toList) := by
  have hloop := elementLoop_append render [] init [last] stream
  simp only [List.nil_append, List.length_nil] at hloop
  have hlen : (((init ++ [last]).length : Int) - 1).toNat = init.length := by simp
  have hneg : ¬ (((init ++ [last]).length : Int) - 1 < 0) := by simp
  have hget : (init ++ [last]).get? init.length = some last := by
    simp [List.getElem?_append_right]
  unfold listElements
  simp only [hlen, hloop, hneg, if_false, hget]
  rw [List.map_append, List.map_singleton, intercalate_concat, List.map_map]
  simp only [List.append_assoc]
  rfl

theorem listElements_eq {α : Type} (render : α → Str) (elements : List α) (h : elements ≠ []) :
    listElements render elements "\x7b ".toList = .ok (bracedListing (elements.map render)) := by
  rw [← List.dropLast_append_getLast h, listElements_concat]
  simp [bracedListing]

theorem bracedListing_length (texts : List Str) : ¬ (bracedListing texts).length ≤ 2 := by
  simp [bracedListing]

/-- C8: for every non-empty array of `int`, `byte`, `short` or `long` elements
the element listing is an opening brace and a space, the signed decimal texts of
the elements joined by `", "`, a space and a closing brace. -/
theorem arrayListing_integers (elements : List Int) (h : elements ≠ []) :
    arrayListing "[I".toList (some (.ints elements))
        = .ok (bracedListing (elements.map decimal))
      ∧ arrayListing "[B".toList (some (.bytes elements))
        = .ok (bracedListing (elements.map decimal))
      ∧ arrayListing "[S".toList (some (.shorts elements))
        = .ok (bracedListing (elements.map decimal))
      ∧ arrayListing "[J".toList (some (.longs elements))
        = .ok (bracedListing (elements.map decimal)) := by
  have hI : ("[I".toList).getLast? = some 'I' := by decide
  have hB : ("[B".toList).getLast? = some 'B' := by decide
  have hS : ("[S".toList).getLast? = some 'S' := by decide
  have hJ : ("[J".toList).getLast? = some 'J' := by decide
  refine ⟨?_, ?_, ?_, ?_⟩
  · unfold arrayListing
    simp only [hI, if_true, listElements_eq decimal elements h,
      if_neg (bracedListing_length _)]
  · unfold arrayListing
    simp only [hB, Option.some.injEq, Char.reduceEq, if_false, if_true,
      listElements_eq decimal elements h, if_neg (bracedListing_length _)]
  · unfold arrayListing
    simp only [hS, Option.some.injEq, Char.reduceEq, if_false, if_true,
      listElements_eq decimal elements h, if_neg (bracedListing_length _)]
  · unfold arrayListing
    simp only [hJ, Option.some.injEq, Char.reduceEq, if_false, if_true,
      listElements_eq decimal elements h, if_neg (bracedListing_length _)]

/-- C8 at the array `[1, 2, 3]`. -/
theorem arrayListing_integers_witness :
    arrayListing "[I".toList (some (.ints [1, 2, 3])) = .ok "\x7b 1, 2, 3 \x7d".toList
      ∧ arrayListing "[B".toList (some (.bytes [1, 2, 3])) = .ok "\x7b 1, 2, 3 \x7d".toList
      ∧ arrayListing "[S".toList (some (.shorts [1, 2, 3])) = .ok "\x7b 1, 2, 3 \x7d".toList
      ∧ arrayListing "[J".toList (some (.longs [1, 2, 3])) = .ok "\x7b 1, 2, 3 \x7d".toList :=
  arrayListing_integers [1, 2, 3] (by decide)

theorem containsStr_append_pat_append (a pat rest : Str) :
    containsStr (a ++ pat ++ rest) pat = true := by
  induction a with
  | nil =>
    cases pat with
    | nil => cases rest <;> simp [containsStr, startsWith]
    | cons c cs =>
      have := startsWith_append_self (c :: cs) rest
      simp only [List.cons_append] at this
      simp [containsStr, this]
  | cons c cs ih =>
    simp only [List.cons_append, containsStr]
    simp only [List.append_assoc] at ih
    simp [ih]

/-- C7, as amended: for every array-typed reference value whose descriptor is
an object-array descriptor (one or more `[`, then `L` name `;`) and whose array
has length 0, the element listing is exactly the three characters opening
brace, space, closing brace. -/
theorem arrayListing_emptyObjectArray (n : Nat) (name : Str) :
    arrayListing (List.replicate (n + 1) '[' ++ 'L' :: name ++ [';']) (some (.objects []))
      = .ok ['\x7b', ' ', '\x7d'] := by
  have hlast : (List.replicate (n + 1) '[' ++ 'L' :: name ++ [';']).getLast? = some ';' := by
    rw [List.getLast?_concat]
  have hsub : containsStr (List.replicate (n + 1) '[' ++ 'L' :: name ++ [';']) "[L".toList
      = true := by
    have e : List.replicate (n + 1) '[' ++ 'L' :: name ++ [';']
        = List.replicate n '[' ++ "[L".toList ++ (name ++ [';']) := by
      rw [List.replicate_succ']
      simp
    rw [e]
    exact containsStr_append_pat_append _ _ _
  unfold arrayListing
  simp only [hlast, hsub, Option.some.injEq, Char.reduceEq, if_false, if_true, List.length_nil,
    objectLoop]
  decide

/-- C7 fails as stated: the listing of an empty `String[]` has three characters,
with a space between the braces, and for an empty `int[]` the handler reads
`elements[-1]`. -/
theorem arrayListing_empty_counterexample :
    arrayListing "[Ljava/lang/String;".toList (some (.objects [])) = .ok ['\x7b', ' ', '\x7d']
      ∧ arrayListing "[Ljava/lang/String;".toList (some (.objects [])) ≠ .ok ['\x7b', '\x7d']
      ∧ arrayListing "[I".toList (some (.ints [])) = .error .undefinedBehaviour
      ∧ arrayListing "[I".toList (some (.ints [])) ≠ .ok ['\x7b', '\x7d'] := by
  decide

theorem char_toNat_ofNat (e : Nat) (h : e < 256) : (Char.ofNat e).toNat = e := by
  have hv : e.isValidChar := Or.inl (by omega)
  simp [Char.ofNat, hv, Char.ofNatAux, Char.toNat, UInt32.toNat]

theorem renderChar_eq_quotedChar (e : Nat) (h : e < 256) : renderChar e = quotedChar e := by
  unfold renderChar quotedChar
  rw [Nat.mod_eq_of_lt h]
  rfl

theorem quotedChar_no_lineBreak (e : Nat) (h : e < 256) :
    '\n' ∉ quotedChar e ∧ '\r' ∉ quotedChar e := by
  unfold quotedChar
  split_ifs with h10 h13
  · decide
  · decide
  · have hn : Char.ofNat e ≠ '\n' := by
      intro heq
      apply h10
      rw [← char_toNat_ofNat e h, heq]
      decide
    have hr : Char.ofNat e ≠ '\r' := by
      intro heq
      apply h13
      rw [← char_toNat_ofNat e h, heq]
      decide
    simp only [List.mem_cons, List.mem_singleton, List.not_mem_nil, or_false, not_or]
    exact ⟨⟨by decide, hn.symm, by decide⟩, ⟨by decide, hr.symm, by decide⟩⟩

theorem not_mem_intercalate (c : Char) (sep : Str) (texts : List Str)
    (hsep : c ∉ sep) (h : ∀ t ∈ texts, c ∉ t) : c ∉ sep.intercalate texts := by
  induction texts with
  | nil => simp [List.intercalate]
  | cons t ts ih =>
    cases ts with
    | nil => simpa [List.intercalate] using h t (by simp)
    | cons u us =>
      have e : sep.intercalate (t :: u :: us) = t ++ sep ++ sep.intercalate (u :: us) := by
        simp [List.intercalate, List.intersperse]
      rw [e]
      simp only [List.mem_append, not_or]
      exact ⟨⟨h t (by simp), hsep⟩, ih (fun x hx => h x (by simp [hx]))⟩

/-- For every non-empty `char[]` whose elements are all below 256 (so that the
narrowing to one byte keeps their value), the element listing is the braced
list of the elements between single quotes, line feed and carriage return
written as the escapes backslash-n and backslash-r, and the listing holds no raw
line feed or carriage return. -/
theorem arrayListing_chars_oneByte (elements : List Nat) (h : elements ≠ [])
    (hbyte : ∀ e ∈ elements, e < 256) :
    arrayListing "[C".toList (some (.chars elements))
        = .ok (bracedListing (elements.map quotedChar))
      ∧ '\n' ∉ bracedListing (elements.map quotedChar)
      ∧ '\r' ∉ bracedListing (elements.map quotedChar) := by
  have hC : ("[C".toList).getLast? = some 'C' := by decide
  have hmap : elements.map renderChar = elements.map quotedChar :=
    List.map_congr_left fun e he => renderChar_eq_quotedChar e (hbyte e he)
  refine ⟨?_, ?_, ?_⟩
  · unfold arrayListing
    simp only [hC, Option.some.injEq, Char.reduceEq, if_false, if_true,
      listElements_eq renderChar elements h, if_neg (bracedListing_length _), hmap]
  · unfold bracedListing
    simp only [List.mem_append, not_or]
    refine ⟨⟨by decide, ?_⟩, by decide⟩
    apply not_mem_intercalate _ _ _ (by decide)
    intro t ht
    rcases List.mem_map.mp ht with ⟨e, he, rfl⟩
    exact (quotedChar_no_lineBreak e (hbyte e he)).1
  · unfold bracedListing
    simp only [List.mem_append, not_or]
    refine ⟨⟨by decide, ?_⟩, by decide⟩
    apply not_mem_intercalate _ _ _ (by decide)
    intro t ht
    rcases List.mem_map.mp ht with ⟨e, he, rfl⟩
    exact (quotedChar_no_lineBreak e (hbyte e he)).2

/-- The listing of the array of `a` and line feed. -/
theorem arrayListing_chars_oneByte_sample :
    arrayListing "[C".toList (some (.chars [97, 10])) = .ok "\x7b 'a', '\\n' \x7d".toList
      ∧ '\n' ∉ "\x7b 'a', '\\n' \x7d".toList
      ∧ '\r' ∉ "\x7b 'a', '\\n' \x7d".toList :=
  arrayListing_chars_oneByte [97, 10] (by decide) (by decide)

/-- C9 fails on the code: the tests for line feed and carriage return compare
the 16-bit element, and the text written for any other element is its low byte.
The code units `U+4E0A` and `U+4E0D` are neither line feed nor carriage return,
but their low bytes are: the listing of `a`, `U+4E0A` holds a raw line feed
between the quotes and the listing of `U+4E0D` a raw carriage return. For the
event with the local variable `char[] cs` the heap line with the raw line feed
is serialized, the line is broken in two in the file, and the visualizer reads
`components[1]` of the second part, which has no separator. With the array of
`a` and line feed the escape is written and the file is read back. -/
theorem arrayListing_chars_lowByte :
    Char.ofNat 0x4E0A ≠ '\n' ∧ Char.ofNat 0x4E0D ≠ '\r'
      ∧ arrayListing "[C".toList (some (.chars [97, 0x4E0A]))
          = .ok "\x7b 'a', '\n' \x7d".toList
      ∧ '\n' ∈ "\x7b 'a', '\n' \x7d".toList
      ∧ arrayListing "[C".toList (some (.chars [0x4E0D])) = .ok "\x7b '\r' \x7d".toList
      ∧ '\r' ∈ "\x7b '\r' \x7d".toList
      ∧ callbackEventHandler (sampleEnvChars [97, 0x4E0A])
          = .serialized [] (sampleCharsPayload "\x7b 'a', '\n' \x7d".toList)
      ∧ DebugVisualizer.deserializePayloadData
            (some (serializeDataStruct (sampleCharsPayload "\x7b 'a', '\n' \x7d".toList)
              "42\n".toList))
          = .error .undefinedBehaviour
      ∧ callbackEventHandler (sampleEnvChars [97, 10])
          = .serialized [] (sampleCharsPayload "\x7b 'a', '\\n' \x7d".toList)
      ∧ (DebugVisualizer.deserializePayloadData
            (some (serializeDataStruct (sampleCharsPayload "\x7b 'a', '\\n' \x7d".toList)
              "42\n".toList))).toOption.map
            (fun data => data.heapByteMap)
          = some [("[C@4e".toList, "\x7b 'a', '\\n' \x7d".toList)] := by
  decide

/-- C10 fails on the code: for the byte `0xff` (the `jbyte` value `-1`) of an
object whose display string holds `@`, the registered heap detail is the token
`ffffffff` followed by a space, not the two digits `ff`. -/
theorem objectDetail_negativeByte :
    hexDump [-1] = "ffffffff ".toList
      ∧ objectDetail sampleAfterLocals (escapeLineBreaks sampleObject.toStringChars)
            sampleObject
          = .ok (sampleAfterLocals.pushHeap "Point@1b\x07ffffffff ".toList)
      ∧ (sampleAfterLocals.pushHeap "Point@1b\x07ffffffff ".toList).payload.heapByteData
          = ["Point@1b\x07ffffffff ".toList] := by
  decide

/-! ## Reference values of local variables and static fields -/

theorem find_eq_none_iff (s : Str) (c : Char) : find s c = none ↔ c ∉ s := by
  unfold find
  constructor
  · intro h hm
    have := List.indexOf_lt_length.mpr hm
    simp [this] at h
  · intro h
    have : List.indexOf c s = s.length := List.indexOf_eq_length.mpr h
    simp [this]

theorem mem_regexReplaceChar (str : Str) (c x : Char) (repl : Str) (hx : x ∉ repl) (hxc : x ≠ c) :
    x ∈ regexReplaceChar str c repl ↔ x ∈ str := by
  unfold regexReplaceChar
  induction str with
  | nil => simp
  | cons d ds ih =>
    simp only [List.map_cons, List.flatten_cons, List.mem_append, ih, List.mem_cons]
    by_cases hd : d = c
    · subst hd
      simp [hx, hxc]
    · simp [hd]

theorem mem_escapeLineBreaks_at (str : Str) : '@' ∈ escapeLineBreaks str ↔ '@' ∈ str := by
  unfold escapeLineBreaks
  rw [mem_regexReplaceChar _ _ _ _ (by decide) (by decide),
    mem_regexReplaceChar _ _ _ _ (by decide) (by decide)]

/-- A descriptor that begins with `L` always decodes: the lookup table is not
consulted and `substr` starts inside the string. -/
theorem dataTypeFormatter_object_ok (signature : Str) (h : signature.head? = some 'L') :
    ∃ label, dataTypeFormatter signature = .ok label := by
  cases signature with
  | nil => simp at h
  | cons ch rest =>
    have hch : ch = 'L' := by simpa using h
    subst hch
    have hrep : replace ('L' :: rest) '/' '.' = 'L' :: replace rest '/' '.' := by
      simp [replace]
    have hfind : find ('L' :: replace rest '/' '.') 'L' = some 0 := by
      simp [find]
    unfold dataTypeFormatter
    simp only [hrep, hfind, Option.isSome_some, if_true, posValue, substr]
    rw [if_neg (by simp)]
    exact ⟨_, rfl⟩

theorem entryLine_of_label (name signature value label : Str)
    (h : dataTypeFormatter signature = .ok label) :
    entryLine name signature value = .ok (label ++ ['\x07'] ++ name ++ ['\x07'] ++ value) := by
  unfold entryLine decodeJVMTypeSignature
  simp [h]

/-- C11 fails on the code when `objectToBytes` returns null. For every non-null
local variable whose descriptor begins with `L`, the type label decodes and the
local-variable line with the escaped display string is pushed; then, if
`objectToBytes` returned a byte array, the heap detail keyed by the display
string is appended exactly when the display string holds `@`, as the claim
says; but if it returned null, the step does not complete: `GetByteArrayElements`
is called on the null array before the null test, whatever the display string
holds. -/
theorem localStep_object (c : Capture) (v : LocalVariableEntry) (obj : JObject)
    (hsig : v.signature.head? = some 'L') (hread : v.getLocalObject = .ok (some obj)) :
    ∃ label, dataTypeFormatter v.signature = .ok label
      ∧ localStep c v =
          (match obj.objectToBytes with
           | some bytes =>
             if '@' ∈ obj.toStringChars then
               .ok ((c.pushLocal (label ++ ['\x07'] ++ v.name ++ ['\x07']
                      ++ escapeLineBreaks obj.toStringChars)).pushHeap
                    (escapeLineBreaks obj.toStringChars ++ ['\x07'] ++ hexDump bytes))
             else
               .ok (c.pushLocal (label ++ ['\x07'] ++ v.name ++ ['\x07']
                      ++ escapeLineBreaks obj.toStringChars))
           | none => .error .undefinedBehaviour) := by
  obtain ⟨label, hlabel⟩ := dataTypeFormatter_object_ok v.signature hsig
  have hline := entryLine_of_label v.name v.signature (escapeLineBreaks obj.toStringChars) label
    hlabel
  have hstep : localStep c v = objectDetail
      (c.pushLocal (label ++ ['\x07'] ++ v.name ++ ['\x07'] ++ escapeLineBreaks obj.toStringChars))
      (escapeLineBreaks obj.toStringChars) obj := by
    unfold localStep
    simp only [hsig, hread, hline, Option.some.injEq, Char.reduceEq, or_self, or_true, if_false,
      if_true]
  refine ⟨label, hlabel, ?_⟩
  rw [hstep]
  unfold objectDetail
  cases obj.objectToBytes with
  | none => rfl
  | some bytes =>
    simp only
    by_cases hat : '@' ∈ obj.toStringChars
    · have hne : find (escapeLineBreaks obj.toStringChars) '@' ≠ none := by
        rw [Ne, find_eq_none_iff, mem_escapeLineBreaks_at]
        exact fun h => h hat
      rw [if_neg hne, if_pos hat]
    · have he : find (escapeLineBreaks obj.toStringChars) '@' = none := by
        rw [find_eq_none_iff, mem_escapeLineBreaks_at]
        exact hat
      rw [if_pos he, if_neg hat]

/-- C11 at the local variable `Object q` that holds an object for which
`objectToBytes` returns null: the step of the loop does not complete, and the
handler of the event with this local variable does not reach
`serialize_launch`. The same variable holding `Point@1b` with a byte array gets
its line and its heap detail. -/
theorem localStep_object_witness :
    (∃ label, dataTypeFormatter sampleLocalNoBytes.signature = .ok label
        ∧ localStep sampleAfterFrames sampleLocalNoBytes = .error .undefinedBehaviour)
      ∧ callbackEventHandler sampleEnvNoBytes = .fault .undefinedBehaviour
      ∧ localStep sampleAfterFrames sampleLocalObject
          = .ok ((sampleAfterFrames.pushLocal "java.lang.Object\x07p\x07Point@1b".toList).pushHeap
              "Point@1b\x07ffffffff ".toList) :=
  ⟨localStep_object sampleAfterFrames sampleLocalNoBytes sampleNoBytes (by decide) (by decide),
    by decide, by decide⟩

/-- C12 fails on the code: the hex dump of a static `Object` field is guarded by
the descriptor of the local variable with the index of the field. With the
local `int x` at index 0 the static field `origin` gets no heap detail, with a
local of object type at index 0 it gets one, and with an empty local-variable
table the guard reads outside of the table. -/
theorem fieldStep_object_dependsOnLocals :
    fieldStep [sampleLocalInt] sampleAfterLocals (0, sampleStaticObject)
        = .ok (sampleAfterLocals.pushStatic
            "static java.lang.Object\x07origin\x07Point@2c".toList)
      ∧ fieldStep [sampleLocalObject] sampleAfterLocals (0, sampleStaticObject)
        = .ok ((sampleAfterLocals.pushStatic
            "static java.lang.Object\x07origin\x07Point@2c".toList).pushHeap
            "Point@2c\x071 7f ".toList)
      ∧ fieldStep [] sampleAfterLocals (0, sampleStaticObject) = .error .undefinedBehaviour
      ∧ (callbackEventHandler sampleEnvStaticObject).written
        = some
            { threadInfo := ⟨"main".toList, 5⟩, metrics := "metrics".toList,
              methodNames := ["static void main(java.lang.String[])".toList],
              localVars := ["int\x07x\x077".toList],
              staticFields := ["static java.lang.Object\x07origin\x07Point@2c".toList],
              heapByteData := [] } := by
  decide

/-! ## Malformed descriptors -/

theorem count_bracket_replace (s : Str) : (replace s '/' '.').count '[' = s.count '[' := by
  unfold replace
  induction s with
  | nil => rfl
  | cons c cs ih =>
    by_cases hc : c = '/'
    · subst hc
      simp only [List.map_cons, if_true, List.count_cons, ih]
      rfl
    · simp only [List.map_cons, if_neg hc, List.count_cons, ih]

/-- C13, as amended: for every descriptor that is an unterminated object name
(zero or more `[`, then `L` and a name, with no `;` anywhere; shorter than
`2 ^ 64` characters, as every `std::string`), `dataTypeFormatter` raises no error:
it returns the name with every `/` replaced by `.`, followed by one `[]` for
each `[` of the descriptor. -/
theorem dataTypeFormatter_unterminated (n : Nat) (name : Str)
    (hsemi : ';' ∉ name) (hlen : (List.replicate n '[' ++ 'L' :: name).length < 2 ^ 64) :
    dataTypeFormatter (List.replicate n '[' ++ 'L' :: name)
      = .ok ((name.map fun ch => if ch = '/' then '.' else ch)
          ++ (List.replicate ((List.replicate n '[' ++ 'L' :: name).count '[')
                "[]".toList).flatten) := by
  set name2 := replace name '/' '.' with hname2
  have hrep : replace (List.replicate n '[' ++ 'L' :: name) '/' '.'
      = List.replicate n '[' ++ 'L' :: name2 := by
    have e : List.replicate n '[' ++ 'L' :: name = List.replicate n '[' ++ (['L'] ++ name) := by
      simp
    rw [e, replace_append, replace_append, replace_replicate_bracket]
    simp [replace, hname2]
  have hcount : (List.replicate n '[' ++ 'L' :: name2).count '['
      = (List.replicate n '[' ++ 'L' :: name).count '[' := by
    rw [← hrep, count_bracket_replace]
  have hs2 : ';' ∉ name2 := not_mem_replace_of_not_mem name ';' (by decide) hsemi
  have hfL : find (List.replicate n '[' ++ 'L' :: name2) 'L' = some n := by
    rw [find_append_of_not_mem _ _ _
      (by simp only [List.mem_replicate, not_and]; intro _ h; exact absurd h (by decide))
      (by simp)]
    simp
  have hfS : find (List.replicate n '[' ++ 'L' :: name2) ';' = none := by
    apply find_of_not_mem
    simp only [List.mem_append, List.mem_replicate, List.mem_cons, not_or]
    exact ⟨fun h => absurd h.2 (by decide), by decide, hs2⟩
  have hl2 : name2.length = name.length := by simp [hname2, replace]
  have hlen2 : n + name2.length + 1 < 2 ^ 64 := by
    simp only [List.length_append, List.length_replicate, List.length_cons] at hlen
    omega
  have hsub : sizeSub (sizeSub npos n) 1 = npos - n - 1 := by
    have h1 : n ≤ 2 ^ 64 - 1 := by omega
    have h2 : 1 ≤ 2 ^ 64 - 1 - n := by omega
    unfold sizeSub npos
    rw [if_pos h1, if_pos h2]
  have htake : List.take (npos - n - 1) (List.drop (n + 1) (List.replicate n '[' ++ 'L' :: name2))
      = name2 := by
    have e : List.replicate n '[' ++ 'L' :: name2 = (List.replicate n '[' ++ ['L']) ++ name2 := by
      simp
    have hl : (List.replicate n '[' ++ ['L']).length = n + 1 := by simp
    rw [e, ← hl, List.drop_left]
    apply List.take_of_length_le
    unfold npos
    omega
  have hpos : ¬ (List.replicate n '[' ++ 'L' :: name2).length < n + 1 := by
    simp
  unfold dataTypeFormatter
  simp only [hrep, hfL, hfS, Option.isSome_some, if_true, posValue, hsub, substr, hpos, if_false,
    htake, appendBrackets_eq, hcount]
  rfl

/-- C13 at the descriptor `[Lfoo`. -/
theorem dataTypeFormatter_unterminated_witness :
    dataTypeFormatter "[Lfoo".toList = .ok "foo[]".toList :=
  dataTypeFormatter_unterminated 1 "foo".toList (by decide) (by decide)

/-- C13 fails as stated: the unterminated object name `[Ljava/lang/String`
is decoded to a label without any error. -/
theorem dataTypeFormatter_unterminated_counterexample :
    ';' ∉ "[Ljava/lang/String".toList
      ∧ dataTypeFormatter "[Ljava/lang/String".toList = .ok "java.lang.String[]".toList := by
  decide

theorem mappings_eq_none (c : Char) (h : c ∉ primitiveCodes) : mappings c = none := by
  unfold primitiveCodes at h
  simp only [List.mem_cons, List.mem_singleton, List.not_mem_nil, or_false, not_or] at h
  obtain ⟨h1, h2, h3, h4, h5, h6, h7, h8, h9⟩ := h
  unfold mappings
  split <;> first | rfl | contradiction

theorem getLast?_replace (s : Str) :
    (replace s '/' '.').getLast? = s.getLast?.map fun ch => if ch = '/' then '.' else ch := by
  unfold replace
  rw [List.getLast?_eq_head?_reverse, List.getLast?_eq_head?_reverse, ← List.map_reverse,
    List.head?_map]

/-- C14: for every non-empty descriptor without `L` whose last character is
not one of the nine primitive codes, `dataTypeFormatter` fails with the
`std::out_of_range` error of the table lookup and returns no label. -/
theorem dataTypeFormatter_unknownCode (d : Str) (last : Char)
    (hlast : d.getLast? = some last) (hL : 'L' ∉ d) (hcode : last ∉ primitiveCodes) :
    dataTypeFormatter d = .error .outOfRange := by
  have hL2 : 'L' ∉ replace d '/' '.' := not_mem_replace_of_not_mem d 'L' (by decide) hL
  have hlast2 : (replace d '/' '.').getLast? = some (if last = '/' then '.' else last) := by
    rw [getLast?_replace, hlast]
    rfl
  have hnone : mappings (if last = '/' then '.' else last) = none := by
    split_ifs
    · rfl
    · exact mappings_eq_none last hcode
  unfold dataTypeFormatter
  simp only [find_of_not_mem _ _ hL2, Option.isSome_none, Bool.false_eq_true, if_false, hlast2,
    hnone]

/-- C14 at the descriptors `Q` and `[[X`. -/
theorem dataTypeFormatter_unknownCode_witness :
    dataTypeFormatter "Q".toList = .error .outOfRange
      ∧ dataTypeFormatter "[[X".toList = .error .outOfRange :=
  ⟨dataTypeFormatter_unknownCode "Q".toList 'Q' (by decide) (by decide) (by decide),
   dataTypeFormatter_unknownCode "[[X".toList 'X' (by decide) (by decide) (by decide)⟩

/-- C15 fails on the code: for the method name `a, b` and the descriptor `()V`
the test for a trailing separator finds the `", "` of the name, and the last two
characters `b(` are removed; the result is `void a, )`, not `void a, b()`. -/
theorem decodeJVMTypeSignature_emptyParams_name :
    (TypeDescriptor.mk 0 .void).WellFormed
      ∧ '(' :: ')' :: (TypeDescriptor.mk 0 .void).text = "()V".toList
      ∧ decodeJVMTypeSignature "a, b".toList "()V".toList true = .ok "void a, )".toList
      ∧ (TypeDescriptor.mk 0 .void).label ++ " ".toList ++ "a, b".toList ++ "()".toList
          = "void a, b()".toList := by
  decide

/-! ## Trigger and capture phases -/

/-- C16: when the class signature of the caught exception is read and differs
from the sentinel, the handler returns at once: no dialog is shown, no payload
is built, nothing is serialized and the visualizer is not launched. A run that
serializes, or that shows a dialog, or that faults, has the sentinel signature. -/
theorem callbackEventHandler_notSentinel (env : Env) (signature : Str)
    (hread : env.getClassSignature = .ok signature) :
    (signature ≠ sentinelSignature → callbackEventHandler env = .returned [])
      ∧ (callbackEventHandler env ≠ .returned [] → signature = sentinelSignature) := by
  have h1 : signature ≠ sentinelSignature → callbackEventHandler env = .returned [] := by
    intro hne
    unfold callbackEventHandler
    rw [hread]
    simp only [ne_eq, hne, not_false_eq_true, if_true]
  refine ⟨h1, ?_⟩
  intro hrun
  by_contra hne
  exact hrun (h1 hne)

/-- C16 at an event for `java.lang.RuntimeException`. -/
theorem callbackEventHandler_notSentinel_witness :
    ("Ljava/lang/RuntimeException;".toList ≠ sentinelSignature →
        callbackEventHandler
            { sampleEnv with getClassSignature := .ok "Ljava/lang/RuntimeException;".toList }
          = .returned [])
      ∧ (callbackEventHandler
            { sampleEnv with getClassSignature := .ok "Ljava/lang/RuntimeException;".toList }
          ≠ .returned [] → "Ljava/lang/RuntimeException;".toList = sentinelSignature) :=
  callbackEventHandler_notSentinel
    { sampleEnv with getClassSignature := .ok "Ljava/lang/RuntimeException;".toList }
    "Ljava/lang/RuntimeException;".toList rfl

/-- C17, as amended: if the local-variable-table lookup for frame 0 fails, the
frame lines already collected are kept and the handler goes to serialization
at once: whatever the declaring class and its fields are, the payload is the one
of the frame loop, without any local-variable, static-field or heap-detail
line. -/
theorem callbackEventHandler_tableFailure (env : Env) (count : Nat)
    (frames : List FrameInfo) (threadInfo : ThreadInfo) (c1 : Capture) (e : Str)
    (hsig : env.getClassSignature = .ok sentinelSignature)
    (hcount : env.getFrameCount = .ok count) (hpos : count ≠ 0)
    (hframes : env.getStackTrace = .ok frames)
    (hthread : env.getThreadInfo = .ok threadInfo)
    (hc1 : forEach frameStep frames ⟨[], initialPayload env threadInfo⟩ = .ok c1)
    (htable : env.getLocalVariableTable = .error e) :
    callbackEventHandler env
        = .serialized
            (c1.dialogs ++ [e ++ ": ".toList
              ++ "Cannot get local variable table for current stack frame.".toList])
            c1.payload
      ∧ c1.payload.localVars = []
      ∧ c1.payload.staticFields = []
      ∧ c1.payload.heapByteData = [] := by
  have h1 := forEach_invariant frameStep (fun c => c.payload.outsideFrames)
    frameStep_outsideFrames frames _ c1 hc1
  simp only [VisualizerPayload.outsideFrames, initialPayload, Prod.mk.injEq] at h1
  obtain ⟨-, -, h1l, h1s, h1h⟩ := h1
  refine ⟨?_, h1l, h1s, h1h⟩
  unfold callbackEventHandler
  rw [hsig]
  simp only [ne_eq, not_true_eq_false, if_false, hcount, hframes, hthread]
  have hc1b : forEach frameStep frames
      ⟨[], { threadInfo := threadInfo, metrics := env.runtimeMetrics, methodNames := [],
             localVars := [], staticFields := [], heapByteData := [] }⟩ = .ok c1 := hc1
  rw [hc1b]
  simp only [hpos, if_false]
  unfold captureLocals
  rw [htable]
  rfl

/-- C17 at the sample event with a failing table lookup, for a class with the
static field `int count`. -/
theorem callbackEventHandler_tableFailure_witness :
    callbackEventHandler sampleEnvNoTable
        = .serialized
            (sampleAfterFrames.dialogs ++ ["JVMTI_ERROR_ABSENT_INFORMATION".toList ++ ": ".toList
              ++ "Cannot get local variable table for current stack frame.".toList])
            sampleAfterFrames.payload
      ∧ sampleAfterFrames.payload.localVars = []
      ∧ sampleAfterFrames.payload.staticFields = []
      ∧ sampleAfterFrames.payload.heapByteData = [] :=
  callbackEventHandler_tableFailure sampleEnvNoTable 2
    [⟨.ok ("main".toList, "([Ljava/lang/String;)V".toList), .ok 9⟩] ⟨"main".toList, 5⟩
    sampleAfterFrames "JVMTI_ERROR_ABSENT_INFORMATION".toList
    (by decide) (by decide) (by decide) (by decide) (by decide) (by decide) (by decide)

/-- C17 fails as stated: with a failing table lookup the static field
`int count` of the declaring class is not added to the snapshot, although the
same event with a readable table has its line. -/
theorem callbackEventHandler_tableFailure_counterexample :
    (callbackEventHandler sampleEnvNoTable).written.map VisualizerPayload.staticFields
        = some []
      ∧ (callbackEventHandler
            { sampleEnvNoTable with getLocalVariableTable := .ok [sampleLocalInt] }).written.map
          VisualizerPayload.staticFields
        = some ["static int\x07count\x073".toList] := by
  decide

theorem and_static_ne_zero_iff (modifiers : Nat) :
    modifiers &&& JVMTI_HEAP_REFERENCE_STATIC_FIELD ≠ 0 ↔ modifiers.testBit 3 = true := by
  have h8 : JVMTI_HEAP_REFERENCE_STATIC_FIELD = 2 ^ 3 := rfl
  rw [h8]
  constructor
  · intro h
    by_contra hb
    apply h
    apply Nat.eq_of_testBit_eq
    intro i
    rw [Nat.testBit_and, Nat.testBit_two_pow, Nat.zero_testBit]
    by_cases hi : 3 = i
    · subst hi
      simp [hb]
    · simp [hi]
  · intro hb h
    have h2 := congrArg (fun x => x.testBit 3) h
    simp only [Nat.testBit_and, hb, Nat.testBit_two_pow_self, Bool.and_self,
      Nat.zero_testBit] at h2
    exact absurd h2 (by decide)

theorem frameStep_methodNames (decodeMethod : Str → Str → Str) (c : Capture) (frame : FrameInfo)
    (hdec : ∀ name descriptor modifiers, frame.getMethodName = .ok (name, descriptor) →
      frame.getMethodModifiers = .ok modifiers →
      decodeJVMTypeSignature name descriptor true = .ok (decodeMethod name descriptor)) :
    ∃ c2, frameStep c frame = .ok c2
      ∧ c2.payload.methodNames
          = c.payload.methodNames ++ (frameLine decodeMethod frame).toList := by
  unfold frameStep frameLine
  cases hn : frame.getMethodName with
  | error e => exact ⟨_, rfl, by simp⟩
  | ok pair =>
    obtain ⟨name, descriptor⟩ := pair
    cases hm : frame.getMethodModifiers with
    | error e => exact ⟨_, rfl, by simp⟩
    | ok modifiers =>
      simp only [hdec name descriptor modifiers hn hm]
      by_cases hb : modifiers.testBit 3 = true
      · have hs := (and_static_ne_zero_iff modifiers).mpr hb
        exact ⟨_, rfl, by simp [hs, hb]⟩
      · have hs : ¬ (modifiers &&& JVMTI_HEAP_REFERENCE_STATIC_FIELD ≠ 0) :=
          fun h => hb ((and_static_ne_zero_iff modifiers).mp h)
        exact ⟨_, rfl, by simp [hs, hb]⟩

/-- C18: the frame section is, in stack order, one line for each frame whose
method-name lookup and modifier lookup both succeed and no line for a frame
where one of them fails; each line is the decoded declaration of the method,
prefixed with `static ` exactly when bit `0x0008` of its modifiers is set. -/
theorem forEach_frameStep_methodNames (decodeMethod : Str → Str → Str)
    (frames : List FrameInfo) (c : Capture)
    (hdec : ∀ frame ∈ frames, ∀ name descriptor modifiers,
      frame.getMethodName = .ok (name, descriptor) →
      frame.getMethodModifiers = .ok modifiers →
      decodeJVMTypeSignature name descriptor true = .ok (decodeMethod name descriptor)) :
    ∃ c2, forEach frameStep frames c = .ok c2
      ∧ c2.payload.methodNames
          = c.payload.methodNames ++ frames.filterMap (frameLine decodeMethod) := by
  induction frames generalizing c with
  | nil => exact ⟨c, rfl, by simp⟩
  | cons frame rest ih =>
    obtain ⟨c1, hstep, hnames⟩ :=
      frameStep_methodNames decodeMethod c frame (hdec frame (by simp))
    obtain ⟨c2, hrest, hnames2⟩ := ih c1 (fun f hf => hdec f (by simp [hf]))
    refine ⟨c2, ?_, ?_⟩
    · rw [forEach, hstep]
      exact hrest
    · rw [hnames2, hnames, List.filterMap_cons]
      cases frameLine decodeMethod frame <;> simp

/-- C18 at a stack of three frames: `main`, a frame whose modifier lookup
fails, and `main` again. -/
theorem forEach_frameStep_methodNames_witness :
    (∃ c2, forEach frameStep [sampleFrameMain, sampleFrameNoModifiers, sampleFrameMain]
          ⟨[], initialPayload sampleEnv ⟨"main".toList, 5⟩⟩ = .ok c2
      ∧ c2.payload.methodNames
          = (initialPayload sampleEnv ⟨"main".toList, 5⟩).methodNames
            ++ [sampleFrameMain, sampleFrameNoModifiers, sampleFrameMain].filterMap
                (frameLine fun _ _ => "void main(java.lang.String[])".toList))
      ∧ [sampleFrameMain, sampleFrameNoModifiers, sampleFrameMain].filterMap
            (frameLine fun _ _ => "void main(java.lang.String[])".toList)
          = ["static void main(java.lang.String[])".toList,
             "static void main(java.lang.String[])".toList] :=
  ⟨forEach_frameStep_methodNames (fun _ _ => "void main(java.lang.String[])".toList)
    [sampleFrameMain, sampleFrameNoModifiers, sampleFrameMain]
    ⟨[], initialPayload sampleEnv ⟨"main".toList, 5⟩⟩
    (by
      intro frame hf name descriptor modifiers hn hm
      simp only [List.mem_cons, List.mem_singleton, List.not_mem_nil, or_false] at hf
      rcases hf with rfl | rfl | rfl
      · cases hn; decide
      · cases hm
      · cases hn; decide),
   by decide⟩

theorem regexReplaceChar_cons (ch : Char) (rest : Str) (c : Char) (repl : Str) :
    regexReplaceChar (ch :: rest) c repl
      = (if ch = c then repl else [ch]) ++ regexReplaceChar rest c repl := by
  simp [regexReplaceChar]

theorem regexReplaceChar_append (s t : Str) (c : Char) (repl : Str) :
    regexReplaceChar (s ++ t) c repl = regexReplaceChar s c repl ++ regexReplaceChar t c repl := by
  simp [regexReplaceChar]

/-- The two successive replacements of the handler amount to one pass that
escapes line feeds and carriage returns. -/
theorem escapeLineBreaks_eq_escapedText (str : Str) : escapeLineBreaks str = escapedText str := by
  unfold escapeLineBreaks escapedText
  induction str with
  | nil => rfl
  | cons ch rest ih =>
    rw [regexReplaceChar_cons, regexReplaceChar_append, ih, List.map_cons, List.flatten_cons]
    congr 1
    by_cases hn : ch = '\n'
    · subst hn
      decide
    · by_cases hr : ch = '\r'
      · subst hr
        decide
      · simp [hn, hr, regexReplaceChar]

theorem escapedText_no_lineBreak (display : Str) :
    '\n' ∉ escapedText display ∧ '\r' ∉ escapedText display := by
  unfold escapedText
  induction display with
  | nil => simp
  | cons ch rest ih =>
    simp only [List.map_cons, List.flatten_cons, List.mem_append, not_or]
    refine ⟨⟨?_, ih.1⟩, ⟨?_, ih.2⟩⟩
    · split_ifs with h1 h2
      · decide
      · decide
      · simpa using fun e => h1 e.symm
    · split_ifs with h1 h2
      · decide
      · decide
      · simpa using fun e => h2 e.symm

theorem referenceValue_no_lineBreak (r : Option JObject) :
    '\n' ∉ referenceValue r ∧ '\r' ∉ referenceValue r := by
  cases r with
  | none => decide
  | some obj => exact escapedText_no_lineBreak obj.toStringChars

theorem arrayDetail_localVars (c : Capture) (signature str : Str) (obj : JObject)
    (c2 : Capture) (h : arrayDetail c signature str obj = .ok c2) :
    c2.payload.localVars = c.payload.localVars := by
  unfold arrayDetail at h
  split at h
  · cases h
  · cases h; rfl

theorem objectDetail_localVars (c : Capture) (str : Str) (obj : JObject) (c2 : Capture)
    (h : objectDetail c str obj = .ok c2) :
    c2.payload.localVars = c.payload.localVars := by
  unfold objectDetail at h
  split at h
  · cases h
  · split at h <;> (cases h; rfl)

/-- C19: for every reference-typed local variable (descriptor begins with `[`
or `L`, with type label `label`) whose read succeeds, the emitted line is the
type label, the separator, the name, the separator and the value, where the
value is `null` for a null reference and else the display string with every
line feed and carriage return escaped; the value holds no raw line feed or
carriage return, and a null reference adds no heap detail. -/
theorem localStep_reference (c : Capture) (v : LocalVariableEntry) (r : Option JObject)
    (label : Str)
    (hfirst : v.signature.head? = some '[' ∨ v.signature.head? = some 'L')
    (hread : v.getLocalObject = .ok r)
    (hlabel : dataTypeFormatter v.signature = .ok label) :
    (∀ c2, localStep c v = .ok c2 →
        c2.payload.localVars = c.payload.localVars
          ++ [label ++ ['\x07'] ++ v.name ++ ['\x07'] ++ referenceValue r])
      ∧ (r = none →
          localStep c v
            = .ok (c.pushLocal (label ++ ['\x07'] ++ v.name ++ ['\x07'] ++ "null".toList))
          ∧ (c.pushLocal (label ++ ['\x07'] ++ v.name ++ ['\x07']
                ++ "null".toList)).payload.heapByteData = c.payload.heapByteData)
      ∧ (∀ obj, r = some obj →
          localStep c v
            = if v.signature.head? = some '[' then
                arrayDetail
                  (c.pushLocal (label ++ ['\x07'] ++ v.name ++ ['\x07'] ++ referenceValue r))
                  v.signature (referenceValue r) obj
              else
                objectDetail
                  (c.pushLocal (label ++ ['\x07'] ++ v.name ++ ['\x07'] ++ referenceValue r))
                  (referenceValue r) obj)
      ∧ '\n' ∉ referenceValue r ∧ '\r' ∉ referenceValue r := by
  have hline := fun value => entryLine_of_label v.name v.signature value label hlabel
  have hnot : ¬ (v.signature.head? = some 'B' ∨ v.signature.head? = some 'S'
      ∨ v.signature.head? = some 'I' ∨ v.signature.head? = some 'C'
      ∨ v.signature.head? = some 'Z') := by
    rcases hfirst with h | h <;> rw [h] <;> decide
  have hD : ¬ v.signature.head? = some 'D' := by
    rcases hfirst with h | h <;> rw [h] <;> decide
  have hF : ¬ v.signature.head? = some 'F' := by
    rcases hfirst with h | h <;> rw [h] <;> decide
  have hJ : ¬ v.signature.head? = some 'J' := by
    rcases hfirst with h | h <;> rw [h] <;> decide
  have hnull : r = none →
      localStep c v
        = .ok (c.pushLocal (label ++ ['\x07'] ++ v.name ++ ['\x07'] ++ "null".toList)) := by
    intro hr
    subst hr
    unfold localStep
    simp only [hnot, hD, hF, hJ, hfirst, hread, hline, if_false, if_true]
  have hsome : ∀ obj, r = some obj →
      localStep c v
        = if v.signature.head? = some '[' then
            arrayDetail
              (c.pushLocal (label ++ ['\x07'] ++ v.name ++ ['\x07'] ++ referenceValue r))
              v.signature (referenceValue r) obj
          else
            objectDetail
              (c.pushLocal (label ++ ['\x07'] ++ v.name ++ ['\x07'] ++ referenceValue r))
              (referenceValue r) obj := by
    intro obj hr
    subst hr
    unfold localStep
    simp only [hnot, hD, hF, hJ, hfirst, hread, hline, if_false, if_true, referenceValue,
      ← escapeLineBreaks_eq_escapedText]
    by_cases hb : v.signature.head? = some '['
    · simp only [hb, if_true]
    · have hL : v.signature.head? = some 'L' := hfirst.resolve_left hb
      simp only [hb, hL, if_false, if_true]
  refine ⟨?_, fun hr => ⟨hnull hr, rfl⟩, hsome, referenceValue_no_lineBreak r⟩
  intro c2 hc2
  cases r with
  | none =>
    rw [hnull rfl] at hc2
    cases hc2
    rfl
  | some obj =>
    rw [hsome obj rfl] at hc2
    split_ifs at hc2
    · rw [arrayDetail_localVars _ _ _ _ _ hc2]
      rfl
    · rw [objectDetail_localVars _ _ _ _ hc2]
      rfl

/-- C19 at the local variable `String s` whose text holds a line feed and a
carriage return. -/
theorem localStep_reference_witness :
    localStep sampleAfterFrames sampleLocalString
        = objectDetail
            (sampleAfterFrames.pushLocal "java.lang.String\x07s\x07a\\nb\\rc".toList)
            "a\\nb\\rc".toList sampleString
      ∧ localStep sampleAfterFrames sampleLocalString
        = .ok (sampleAfterFrames.pushLocal "java.lang.String\x07s\x07a\\nb\\rc".toList)
      ∧ '\n' ∉ "a\\nb\\rc".toList
      ∧ '\r' ∉ "a\\nb\\rc".toList :=
  have h := localStep_reference sampleAfterFrames sampleLocalString (some sampleString)
    "java.lang.String".toList (by decide) (by decide) (by decide)
  ⟨h.2.2.1 sampleString rfl, (h.2.2.1 sampleString rfl).trans (by decide), h.2.2.2.1,
    h.2.2.2.2⟩

/-! ## The heap-detail map of the visualizer -/

theorem split_eq_takeWhile_cons (line : Str) (sep : Char) :
    split line sep
      = (line.takeWhile fun ch => ch ≠ sep)
        :: (if sep ∈ line then split ((line.dropWhile fun ch => ch ≠ sep).drop 1) sep else []) := by
  induction line with
  | nil => simp [split]
  | cons ch rest ih =>
    by_cases h : ch = sep
    · subst h
      simp [split]
    · have hmem : (sep ∈ ch :: rest) ↔ sep ∈ rest := by
        constructor
        · intro hm
          rcases List.mem_cons.mp hm with e | e
          · exact absurd e.symm h
          · exact e
        · exact fun hm => List.mem_cons_of_mem _ hm
      rw [split, if_neg h, ih]
      simp only [List.takeWhile_cons, List.dropWhile_cons, ne_eq, h, not_false_eq_true,
        decide_True, if_true, hmem]

theorem split_of_mem (line : Str) (h : '\x07' ∈ line) :
    ∃ more, split line '\x07' = heapKey line :: heapDetail line :: more := by
  rw [split_eq_takeWhile_cons, if_pos h, split_eq_takeWhile_cons]
  exact ⟨_, rfl⟩

theorem storeLine_heap (idx : Nat) (line : Str) (data : DebugVisualizer.VisualizerPayload)
    (h1 : idx ≠ 1) (h2 : idx ≠ 2) (h3 : idx ≠ 3) (hsep : '\x07' ∈ line) :
    DebugVisualizer.storeLine idx line data
      = .ok { data with
          heapByteMap := QMap.assign data.heapByteMap (heapKey line) (heapDetail line) } := by
  obtain ⟨more, hs⟩ := split_of_mem line hsep
  unfold DebugVisualizer.storeLine
  simp only [h1, h2, h3, if_false, hs]

theorem storeLines_heap (idx : Nat) (lines : List Str) (data : DebugVisualizer.VisualizerPayload)
    (h1 : idx ≠ 1) (h2 : idx ≠ 2) (h3 : idx ≠ 3) (hsep : ∀ line ∈ lines, '\x07' ∈ line) :
    DebugVisualizer.storeLines idx lines data
      = .ok { data with heapByteMap := heapFold data.heapByteMap lines } := by
  induction lines generalizing data with
  | nil => rfl
  | cons line rest ih =>
    rw [DebugVisualizer.storeLines, storeLine_heap idx line data h1 h2 h3 (hsep line (by simp))]
    simp only
    rw [ih _ (fun l hl => hsep l (by simp [hl]))]
    rfl

theorem storeLines_methodNames (lines : List Str) (data : DebugVisualizer.VisualizerPayload) :
    DebugVisualizer.storeLines 1 lines data
      = .ok { data with methodNames := data.methodNames ++ lines } := by
  induction lines generalizing data with
  | nil => simp [DebugVisualizer.storeLines]
  | cons line rest ih =>
    rw [DebugVisualizer.storeLines]
    simp only [DebugVisualizer.storeLine, if_true]
    rw [ih]
    simp

theorem storeLines_localVars (lines : List Str) (data : DebugVisualizer.VisualizerPayload) :
    DebugVisualizer.storeLines 2 lines data
      = .ok { data with localVars := data.localVars ++ lines } := by
  induction lines generalizing data with
  | nil => simp [DebugVisualizer.storeLines]
  | cons line rest ih =>
    rw [DebugVisualizer.storeLines]
    simp only [DebugVisualizer.storeLine, OfNat.ofNat_ne_one, if_false, if_true]
    rw [ih]
    simp

theorem storeLines_staticFields (lines : List Str) (data : DebugVisualizer.VisualizerPayload) :
    DebugVisualizer.storeLines 3 lines data
      = .ok { data with staticFields := data.staticFields ++ lines } := by
  induction lines generalizing data with
  | nil => simp [DebugVisualizer.storeLines]
  | cons line rest ih =>
    rw [DebugVisualizer.storeLines]
    simp only [DebugVisualizer.storeLine, OfNat.ofNat_ne_one, Nat.reduceEqDiff, if_false, if_true]
    rw [ih]
    simp

theorem sectionLoop_append (lines rest : List Str) (idx : Nat)
    (data : DebugVisualizer.VisualizerPayload)
    (h : "SECTION_END_BEGIN_NEW".toList ∉ lines) :
    DebugVisualizer.sectionLoop (lines ++ rest) idx data
      = match DebugVisualizer.storeLines idx lines data with
        | .error f => .error f
        | .ok data2 => DebugVisualizer.sectionLoop rest idx data2 := by
  induction lines generalizing data with
  | nil => rfl
  | cons line more ih =>
    have hne : line ≠ "SECTION_END_BEGIN_NEW".toList :=
      fun e => h (e ▸ List.mem_cons_self _ _)
    have hmore : "SECTION_END_BEGIN_NEW".toList ∉ more :=
      fun e => h (List.mem_cons_of_mem _ e)
    rw [List.cons_append, DebugVisualizer.sectionLoop, if_neg hne, DebugVisualizer.storeLines]
    cases DebugVisualizer.storeLine idx line data with
    | error f => rfl
    | ok data2 => exact ih data2 hmore

theorem sectionLoop_delimiter (rest : List Str) (idx : Nat)
    (data : DebugVisualizer.VisualizerPayload) :
    DebugVisualizer.sectionLoop ("SECTION_END_BEGIN_NEW".toList :: rest) idx data
      = DebugVisualizer.sectionLoop rest ((idx + 1) % 2 ^ 32) data := by
  rw [DebugVisualizer.sectionLoop, if_pos rfl]

theorem readMetrics_append (metricLines rest : List Str) (metrics : Str) :
    readMetrics metricLines.length (metricLines ++ rest) metrics
      = (metrics ++ linesText metricLines, rest) := by
  induction metricLines generalizing metrics with
  | nil => simp [readMetrics, linesText]
  | cons line more ih =>
    rw [List.length_cons, List.cons_append, readMetrics]
    simp only [List.tail_cons, List.headD_cons]
    rw [ih]
    simp [linesText]

/-- What `deserializePayloadData` builds from a file with three header lines,
seven metrics lines and four delimited sections. -/
theorem deserializePayloadData_sections (text lineNum threadName threadPriority : Str)
    (metricLines frames locals statics heap : List Str)
    (hlines : readLines text []
      = lineNum :: threadName :: threadPriority :: (metricLines
          ++ "SECTION_END_BEGIN_NEW".toList :: (frames
          ++ "SECTION_END_BEGIN_NEW".toList :: (locals
          ++ "SECTION_END_BEGIN_NEW".toList :: (statics
          ++ "SECTION_END_BEGIN_NEW".toList :: heap)))))
    (hmetrics : metricLines.length = 7)
    (hframes : "SECTION_END_BEGIN_NEW".toList ∉ frames)
    (hlocals : "SECTION_END_BEGIN_NEW".toList ∉ locals)
    (hstatics : "SECTION_END_BEGIN_NEW".toList ∉ statics)
    (hheap : "SECTION_END_BEGIN_NEW".toList ∉ heap)
    (hsep : ∀ line ∈ heap, '\x07' ∈ line) :
    DebugVisualizer.deserializePayloadData (some text)
      = .ok { lineNum := lineNum, threadName := threadName, threadPriority := threadPriority,
              metrics := linesText metricLines, methodNames := frames, localVars := locals,
              staticFields := statics, heapByteMap := heapFold [] heap } := by
  have hread := readMetrics_append metricLines
    ("SECTION_END_BEGIN_NEW".toList :: (frames
      ++ "SECTION_END_BEGIN_NEW".toList :: (locals
      ++ "SECTION_END_BEGIN_NEW".toList :: (statics
      ++ "SECTION_END_BEGIN_NEW".toList :: heap)))) []
  rw [hmetrics] at hread
  unfold DebugVisualizer.deserializePayloadData
  simp only [hlines, List.headD_cons, List.tail_cons, hread, List.nil_append,
    sectionLoop_delimiter, sectionLoop_append _ _ _ _ hframes, sectionLoop_append _ _ _ _ hlocals,
    sectionLoop_append _ _ _ _ hstatics, storeLines_methodNames, storeLines_localVars,
    storeLines_staticFields, Nat.reduceAdd, Nat.reducePow, Nat.reduceMod]
  have h4 := sectionLoop_append heap [] 4
    { DebugVisualizer.emptyPayload with
      lineNum := lineNum, threadName := threadName, threadPriority := threadPriority,
      metrics := linesText metricLines, methodNames := [] ++ frames,
      localVars := [] ++ locals, staticFields := [] ++ statics } hheap
  rw [List.append_nil] at h4
  simp only [DebugVisualizer.emptyPayload] at h4 ⊢
  rw [h4, storeLines_heap 4 heap _ (by decide) (by decide) (by decide) hsep]
  simp [DebugVisualizer.sectionLoop]

theorem entries_assign_ne (map : QMap) (key value other : Str) (h : other ≠ key) :
    QMap.entries (QMap.assign map key value) other = QMap.entries map other := by
  have hne : ¬ key = other := fun e => h e.symm
  induction map with
  | nil => simp [QMap.assign, QMap.entries, hne]
  | cons entry rest ih =>
    obtain ⟨k, v⟩ := entry
    by_cases hk : k = key
    · subst hk
      simp [QMap.assign, QMap.entries, hne]
    · by_cases hko : k = other
      · subst hko
        simp [QMap.assign, QMap.entries, hk, ih]
      · simp [QMap.assign, QMap.entries, hk, hko, ih]

theorem entries_assign_self (map : QMap) (key value : Str)
    (hinv : ∀ k, (QMap.entries map k).length ≤ 1) :
    QMap.entries (QMap.assign map key value) key = [value] := by
  induction map with
  | nil => simp [QMap.assign, QMap.entries]
  | cons entry rest ih =>
    obtain ⟨k, v⟩ := entry
    have hrest : ∀ k2, (QMap.entries rest k2).length ≤ 1 := by
      intro k2
      have := hinv k2
      simp only [QMap.entries] at this
      split_ifs at this
      · simp only [List.length_cons] at this
        omega
      · exact this
    by_cases hk : k = key
    · subst hk
      have hk0 := hinv k
      simp only [QMap.entries, if_true, List.length_cons] at hk0
      have hnil : QMap.entries rest k = [] := List.length_eq_zero.mp (by omega)
      simp [QMap.assign, QMap.entries, hnil]
    · simp [QMap.assign, QMap.entries, hk, ih hrest]

theorem entries_assign_length (map : QMap) (key value : Str)
    (hinv : ∀ k, (QMap.entries map k).length ≤ 1) :
    ∀ k, (QMap.entries (QMap.assign map key value) k).length ≤ 1 := by
  intro k
  by_cases hk : k = key
  · subst hk
    rw [entries_assign_self map k value hinv]
    simp
  · rw [entries_assign_ne map key value k hk]
    exact hinv k

/-- After the assignments for the lines of a heap section, a key that occurs
in the section has exactly one entry, with the detail of its last line; any
other key has the entries it had before. -/
theorem entries_heapFold (lines : List Str) (map : QMap) (key : Str)
    (hinv : ∀ k, (QMap.entries map k).length ≤ 1) :
    QMap.entries (heapFold map lines) key
      = match lastDetail lines key with
        | some detail => [detail]
        | none => QMap.entries map key := by
  induction lines generalizing map with
  | nil => rfl
  | cons line rest ih =>
    have hstep : heapFold map (line :: rest)
        = heapFold (QMap.assign map (heapKey line) (heapDetail line)) rest := rfl
    rw [hstep, ih _ (entries_assign_length map _ _ hinv), lastDetail]
    cases hlast : lastDetail rest key with
    | some detail => rfl
    | none =>
      simp only
      by_cases hk : heapKey line = key
      · subst hk
        rw [if_pos rfl, entries_assign_self map _ _ hinv]
      · rw [if_neg hk, entries_assign_ne map _ _ key (fun e => hk e.symm)]

/-- C20: for every data file with four delimited sections whose heap section
holds lines with equal keys, the map built by `deserializePayloadData` holds
exactly one entry under each key of the heap section, and its value is the
detail of the last line with that key; a key that does not occur has no
entry. -/
theorem deserializePayloadData_lastWriteWins (text lineNum threadName threadPriority : Str)
    (metricLines frames locals statics heap : List Str)
    (hlines : readLines text []
      = lineNum :: threadName :: threadPriority :: (metricLines
          ++ "SECTION_END_BEGIN_NEW".toList :: (frames
          ++ "SECTION_END_BEGIN_NEW".toList :: (locals
          ++ "SECTION_END_BEGIN_NEW".toList :: (statics
          ++ "SECTION_END_BEGIN_NEW".toList :: heap)))))
    (hmetrics : metricLines.length = 7)
    (hframes : "SECTION_END_BEGIN_NEW".toList ∉ frames)
    (hlocals : "SECTION_END_BEGIN_NEW".toList ∉ locals)
    (hstatics : "SECTION_END_BEGIN_NEW".toList ∉ statics)
    (hheap : "SECTION_END_BEGIN_NEW".toList ∉ heap)
    (hsep : ∀ line ∈ heap, '\x07' ∈ line) :
    ∃ data, DebugVisualizer.deserializePayloadData (some text) = .ok data
      ∧ ∀ key, QMap.entries data.heapByteMap key = (lastDetail heap key).toList := by
  refine ⟨_, deserializePayloadData_sections text lineNum threadName threadPriority metricLines
    frames locals statics heap hlines hmetrics hframes hlocals hstatics hheap hsep, ?_⟩
  intro key
  simp only
  rw [entries_heapFold heap [] key (by intro k; simp [QMap.entries])]
  cases lastDetail heap key <;> rfl

/-- C20 at a file whose heap section has the key `k` on its first and on its
third line. -/
theorem deserializePayloadData_lastWriteWins_witness :
    (∃ data, DebugVisualizer.deserializePayloadData (some sampleFile) = .ok data
      ∧ ∀ key, QMap.entries data.heapByteMap key
          = (lastDetail ["k\x07first".toList, "j\x07other".toList, "k\x07last".toList]
              key).toList)
      ∧ lastDetail ["k\x07first".toList, "j\x07other".toList, "k\x07last".toList] "k".toList
          = some "last".toList :=
  ⟨deserializePayloadData_lastWriteWins sampleFile "42".toList "NAME: main".toList
    "PRIORITY: NORMAL".toList
    ["m1".toList, "m2".toList, "m3".toList, "m4".toList, "m5".toList, "m6".toList, "m7".toList]
    ["void main()".toList] ["int\x07x\x077".toList] []
    ["k\x07first".toList, "j\x07other".toList, "k\x07last".toList]
    (by decide) (by decide) (by decide) (by decide) (by decide) (by decide) (by decide),
   by decide⟩

/-! ## Producer and consumer of the data file -/

theorem readLines_line (line rest acc : Str) (h : '\n' ∉ line) :
    readLines (line ++ '\n' :: rest) acc
      = dropCarriageReturn (acc ++ line) :: readLines rest [] := by
  induction line generalizing acc with
  | nil => simp [readLines]
  | cons ch more ih =>
    have hch : ch ≠ '\n' := fun e => h (e ▸ List.mem_cons_self _ _)
    have hmore : '\n' ∉ more := fun e => h (List.mem_cons_of_mem _ e)
    rw [List.cons_append, readLines, if_neg hch, ih _ hmore]
    simp

theorem readLines_linesText (lines : List Str) (rest : Str) (h : ∀ line ∈ lines, '\n' ∉ line) :
    readLines (linesText lines ++ rest) []
      = lines.map dropCarriageReturn ++ readLines rest [] := by
  induction lines with
  | nil => simp [linesText]
  | cons line more ih =>
    have e : linesText (line :: more) ++ rest = line ++ '\n' :: (linesText more ++ rest) := by
      simp [linesText]
    rw [e, readLines_line _ _ _ (h line (List.mem_cons_self _ _)),
      ih (fun l hl => h l (List.mem_cons_of_mem _ hl))]
    simp

theorem dropCarriageReturn_of_not_mem (line : Str) (h : '\r' ∉ line) :
    dropCarriageReturn line = line := by
  unfold dropCarriageReturn
  rw [if_neg]
  intro hlast
  exact h (List.mem_of_getLast?_eq_some hlast)

theorem map_dropCarriageReturn (lines : List Str) (h : ∀ line ∈ lines, '\r' ∉ line) :
    lines.map dropCarriageReturn = lines := by
  conv_rhs => rw [← List.map_id lines]
  exact List.map_congr_left fun l hl => dropCarriageReturn_of_not_mem l (h l hl)

theorem priorityName_no_lineFeed (priority : Int) : '\n' ∉ priorityName priority := by
  unfold priorityName
  split_ifs <;> decide

theorem linesText_append (xs ys : List Str) : linesText (xs ++ ys) = linesText xs ++ linesText ys := by
  simp [linesText]

theorem linesText_cons (x : Str) (xs : List Str) :
    linesText (x :: xs) = x ++ '\n' :: linesText xs := by
  simp [linesText]

/-- The text of the file protocol is the text of its lines, each closed by a
line feed, when the metrics text is a non-empty list of lines joined by line
feeds. -/
theorem protocolText_eq_linesText (token : Str) (data : VisualizerPayload)
    (metricLines : List Str) (hne : metricLines ≠ [])
    (hmetrics : data.metrics = "\n".toList.intercalate metricLines) :
    protocolText token data = linesText (protocolLines token data metricLines) := by
  have hm : data.metrics ++ ['\n'] = linesText metricLines := by
    rw [hmetrics]
    unfold linesText
    exact (flatten_map_append_sep "\n".toList metricLines hne).symm
  have hd : delimiterLine = "SECTION_END_BEGIN_NEW".toList ++ ['\n'] := by decide
  unfold protocolText protocolLines
  simp only [linesText_append, linesText_cons, ← hm, hd]
  simp [linesText]

/-- What `deserializePayloadData` recovers from the file that
`serializeDataStruct` writes. -/
theorem deserialize_serialize_sections (data : VisualizerPayload) (prior : Str)
    (metricLines : List Str)
    (hname : '\n' ∉ data.threadInfo.name)
    (hmetrics : data.metrics = "\n".toList.intercalate metricLines)
    (hseven : metricLines.length = 7)
    (hmline : ∀ line ∈ metricLines, '\n' ∉ line)
    (hlines : ∀ line ∈ data.methodNames ++ data.localVars ++ data.staticFields
        ++ data.heapByteData,
      '\n' ∉ line ∧ '\r' ∉ line ∧ line ≠ "SECTION_END_BEGIN_NEW".toList)
    (hsep : ∀ line ∈ data.heapByteData, '\x07' ∈ line) :
    DebugVisualizer.deserializePayloadData (some (serializeDataStruct data prior))
      = .ok { lineNum := dropCarriageReturn (readToken prior),
              threadName := dropCarriageReturn ("NAME: ".toList ++ data.threadInfo.name),
              threadPriority := dropCarriageReturn
                ("PRIORITY: ".toList ++ priorityName data.threadInfo.priority),
              metrics := linesText (metricLines.map dropCarriageReturn),
              methodNames := data.methodNames, localVars := data.localVars,
              staticFields := data.staticFields,
              heapByteMap := heapFold [] data.heapByteData } := by
  have hne : metricLines ≠ [] := by
    intro e
    rw [e] at hseven
    cases hseven
  have hf : ∀ line ∈ data.methodNames,
      '\n' ∉ line ∧ '\r' ∉ line ∧ line ≠ "SECTION_END_BEGIN_NEW".toList :=
    fun l hl => hlines l (by simp [hl])
  have hl : ∀ line ∈ data.localVars,
      '\n' ∉ line ∧ '\r' ∉ line ∧ line ≠ "SECTION_END_BEGIN_NEW".toList :=
    fun l hl => hlines l (by simp [hl])
  have hs : ∀ line ∈ data.staticFields,
      '\n' ∉ line ∧ '\r' ∉ line ∧ line ≠ "SECTION_END_BEGIN_NEW".toList :=
    fun l hl => hlines l (by simp [hl])
  have hh : ∀ line ∈ data.heapByteData,
      '\n' ∉ line ∧ '\r' ∉ line ∧ line ≠ "SECTION_END_BEGIN_NEW".toList :=
    fun l hl => hlines l (by simp [hl])
  have hdelim : dropCarriageReturn "SECTION_END_BEGIN_NEW".toList
      = "SECTION_END_BEGIN_NEW".toList := by decide
  have hnl : ∀ line ∈ protocolLines (readToken prior) data metricLines, '\n' ∉ line := by
    intro line hmem
    unfold protocolLines at hmem
    simp only [List.mem_append, List.mem_cons, List.mem_singleton, List.not_mem_nil,
      or_false] at hmem
    have hd : '\n' ∉ "SECTION_END_BEGIN_NEW".toList := by decide
    rcases hmem with ((((((h | h | h) | h) | h | h) | h | h) | h | h) | h | h)
    · rw [h]; exact not_newline_mem_readToken prior
    · rw [h]
      intro hm
      rcases List.mem_append.mp hm with h1 | h1
      · exact absurd h1 (by decide)
      · exact hname h1
    · rw [h]
      intro hm
      rcases List.mem_append.mp hm with h1 | h1
      · exact absurd h1 (by decide)
      · exact priorityName_no_lineFeed _ h1
    · exact hmline line h
    · rw [h]; exact hd
    · exact (hf line h).1
    · rw [h]; exact hd
    · exact (hl line h).1
    · rw [h]; exact hd
    · exact (hs line h).1
    · rw [h]; exact hd
    · exact (hh line h).1
  have hread : readLines (serializeDataStruct data prior) []
      = dropCarriageReturn (readToken prior)
        :: dropCarriageReturn ("NAME: ".toList ++ data.threadInfo.name)
        :: dropCarriageReturn ("PRIORITY: ".toList ++ priorityName data.threadInfo.priority)
        :: (metricLines.map dropCarriageReturn
          ++ "SECTION_END_BEGIN_NEW".toList :: (data.methodNames
          ++ "SECTION_END_BEGIN_NEW".toList :: (data.localVars
          ++ "SECTION_END_BEGIN_NEW".toList :: (data.staticFields
          ++ "SECTION_END_BEGIN_NEW".toList :: data.heapByteData)))) := by
    have h0 := readLines_linesText (protocolLines (readToken prior) data metricLines) [] hnl
    rw [List.append_nil] at h0
    rw [serializeDataStruct_eq, protocolText_eq_linesText _ _ metricLines hne hmetrics, h0]
    unfold protocolLines
    simp only [List.map_append, List.map_cons, List.map_nil, hdelim,
      map_dropCarriageReturn _ (fun l h => (hf l h).2.1),
      map_dropCarriageReturn _ (fun l h => (hl l h).2.1),
      map_dropCarriageReturn _ (fun l h => (hs l h).2.1),
      map_dropCarriageReturn _ (fun l h => (hh l h).2.1)]
    simp [readLines]
  exact deserializePayloadData_sections _ _ _ _ _ _ _ _ _ hread
    (by simpa using hseven)
    (fun hm => (hf _ hm).2.2 rfl) (fun hm => (hl _ hm).2.2 rfl)
    (fun hm => (hs _ hm).2.2 rfl) (fun hm => (hh _ hm).2.2 rfl) hsep

/-- C21, as amended: for every payload whose thread name holds no line feed,
whose metrics text is exactly seven lines (joined by line feeds, without a final
one), whose payload lines hold no line feed and no carriage return and differ
from the delimiter, and whose heap lines each hold the separator,
`deserializePayloadData` applied to the output of `serializeDataStruct` recovers
methodNames, localVars and staticFields as the same lists, and a heap map in
which each key has one entry: the text between the first and the second
separator of the last heap line with that key. -/
theorem deserialize_serialize (data : VisualizerPayload) (prior : Str)
    (metricLines : List Str)
    (hname : '\n' ∉ data.threadInfo.name)
    (hmetrics : data.metrics = "\n".toList.intercalate metricLines)
    (hseven : metricLines.length = 7)
    (hmline : ∀ line ∈ metricLines, '\n' ∉ line)
    (hlines : ∀ line ∈ data.methodNames ++ data.localVars ++ data.staticFields
        ++ data.heapByteData,
      '\n' ∉ line ∧ '\r' ∉ line ∧ line ≠ "SECTION_END_BEGIN_NEW".toList)
    (hsep : ∀ line ∈ data.heapByteData, '\x07' ∈ line) :
    ∃ recovered,
      DebugVisualizer.deserializePayloadData (some (serializeDataStruct data prior))
        = .ok recovered
      ∧ recovered.methodNames = data.methodNames
      ∧ recovered.localVars = data.localVars
      ∧ recovered.staticFields = data.staticFields
      ∧ ∀ key, QMap.entries recovered.heapByteMap key
          = (lastDetail data.heapByteData key).toList := by
  refine ⟨_, deserialize_serialize_sections data prior metricLines hname hmetrics hseven hmline
    hlines hsep, rfl, rfl, rfl, ?_⟩
  intro key
  simp only
  rw [entries_heapFold data.heapByteData [] key (by intro k; simp [QMap.entries])]
  cases lastDetail data.heapByteData key <;> rfl

/-- C21 at a payload with one line in each section and two heap lines under the
key `k`. -/
theorem deserialize_serialize_witness :
    (∃ recovered,
      DebugVisualizer.deserializePayloadData
          (some (serializeDataStruct sampleRoundTrip "42\n".toList))
        = .ok recovered
      ∧ recovered.methodNames = sampleRoundTrip.methodNames
      ∧ recovered.localVars = sampleRoundTrip.localVars
      ∧ recovered.staticFields = sampleRoundTrip.staticFields
      ∧ ∀ key, QMap.entries recovered.heapByteMap key
          = (lastDetail sampleRoundTrip.heapByteData key).toList)
      ∧ lastDetail sampleRoundTrip.heapByteData "k".toList = some "last".toList :=
  ⟨deserialize_serialize sampleRoundTrip "42\n".toList
    ["m1".toList, "m2".toList, "m3".toList, "m4".toList, "m5".toList, "m6".toList, "m7".toList]
    (by decide) (by decide) (by decide) (by decide) (by decide) (by decide),
   by decide⟩

/-- C21 fails as stated: the payload `sampleNameWithLineFeed` has seven metrics
lines, payload lines without line feed, carriage return and delimiter, and heap
lines with the separator, but its thread name holds a line feed. The header of
the written file has one line more, the seventh metrics line is taken for a
heap line, and the consumer reads `components[1]` of a line without separator:
nothing is recovered. -/
theorem deserialize_serialize_counterexample :
    sampleNameWithLineFeed.metrics
        = "\n".toList.intercalate
            ["m1".toList, "m2".toList, "m3".toList, "m4".toList, "m5".toList, "m6".toList,
              "m7".toList]
      ∧ (∀ line ∈ sampleNameWithLineFeed.methodNames ++ sampleNameWithLineFeed.localVars
            ++ sampleNameWithLineFeed.staticFields ++ sampleNameWithLineFeed.heapByteData,
          '\n' ∉ line ∧ '\r' ∉ line ∧ line ≠ "SECTION_END_BEGIN_NEW".toList)
      ∧ (∀ line ∈ sampleNameWithLineFeed.heapByteData, '\x07' ∈ line)
      ∧ DebugVisualizer.deserializePayloadData
            (some (serializeDataStruct sampleNameWithLineFeed "42\n".toList))
          = .error .undefinedBehaviour := by
  decide

/-! ## Safety of the parameter tokenizer -/

/-- One iteration of the tokenizer loop over a well-formed parameter descriptor
stays inside the parameter block. -/
theorem tokenizeOverRead_step (fuel : Nat) (p : TypeDescriptor) (rest : Str)
    (h : p.WellFormed) :
    tokenizeOverRead (fuel + 1) (p.text ++ rest) = tokenizeOverRead fuel rest := by
  obtain ⟨n, base⟩ := p
  have hprim : ∀ c : Char, c ≠ 'L' → c ≠ '[' →
      tokenizeOverRead (fuel + 1) (List.replicate n '[' ++ [c] ++ rest)
        = tokenizeOverRead fuel rest := by
    intro c hL hb
    cases n with
    | zero => simp [tokenizeOverRead, hL, hb]
    | succ k =>
      have e : List.replicate (k + 1) '[' ++ [c] ++ rest
          = '[' :: (List.replicate k '[' ++ c :: rest) := by simp [List.replicate_succ]
      have hrun : bracketRun ('[' :: (List.replicate k '[' ++ c :: rest)) []
          = (List.replicate (k + 1) '[', c :: rest) := by
        have := bracketRun_replicate (k + 1) c rest [] hb
        simpa [List.replicate_succ] using this
      rw [e, tokenizeOverRead]
      simp only [hrun, hL, if_false, Char.reduceEq, or_true, if_true]
  cases base with
  | object name =>
    have hs : ';' ∉ name := h.1
    show tokenizeOverRead (fuel + 1) (List.replicate n '[' ++ ('L' :: name ++ [';']) ++ rest)
      = tokenizeOverRead fuel rest
    have hobj : ∀ temp : Str, objectRun ('L' :: (name ++ ';' :: rest)) temp
        = .ok (temp ++ 'L' :: name, ';' :: rest) := by
      intro temp
      have := objectRun_body ('L' :: name) rest temp (by simp [hs])
      simpa using this
    cases n with
    | zero =>
      have e : List.replicate 0 '[' ++ ('L' :: name ++ [';']) ++ rest
          = 'L' :: (name ++ ';' :: rest) := by simp
      rw [e, tokenizeOverRead]
      simp [bracketRun, hobj]
    | succ k =>
      have e : List.replicate (k + 1) '[' ++ ('L' :: name ++ [';']) ++ rest
          = '[' :: (List.replicate k '[' ++ 'L' :: (name ++ ';' :: rest)) := by
        simp [List.replicate_succ]
      have hrun : bracketRun ('[' :: (List.replicate k '[' ++ 'L' :: (name ++ ';' :: rest))) []
          = (List.replicate (k + 1) '[', 'L' :: (name ++ ';' :: rest)) := by
        have := bracketRun_replicate (k + 1) 'L' (name ++ ';' :: rest) [] (by decide)
        simpa [List.replicate_succ] using this
      rw [e, tokenizeOverRead]
      simp only [hrun, hobj, if_true, Char.reduceEq, or_true, List.tail_cons]
  | boolean => exact hprim 'Z' (by decide) (by decide)
  | byte => exact hprim 'B' (by decide) (by decide)
  | char => exact hprim 'C' (by decide) (by decide)
  | short => exact hprim 'S' (by decide) (by decide)
  | int => exact hprim 'I' (by decide) (by decide)
  | long => exact hprim 'J' (by decide) (by decide)
  | float => exact hprim 'F' (by decide) (by decide)
  | double => exact hprim 'D' (by decide) (by decide)
  | void => exact hprim 'V' (by decide) (by decide)

theorem tokenizeOverRead_descriptors (ps : List TypeDescriptor) (extra : Nat)
    (h : ∀ p ∈ ps, p.WellFormed) :
    tokenizeOverRead (ps.length + extra) (ps.map TypeDescriptor.text).flatten = false := by
  induction ps with
  | nil =>
    cases extra <;> simp [tokenizeOverRead]
  | cons p ps ih =>
    have e : (p :: ps).length + extra = (ps.length + extra) + 1 := by simp; omega
    rw [e, List.map_cons, List.flatten_cons, tokenizeOverRead_step _ _ _ (h p (by simp)),
      ih (fun q hq => h q (by simp [hq]))]

/-- C22, as amended: for every method descriptor `(` p1..pk `)` r in which
each parameter is a well-formed type descriptor without `)`, the parameter block
that `decodeJVMTypeSignature` cuts out is p1..pk, and the tokenizer loop on it
ends within `length + 1` iterations, reads no `params[i]` at or beyond the end
of the block, and produces exactly the tokens p1..pk in order. -/
theorem tokenize_parameterBlock (ps : List TypeDescriptor) (r : Str)
    (hps : ∀ p ∈ ps, p.WellFormed ∧ ')' ∉ p.text) :
    substr ('(' :: (ps.map TypeDescriptor.text).flatten ++ ')' :: r) 1
        (sizeSub (posValue
          (find ('(' :: (ps.map TypeDescriptor.text).flatten ++ ')' :: r) ')')) 1)
        = .ok (ps.map TypeDescriptor.text).flatten
      ∧ tokenize (ps.map TypeDescriptor.text).flatten = .ok (ps.map TypeDescriptor.text)
      ∧ tokenizeOverRead ((ps.map TypeDescriptor.text).flatten.length + 1)
          (ps.map TypeDescriptor.text).flatten = false := by
  set params := (ps.map TypeDescriptor.text).flatten with hparams
  have hwf : ∀ p ∈ ps, p.WellFormed := fun p hp => (hps p hp).1
  have hclose : ')' ∉ params := by
    rw [hparams]
    intro hm
    rcases List.mem_flatten.mp hm with ⟨t, ht, hc⟩
    rcases List.mem_map.mp ht with ⟨q, hq, rfl⟩
    exact (hps q hq).2 hc
  have hsig : '(' :: params ++ ')' :: r = ('(' :: params) ++ (')' :: r) := by simp
  have hfind : find ('(' :: params ++ ')' :: r) ')' = some (params.length + 1) := by
    rw [hsig, find_append_of_not_mem _ _ _ (by simp [hclose]) (by simp)]
    simp
  have hsub : sizeSub (params.length + 1) 1 = params.length := by
    unfold sizeSub
    rw [if_pos (by omega)]
    omega
  have hpar : substr ('(' :: params ++ ')' :: r) 1 params.length = .ok params := by
    unfold substr
    rw [if_neg (by simp)]
    simp
  refine ⟨?_, ?_, ?_⟩
  · rw [hfind]
    simp only [posValue, hsub, hpar]
  · rw [hparams]
    exact tokenize_descriptors ps hwf
  · obtain ⟨extra, he⟩ := Nat.exists_eq_add_of_le (length_le_flatten_text ps)
    have e : params.length + 1 = ps.length + (extra + 1) := by
      rw [hparams]
      omega
    rw [e, hparams]
    exact tokenizeOverRead_descriptors ps (extra + 1) hwf

/-- C22 at the descriptor `(I[Ljava/lang/String;)V`. -/
theorem tokenize_parameterBlock_witness :
    substr "(I[Ljava/lang/String;)V".toList 1
        (sizeSub (posValue (find "(I[Ljava/lang/String;)V".toList ')')) 1)
        = .ok "I[Ljava/lang/String;".toList
      ∧ tokenize "I[Ljava/lang/String;".toList
        = .ok ["I".toList, "[Ljava/lang/String;".toList]
      ∧ tokenizeOverRead ("I[Ljava/lang/String;".toList.length + 1)
          "I[Ljava/lang/String;".toList = false :=
  tokenize_parameterBlock [⟨0, .int⟩, ⟨1, .object "java/lang/String".toList⟩] "V".toList
    (by decide)

/-- C22 fails as stated: in `(La);)V` the parameter `La);` is a well-formed
descriptor whose object name ends at `;`, but the block that the code cuts out
at the first `)` is `La`; the loop over the object name finds no `;`, reads
`params[2]` and `params[3]` past the last character, and produces no tokens. -/
theorem tokenize_parameterBlock_counterexample :
    (TypeDescriptor.mk 0 (.object "a)".toList)).WellFormed
      ∧ '(' :: ([TypeDescriptor.mk 0 (.object "a)".toList)].map TypeDescriptor.text).flatten
            ++ ')' :: "V".toList = "(La);)V".toList
      ∧ substr "(La);)V".toList 1 (sizeSub (posValue (find "(La);)V".toList ')')) 1)
          = .ok "La".toList
      ∧ tokenize "La".toList = .error .undefinedBehaviour
      ∧ tokenizeOverRead ("La".toList.length + 1) "La".toList = true := by
  decide

/-! ## Hex dump and byte groups -/

theorem hexDump_eq_flatten (bytes : List Int) :
    hexDump bytes = (bytes.map fun b => hexInt b ++ [' ']).flatten := by
  have h : ∀ acc : Str,
      bytes.foldl (fun stream b => stream ++ hexInt b ++ [' ']) acc
        = acc ++ (bytes.map fun b => hexInt b ++ [' ']).flatten := by
    induction bytes with
    | nil => simp
    | cons b rest ih =>
      intro acc
      rw [List.foldl_cons, ih]
      simp
  unfold hexDump
  rw [h]
  simp

theorem toDigits_cases :
    ∀ n, n < 128 →
      (Nat.toDigits 16 n = [Nat.digitChar n] ∧ n < 16)
        ∨ (Nat.toDigits 16 n = twoDigits n ∧ 16 ≤ n) := by
  decide

theorem twoDigits_chars :
    ∀ n, n < 128 →
      Nat.digitChar (n / 16) ≠ ' ' ∧ Nat.digitChar (n % 16) ≠ ' '
        ∧ isQSpace (Nat.digitChar (n / 16)) = false
        ∧ isQSpace (Nat.digitChar (n % 16)) = false := by
  decide

theorem hexInt_of_byte (b : Int) (h0 : 0 ≤ b) (h1 : b ≤ 127) :
    hexInt b = Nat.toDigits 16 b.toNat := by
  unfold hexInt
  have hlt : b < 2 ^ 32 := by omega
  rw [Int.emod_eq_of_lt h0 hlt]

/-- The token of a byte in `0..127` holds no space, and one step of the
grouping loop turns it into the two digits of the byte and a space. -/
theorem groupStep_token (formatted_str : Str) (n : Nat) (h : n < 128) :
    ' ' ∉ Nat.toDigits 16 n
      ∧ DebugVisualizer.groupStep formatted_str (Nat.toDigits 16 n)
          = formatted_str ++ twoDigits n ++ [' '] := by
  have hc := twoDigits_chars n h
  rcases toDigits_cases n h with ⟨ht, hlt⟩ | ⟨ht, hge⟩
  · have hdiv : n / 16 = 0 := Nat.div_eq_of_lt hlt
    have hmod : n % 16 = n := Nat.mod_eq_of_lt hlt
    rw [ht]
    constructor
    · rw [hmod] at hc
      simpa using fun e => hc.2.1 e.symm
    · unfold DebugVisualizer.groupStep twoDigits
      rw [hdiv, hmod]
      simp
      rfl
  · rw [ht]
    constructor
    · unfold twoDigits
      simp only [List.mem_cons, List.mem_singleton, List.not_mem_nil, or_false, not_or]
      exact ⟨fun e => hc.1 e.symm, fun e => hc.2.1 e.symm⟩
    · unfold DebugVisualizer.groupStep twoDigits
      simp [DebugVisualizer.pairLoop]

theorem split_token (token rest : Str) (sep : Char) (h : sep ∉ token) :
    split (token ++ sep :: rest) sep = token :: split rest sep := by
  induction token with
  | nil => simp [split]
  | cons ch more ih =>
    have hch : ch ≠ sep := fun e => h (e ▸ List.mem_cons_self _ _)
    have hmore : sep ∉ more := fun e => h (List.mem_cons_of_mem _ e)
    rw [List.cons_append, split, if_neg hch, ih hmore]

theorem split_of_not_mem (token : Str) (sep : Char) (h : sep ∉ token) :
    split token sep = [token] := by
  induction token with
  | nil => rfl
  | cons ch more ih =>
    have hch : ch ≠ sep := fun e => h (e ▸ List.mem_cons_self _ _)
    have hmore : sep ∉ more := fun e => h (List.mem_cons_of_mem _ e)
    rw [split, if_neg hch, ih hmore]

theorem split_tokens (tokens : List Str) (sep : Char) (h : ∀ t ∈ tokens, sep ∉ t) :
    split (tokens.map fun t => t ++ [sep]).flatten sep = tokens ++ [[]] := by
  induction tokens with
  | nil => rfl
  | cons t rest ih =>
    have e : ((t :: rest).map fun t => t ++ [sep]).flatten
        = t ++ sep :: (rest.map fun t => t ++ [sep]).flatten := by simp
    rw [e, split_token _ _ _ (h t (List.mem_cons_self _ _)),
      ih (fun u hu => h u (List.mem_cons_of_mem _ hu))]
    rfl

theorem split_intercalate (groups : List Str) (sep : Char) (hne : groups ≠ [])
    (h : ∀ g ∈ groups, sep ∉ g) :
    split ([sep].intercalate groups) sep = groups := by
  induction groups with
  | nil => exact absurd rfl hne
  | cons g rest ih =>
    cases rest with
    | nil =>
      have e : [sep].intercalate [g] = g := by simp [List.intercalate]
      rw [e, split_of_not_mem g sep (h g (List.mem_cons_self _ _))]
    | cons g2 rest2 =>
      have e : [sep].intercalate (g :: g2 :: rest2)
          = g ++ sep :: [sep].intercalate (g2 :: rest2) := by
        simp [List.intercalate, List.intersperse]
      rw [e, split_token _ _ _ (h g (List.mem_cons_self _ _)),
        ih (by simp) (fun u hu => h u (List.mem_cons_of_mem _ hu))]

theorem foldl_groupStep_tokens (ns : List Nat) (acc : Str) (h : ∀ n ∈ ns, n < 128) :
    (ns.map (Nat.toDigits 16)).foldl DebugVisualizer.groupStep acc
      = acc ++ (ns.map fun n => twoDigits n ++ [' ']).flatten := by
  induction ns generalizing acc with
  | nil => simp
  | cons n rest ih =>
    rw [List.map_cons, List.foldl_cons, (groupStep_token acc n (h n (List.mem_cons_self _ _))).2,
      ih _ (fun m hm => h m (List.mem_cons_of_mem _ hm))]
    simp

theorem groupStep_empty (formatted_str : Str) :
    DebugVisualizer.groupStep formatted_str [] = formatted_str ++ [' '] := by
  simp [DebugVisualizer.groupStep, DebugVisualizer.pairLoop]

theorem collapseSpaces_group (n : Nat) (h : n < 128) (rest : Str) (isSpace : Bool)
    (formatted : Str) :
    DebugVisualizer.collapseSpaces (twoDigits n ++ [' '] ++ rest) isSpace formatted
      = DebugVisualizer.collapseSpaces rest true (formatted ++ twoDigits n ++ [' ']) := by
  have hc := twoDigits_chars n h
  unfold twoDigits
  simp [DebugVisualizer.collapseSpaces, hc.1, hc.2.1]

theorem collapseSpaces_groups (n : Nat) (ns : List Nat) (h : ∀ m ∈ n :: ns, m < 128)
    (isSpace : Bool) (formatted : Str) :
    DebugVisualizer.collapseSpaces
        (((n :: ns).map fun m => twoDigits m ++ [' ']).flatten ++ [' ']) isSpace formatted
      = formatted ++ ((n :: ns).map fun m => twoDigits m ++ [' ']).flatten := by
  induction ns generalizing n isSpace formatted with
  | nil =>
    have e : (([n].map fun m => twoDigits m ++ [' ']).flatten ++ [' '])
        = twoDigits n ++ [' '] ++ [' '] := by simp
    rw [e, collapseSpaces_group n (h n (List.mem_cons_self _ _))]
    simp [DebugVisualizer.collapseSpaces]
  | cons m rest ih =>
    have e : (((n :: m :: rest).map fun k => twoDigits k ++ [' ']).flatten ++ [' '])
        = twoDigits n ++ [' ']
          ++ (((m :: rest).map fun k => twoDigits k ++ [' ']).flatten ++ [' ']) := by simp
    rw [e, collapseSpaces_group n (h n (List.mem_cons_self _ _)),
      ih m (fun k hk => h k (List.mem_cons_of_mem _ hk))]
    simp

theorem trimmed_append_space (c d : Char) (s1 s2 : Str) (hs : c :: s1 = s2 ++ [d])
    (hc : isQSpace c = false) (hd : isQSpace d = false) :
    trimmed (c :: s1 ++ [' ']) = c :: s1 := by
  unfold trimmed
  have h1 : List.dropWhile isQSpace (c :: s1 ++ [' ']) = c :: s1 ++ [' '] := by
    rw [List.cons_append, List.dropWhile_cons_of_neg (by simp [hc])]
  have h2 : (c :: s1 ++ [' ']).reverse = ' ' :: d :: s2.reverse := by
    rw [hs]
    simp
  have hsp : isQSpace ' ' = true := by decide
  rw [h1, h2, List.dropWhile_cons_of_pos hsp, List.dropWhile_cons_of_neg (by simp [hd])]
  rw [hs]
  simp

theorem twoDigits_intercalate_ends (n : Nat) (ns : List Nat) :
    ∃ s1 s2 d, [' '].intercalate ((n :: ns).map twoDigits)
        = Nat.digitChar (n / 16) :: s1
      ∧ Nat.digitChar (n / 16) :: s1 = s2 ++ [d]
      ∧ ∃ m ∈ n :: ns, d = Nat.digitChar (m % 16) := by
  have hne : n :: ns ≠ [] := by simp
  have hhead : ∃ s1, [' '].intercalate ((n :: ns).map twoDigits)
      = Nat.digitChar (n / 16) :: s1 := by
    cases ns with
    | nil => exact ⟨[Nat.digitChar (n % 16)], by simp [List.intercalate, twoDigits]⟩
    | cons m rest =>
      exact ⟨Nat.digitChar (n % 16) :: ' ' :: [' '].intercalate ((m :: rest).map twoDigits),
        by simp [List.intercalate, List.intersperse, twoDigits]⟩
  obtain ⟨s1, h1⟩ := hhead
  have hlast : ∃ s2 m, m ∈ n :: ns ∧ [' '].intercalate ((n :: ns).map twoDigits)
      = s2 ++ [Nat.digitChar (m % 16)] := by
    have hsplit := List.dropLast_append_getLast hne
    refine ⟨((n :: ns).dropLast.map fun k => twoDigits k ++ [' ']).flatten
      ++ [Nat.digitChar ((n :: ns).getLast hne / 16)], (n :: ns).getLast hne,
      List.getLast_mem hne, ?_⟩
    conv_lhs => rw [← hsplit]
    rw [List.map_append, List.map_singleton, intercalate_concat, List.map_map]
    simp only [twoDigits, List.append_assoc, List.singleton_append]
    rfl
  obtain ⟨s2, m, hm, h2⟩ := hlast
  exact ⟨s1, s2, _, h1, by rw [← h1, h2], m, hm, rfl⟩

/-- C23: for every non-empty sequence of bytes in `0..127`, the regrouping of
`onInspectButtonClicked` applied to the hex dump that the agent writes yields
exactly one group per byte, in order, each the value of the byte as two
lower-case hexadecimal digits. -/
theorem regroupedBytes_hexDump (bytes : List Int) (hne : bytes ≠ [])
    (hrange : ∀ b ∈ bytes, 0 ≤ b ∧ b ≤ 127) :
    DebugVisualizer.regroupedBytes (hexDump bytes)
      = bytes.map fun b => twoDigits b.toNat := by
  have hns : ∀ n ∈ bytes.map Int.toNat, n < 128 := by
    intro n hn
    rcases List.mem_map.mp hn with ⟨b, hb, rfl⟩
    have := hrange b hb
    omega
  have htok : (bytes.map fun b => hexInt b ++ [' '])
      = ((bytes.map Int.toNat).map (Nat.toDigits 16)).map fun t => t ++ [' '] := by
    rw [List.map_map, List.map_map]
    apply List.map_congr_left
    intro b hb
    simp only [Function.comp]
    rw [hexInt_of_byte b (hrange b hb).1 (hrange b hb).2]
  have hnosp : ∀ t ∈ (bytes.map Int.toNat).map (Nat.toDigits 16), ' ' ∉ t := by
    intro t ht
    rcases List.mem_map.mp ht with ⟨n, hn, rfl⟩
    exact (groupStep_token [] n (hns n hn)).1
  obtain ⟨n, ns, hcons⟩ : ∃ n ns, bytes.map Int.toNat = n :: ns := by
    cases hb : bytes.map Int.toNat with
    | nil => exact absurd (List.map_eq_nil_iff.mp hb) hne
    | cons n ns => exact ⟨n, ns, rfl⟩
  have hgroups : bytes.map (fun b => twoDigits b.toNat) = (n :: ns).map twoDigits := by
    rw [← hcons, List.map_map]
    rfl
  rw [hcons] at hns
  have hfmt : ((n :: ns).map fun m => twoDigits m ++ [' ']).flatten
      = [' '].intercalate ((n :: ns).map twoDigits) ++ [' '] := by
    rw [← flatten_map_append_sep [' '] ((n :: ns).map twoDigits) (by simp), List.map_map]
    rfl
  obtain ⟨s1, s2, d, h1, h2, m, hm, hd⟩ := twoDigits_intercalate_ends n ns
  have htrim : trimmed ([' '].intercalate ((n :: ns).map twoDigits) ++ [' '])
      = [' '].intercalate ((n :: ns).map twoDigits) := by
    rw [h1]
    exact trimmed_append_space _ d s1 s2 h2 (twoDigits_chars n (hns n (List.mem_cons_self _ _))).2.2.1
      (by rw [hd]; exact (twoDigits_chars m (hns m hm)).2.2.2)
  have hgsp : ∀ g ∈ (n :: ns).map twoDigits, ' ' ∉ g := by
    intro g hg
    rcases List.mem_map.mp hg with ⟨k, hk, rfl⟩
    have hc := twoDigits_chars k (hns k hk)
    unfold twoDigits
    simp only [List.mem_cons, List.mem_singleton, List.not_mem_nil, or_false, not_or]
    exact ⟨fun e => hc.1 e.symm, fun e => hc.2.1 e.symm⟩
  unfold DebugVisualizer.regroupedBytes
  simp only
  rw [hexDump_eq_flatten, htok, split_tokens _ ' ' hnosp, List.foldl_append, hcons,
    foldl_groupStep_tokens (n :: ns) [] hns]
  simp only [List.foldl_cons, List.foldl_nil, List.nil_append, groupStep_empty]
  rw [collapseSpaces_groups n ns hns false [], List.nil_append, hfmt, htrim,
    split_intercalate _ ' ' (by simp) hgsp, hgroups]

/-- C23 at the bytes `0x01`, `0x7f`, `0x10` and `0x00`. -/
theorem regroupedBytes_hexDump_witness :
    hexDump [1, 127, 16, 0] = "1 7f 10 0 ".toList
      ∧ DebugVisualizer.regroupedBytes (hexDump [1, 127, 16, 0])
          = ["01".toList, "7f".toList, "10".toList, "00".toList] :=
  ⟨by decide, regroupedBytes_hexDump [1, 127, 16, 0] (by decide) (by decide)⟩

end Memdbgvis
